import Mathlib

/-!
# Raytracer: intersection tests, shading terms and render loop

A shallow embedding of `src/math/vector_math.h` and `src/raycaster/raycaster.c`, with the
colour checks of the scene reader `src/json/json.c`.

A C `double` is modelled by `Dbl K`: a value of an ordered field `K`, or one of the
three IEEE-754 special values (`+inf`, `-inf`, NaN).  Arithmetic on finite values is
exact (no rounding, no overflow, no underflow) and zero carries no sign; every
operation follows the IEEE-754 rules for the special values, so that a division by
zero, the constant `INFINITY` and the comparisons that are false on NaN are the ones
the C program performs.  The library functions `sqrt`, `cos`, `pow` and the constant
`M_PI` are parameters of the functions that use them (`sqrt` alone, or the record
`Libm`); the theorems that need their properties instantiate `K` with the real numbers
and `sqrt` with `Real.sqrt`.

Since the rounding of finite values is not modelled, a statement about the program is one
of three kinds: a formula written with the operations of the program themselves, for
every value of the arguments; a property of the comparisons and of the control flow,
which no rounding affects; or the evaluation of the program at an input on which every
operation is exact in double precision.  The lemmas over the real field serve these
evaluations.

The scene is a list of `Object`, whose length is `num_objects`.  The loops of `raycaster`
are recursions over that list or folds over the range of indices; the state they change
(the plane normals that `plane_intersection` overwrites, the pixel buffer, the variable
`closest_object`) is passed explicitly.  Rows, columns and sizes are mathematical
integers in the render loop; `pixel_index` gives the index expression as an `int` of
32 bits evaluates it, and the two agree on the images that satisfy `Image.Sized`.

A NULL `type` is `none`.  The two scans of `raycaster` test `type != NULL` before
`strcmp`; `get_camera` and the light loop do not, and for them the model takes a NULL
type to differ from every name, where the C program has no defined behaviour.  The
statements about `get_camera`, the light loop and `raycaster` are therefore made for the
scenes that satisfy `Typed`.
-/

namespace Raytracer

/-- A C `double`: NaN, minus infinity, a finite value, or plus infinity. -/
inductive Dbl (K : Type) where
  | nan : Dbl K
  | ninf : Dbl K
  | fin (x : K) : Dbl K
  | pinf : Dbl K

namespace Dbl

variable {K : Type} [LinearOrderedField K]

/-- Unary minus. -/
def neg : Dbl K → Dbl K
  | nan => nan
  | ninf => pinf
  | fin x => fin (-x)
  | pinf => ninf

/-- Addition: `inf + -inf` is NaN. -/
def add : Dbl K → Dbl K → Dbl K
  | nan, _ => nan
  | _, nan => nan
  | fin x, fin y => fin (x + y)
  | fin _, pinf => pinf
  | fin _, ninf => ninf
  | pinf, fin _ => pinf
  | ninf, fin _ => ninf
  | pinf, pinf => pinf
  | ninf, ninf => ninf
  | pinf, ninf => nan
  | ninf, pinf => nan

/-- Subtraction. -/
def sub (a b : Dbl K) : Dbl K := add a (neg b)

/-- The infinity whose sign is that of the finite nonzero `x`; NaN for `x = 0`. -/
def infOfSign (x : K) : Dbl K :=
  if x = 0 then nan else if 0 < x then pinf else ninf

/-- Multiplication: `0 * inf` is NaN. -/
def mul : Dbl K → Dbl K → Dbl K
  | nan, _ => nan
  | _, nan => nan
  | fin x, fin y => fin (x * y)
  | fin x, pinf => infOfSign x
  | fin x, ninf => infOfSign (-x)
  | pinf, fin y => infOfSign y
  | ninf, fin y => infOfSign (-y)
  | pinf, pinf => pinf
  | ninf, ninf => pinf
  | pinf, ninf => ninf
  | ninf, pinf => ninf

/-- Division: `x / 0` is an infinity for `x ≠ 0` and NaN for `x = 0`; `inf / inf` is NaN. -/
def div : Dbl K → Dbl K → Dbl K
  | nan, _ => nan
  | _, nan => nan
  | fin x, fin y => if y = 0 then infOfSign x else fin (x / y)
  | fin _, pinf => fin 0
  | fin _, ninf => fin 0
  | pinf, fin y => if 0 ≤ y then pinf else ninf
  | ninf, fin y => if 0 ≤ y then ninf else pinf
  | pinf, pinf => nan
  | ninf, ninf => nan
  | pinf, ninf => nan
  | ninf, pinf => nan

instance : Neg (Dbl K) := ⟨neg⟩
instance : Add (Dbl K) := ⟨add⟩
instance : Sub (Dbl K) := ⟨sub⟩
instance : Mul (Dbl K) := ⟨mul⟩
instance : Div (Dbl K) := ⟨div⟩

/-- The C library `sqrt`, over the field square root `sq`: NaN below zero. -/
def sqrt (sq : K → K) : Dbl K → Dbl K
  | nan => nan
  | ninf => nan
  | fin x => if x < 0 then nan else fin (sq x)
  | pinf => pinf

/-- The C library `pow(x, n)` for a natural-number exponent `n`. -/
def pow : Dbl K → Nat → Dbl K
  | nan, n => if n = 0 then fin 1 else nan
  | ninf, n => if n = 0 then fin 1 else if n % 2 = 0 then pinf else ninf
  | fin x, n => fin (x ^ n)
  | pinf, n => if n = 0 then fin 1 else pinf

/-- The C comparison `a < b`: false when either side is NaN. -/
def lt : Dbl K → Dbl K → Bool
  | nan, _ => false
  | _, nan => false
  | fin x, fin y => decide (x < y)
  | ninf, fin _ => true
  | ninf, pinf => true
  | fin _, pinf => true
  | _, _ => false

/-- The C comparison `a <= b`: false when either side is NaN. -/
def le : Dbl K → Dbl K → Bool
  | nan, _ => false
  | _, nan => false
  | fin x, fin y => decide (x ≤ y)
  | ninf, _ => true
  | _, pinf => true
  | _, _ => false

/-- The C comparison `a > b`. -/
def gt (a b : Dbl K) : Bool := lt b a

/-- The C comparison `a >= b`. -/
def ge (a b : Dbl K) : Bool := le b a

end Dbl

/-- A C array `double v[3]`. -/
structure Vec3 (α : Type) where
  c0 : α
  c1 : α
  c2 : α

/-- The array of doubles holding the finite vector `v`. -/
def vfin {K : Type} (v : Vec3 K) : Vec3 (Dbl K) :=
  ⟨Dbl.fin v.c0, Dbl.fin v.c1, Dbl.fin v.c2⟩

section Program

variable {K : Type} [LinearOrderedField K]

open Dbl

/-- Source `normalize` (vector_math.h): the vector divided by its length; the C function
overwrites its argument, the new contents are the result. -/
def normalize (sqrt : K → K) (vector_a : Vec3 (Dbl K)) : Vec3 (Dbl K) :=
  let len := Dbl.sqrt sqrt (pow vector_a.c0 2 + pow vector_a.c1 2 + pow vector_a.c2 2)
  ⟨vector_a.c0 / len, vector_a.c1 / len, vector_a.c2 / len⟩

/-- Source `vector_dot_product` (vector_math.h). -/
def vector_dot_product (vector_a vector_b : Vec3 (Dbl K)) : Dbl K :=
  (vector_a.c0 * vector_b.c0) + (vector_a.c1 * vector_b.c1) + (vector_a.c2 * vector_b.c2)

/-- Source `vector_cross_product` (vector_math.h). -/
def vector_cross_product (vector_a vector_b : Vec3 (Dbl K)) : Vec3 (Dbl K) :=
  ⟨(vector_a.c1 * vector_b.c2) - (vector_a.c2 * vector_b.c1),
   (vector_a.c2 * vector_b.c0) - (vector_a.c0 * vector_b.c2),
   (vector_a.c0 * vector_b.c1) - (vector_a.c1 * vector_b.c0)⟩

/-- Source `vector_length` (vector_math.h). -/
def vector_length (sqrt : K → K) (vector_a : Vec3 (Dbl K)) : Dbl K :=
  Dbl.sqrt sqrt (pow vector_a.c0 2 + pow vector_a.c1 2 + pow vector_a.c2 2)

/-- Source `sphere_intersection` (raycaster.c). -/
def sphere_intersection (sqrt : K → K) (ro rd center : Vec3 (Dbl K)) (radius : Dbl K) :
    Dbl K :=
  let a := pow rd.c0 2 + pow rd.c1 2 + pow rd.c2 2
  let b := fin 2 * (rd.c0 * (ro.c0 - center.c0) + rd.c1 * (ro.c1 - center.c1)
    + rd.c2 * (ro.c2 - center.c2))
  let c := pow (ro.c0 - center.c0) 2 + pow (ro.c1 - center.c1) 2
    + pow (ro.c2 - center.c2) 2 - pow radius 2
  let discriminant := pow b 2 - fin 4 * a * c
  if Dbl.lt discriminant (fin 0) then
    fin (-1)
  else
    let t1 := (fin (-1) * b + Dbl.sqrt sqrt (pow b 2 - fin 4 * a * c)) / (fin 2 * a)
    let t0 := (fin (-1) * b - Dbl.sqrt sqrt (pow b 2 - fin 4 * a * c)) / (fin 2 * a)
    if Dbl.ge t0 (fin 0) then
      t0
    else if Dbl.ge t1 (fin 0) then
      t1
    else
      fin (-1)

/-- Source `plane_intersection` (raycaster.c).  The C function normalises the caller's
`normal` array in place: the result is the returned distance together with the new
contents of that array. -/
def plane_intersection (sqrt : K → K) (ro rd pos normal : Vec3 (Dbl K)) :
    Dbl K × Vec3 (Dbl K) :=
  let normal := normalize sqrt normal
  let numerator := (normal.c0 * (pos.c0 - ro.c0)) + (normal.c1 * (pos.c1 - ro.c1))
    + (normal.c2 * (pos.c2 - ro.c2))
  let denominator := (normal.c0 * rd.c0) + (normal.c1 * rd.c1) + (normal.c2 * rd.c2)
  let t := numerator / denominator
  if Dbl.ge t (fin 0) then
    (t, normal)
  else
    (fin (-1), normal)

/-- Source `diffuse_reflection` (raycaster.c): the contents written to `color`. -/
def diffuse_reflection (normal incident_ray light_color diffuse_color : Vec3 (Dbl K)) :
    Vec3 (Dbl K) :=
  let scalar := vector_dot_product normal incident_ray
  if Dbl.gt scalar (fin 0) then
    ⟨scalar * diffuse_color.c0 * light_color.c0,
     scalar * diffuse_color.c1 * light_color.c1,
     scalar * diffuse_color.c2 * light_color.c2⟩
  else
    ⟨fin 0, fin 0, fin 0⟩

/-- Source `specular_highlight` (raycaster.c): the contents written to `color`. -/
def specular_highlight (normal incident_ray reflected_ray rd specular_color light_color :
    Vec3 (Dbl K)) : Vec3 (Dbl K) :=
  let scalar1 := vector_dot_product normal incident_ray
  let scalar2 := vector_dot_product rd reflected_ray
  if Dbl.gt scalar1 (fin 0) && Dbl.gt scalar2 (fin 0) then
    let scalar3 := pow scalar2 25
    ⟨scalar3 * specular_color.c0 * light_color.c0,
     scalar3 * specular_color.c1 * light_color.c1,
     scalar3 * specular_color.c2 * light_color.c2⟩
  else
    ⟨fin 0, fin 0, fin 0⟩

end Program

/-! ## Library functions, scene and image -/

/-- The functions and the constant of `math.h` that the program uses, over the field:
`sqrt`, `cos`, `pow` and `M_PI`. -/
structure Libm (K : Type) where
  sqrt : K → K
  cos : K → K
  pow : K → K → K
  pi : K

namespace Dbl

variable {K : Type} [LinearOrderedField K]

/-- The C comparison `a == b`: false when either side is NaN. -/
def eq : Dbl K → Dbl K → Bool
  | fin x, fin y => decide (x = y)
  | pinf, pinf => true
  | ninf, ninf => true
  | _, _ => false

/-- The C comparison `a != b`: the negation of `==`, so true when either side is NaN. -/
def ne (a b : Dbl K) : Bool := !(eq a b)

/-- The C library `cos`, over the field cosine `c`: NaN at the infinities. -/
def cos (c : K → K) : Dbl K → Dbl K
  | fin x => fin (c x)
  | _ => nan

/-- Whether a field value is an integer. -/
def isInt [FloorRing K] (y : K) : Bool := decide (((Int.floor y : Int) : K) = y)

/-- Whether a field value is an odd integer. -/
def isOddInt [FloorRing K] (y : K) : Bool := isInt y && decide (Int.floor y % 2 = 1)

/-- The C library `pow(x, y)` with a `double` exponent, over the field power `pw`, with
the special cases of C99 Annex F (zero carries no sign). -/
def rpow [FloorRing K] (pw : K → K → K) (x y : Dbl K) : Dbl K :=
  match x, y with
  | fin a, fin b =>
    if b = 0 then fin 1
    else if a = 1 then fin 1
    else if a = 0 then (if b < 0 then pinf else fin 0)
    else if a < 0 ∧ isInt b = false then nan
    else fin (pw a b)
  | nan, fin b => if b = 0 then fin 1 else nan
  | fin a, nan => if a = 1 then fin 1 else nan
  | nan, _ => nan
  | _, nan => nan
  | fin a, pinf => if |a| = 1 then fin 1 else if |a| < 1 then fin 0 else pinf
  | fin a, ninf => if |a| = 1 then fin 1 else if |a| < 1 then pinf else fin 0
  | pinf, fin b => if b = 0 then fin 1 else if b < 0 then fin 0 else pinf
  | ninf, fin b =>
    if b = 0 then fin 1
    else if b < 0 then fin 0
    else if isOddInt b then ninf else pinf
  | pinf, pinf => pinf
  | ninf, pinf => pinf
  | pinf, ninf => fin 0
  | ninf, ninf => fin 0

/-- Conversion of a `double` to `unsigned char`: the fractional part is discarded.  C
leaves the conversion undefined for NaN, for the infinities and for values outside
`0..255`; the model reduces a finite value modulo 256 and gives 0 otherwise. -/
def toUChar [FloorRing K] : Dbl K → Nat
  | fin x => ((if 0 ≤ x then Int.floor x else Int.ceil x) % 256).toNat
  | _ => 0

end Dbl

/-- Struct `Camera` (json.h). -/
structure Camera (K : Type) where
  width : Dbl K
  height : Dbl K

/-- Struct `Plane` (json.h). -/
structure Plane (K : Type) where
  color : Vec3 (Dbl K)
  position : Vec3 (Dbl K)
  diffuse_color : Vec3 (Dbl K)
  specular_color : Vec3 (Dbl K)
  normal : Vec3 (Dbl K)

/-- Struct `Sphere` (json.h). -/
structure Sphere (K : Type) where
  color : Vec3 (Dbl K)
  position : Vec3 (Dbl K)
  diffuse_color : Vec3 (Dbl K)
  specular_color : Vec3 (Dbl K)
  radius : Dbl K

/-- Struct `Light` (json.h). -/
structure Light (K : Type) where
  color : Vec3 (Dbl K)
  position : Vec3 (Dbl K)
  direction : Vec3 (Dbl K)
  theta : Dbl K
  radial_a0 : Dbl K
  radial_a1 : Dbl K
  radial_a2 : Dbl K
  angular_a0 : Dbl K

/-- Struct `Object` (json.h): the `type` string (`none` for a NULL pointer) and the
union `properties`.  The render loop reads and writes only the member that `type` names,
so the members are kept side by side and the overlap of their storage is not modelled.
`strcmp` on a NULL `type` is undefined in C; where the source calls it without a NULL
check the model takes the strings to differ. -/
structure Object (K : Type) where
  type : Option String
  camera : Camera K
  plane : Plane K
  sphere : Sphere K
  light : Light K

/-- Struct `Pixel` (ppm.h): three `unsigned char` channels. -/
structure Pixel where
  red : Nat
  green : Nat
  blue : Nat

/-- Struct `Image` (ppm.h). -/
structure Image where
  magic_number : String
  width : Int
  height : Int
  max_color : Int
  image_data : List Pixel

section Render

variable {K : Type} [LinearOrderedField K]

open Dbl

/-- Source `vector_add` (vector_math.h). -/
def vector_add (vector_a vector_b : Vec3 (Dbl K)) : Vec3 (Dbl K) :=
  ⟨vector_a.c0 + vector_b.c0, vector_a.c1 + vector_b.c1, vector_a.c2 + vector_b.c2⟩

/-- Source `vector_subtract` (vector_math.h). -/
def vector_subtract (vector_a vector_b : Vec3 (Dbl K)) : Vec3 (Dbl K) :=
  ⟨vector_a.c0 - vector_b.c0, vector_a.c1 - vector_b.c1, vector_a.c2 - vector_b.c2⟩

/-- Source `vector_scale` (vector_math.h). -/
def vector_scale (vector_a : Vec3 (Dbl K)) (scalar : Dbl K) : Vec3 (Dbl K) :=
  ⟨scalar * vector_a.c0, scalar * vector_a.c1, scalar * vector_a.c2⟩

/-- Source `vector_reflection` (vector_math.h). -/
def vector_reflection (vector_a vector_b : Vec3 (Dbl K)) : Vec3 (Dbl K) :=
  let scalar := vector_dot_product vector_a vector_b
  let vector_o := vector_scale vector_b (fin 2 * scalar)
  vector_subtract vector_a vector_o

/-- Source `fang` (raycaster.c). -/
def fang [FloorRing K] (m : Libm K) (a0 theta : Dbl K) (direction distance : Vec3 (Dbl K)) :
    Dbl K :=
  if Dbl.eq theta (fin 0) && Dbl.eq direction.c0 (fin 0) && Dbl.eq direction.c1 (fin 0)
      && Dbl.eq direction.c2 (fin 0) then
    fin 1
  else
    let new_distance := vector_scale distance (fin (-1))
    let scalar := vector_dot_product direction new_distance
    if Dbl.ge scalar (Dbl.cos m.cos ((theta * fin m.pi) / fin 180)) then
      Dbl.rpow m.pow scalar a0
    else
      fin 0

/-- Source `frad` (raycaster.c). -/
def frad (a0 a1 a2 distance : Dbl K) : Dbl K :=
  if Dbl.lt distance pinf then
    fin 1 / (a0 + (a1 * distance) + (a2 * Dbl.pow distance 2))
  else
    fin 1

/-- Source `clamp` (raycaster.c). -/
def clamp (number min max : Dbl K) : Dbl K :=
  if Dbl.gt number max then max
  else if Dbl.lt number min then min
  else number

/-- Source `get_camera` (raycaster.c), the loop from index `i` over the remaining
objects.  The source passes `type` to `strcmp` without a test for NULL (line 175); the
model takes a NULL type to differ from `"camera"`. -/
def get_camera_from : Nat → List (Object K) → Int
  | _, [] => -1
  | i, o :: rest => if o.type = some "camera" then (i : Int) else get_camera_from (i + 1) rest

/-- Source `get_camera` (raycaster.c); `num_objects` is the length of the list. -/
def get_camera (objects : List (Object K)) : Int := get_camera_from 0 objects

/-- The dispatch on `type` of both scans of `raycaster` (lines 351-357 and 400-406), for an
object whose `type` is not NULL: the distance (initially 0) and the object after the call;
`plane_intersection` overwrites the normal of a plane. -/
def object_intersection (sqrt : K → K) (ro rd : Vec3 (Dbl K)) (o : Object K) :
    Dbl K × Object K :=
  if o.type = some "sphere" then
    (sphere_intersection sqrt ro rd o.sphere.position o.sphere.radius, o)
  else if o.type = some "plane" then
    let r := plane_intersection sqrt ro rd o.plane.position o.plane.normal
    (r.1, { o with plane := { o.plane with normal := r.2 } })
  else
    (fin 0, o)

/-- The object intersection loop of `raycaster` (lines 347-367) from index `index` over the
remaining objects: the objects after the loop, `best_distance` and `closest_object`. -/
def primary_scan (sqrt : K → K) (ro rd : Vec3 (Dbl K)) :
    Nat → List (Object K) → Dbl K → Int → List (Object K) × Dbl K × Int
  | _, [], best_distance, closest_object => ([], best_distance, closest_object)
  | index, o :: rest, best_distance, closest_object =>
    if o.type ≠ none then
      let r := object_intersection sqrt ro rd o
      if Dbl.gt r.1 (fin 0) && Dbl.lt r.1 best_distance then
        let s := primary_scan sqrt ro rd (index + 1) rest r.1 (index : Int)
        (r.2 :: s.1, s.2)
      else
        let s := primary_scan sqrt ro rd (index + 1) rest best_distance closest_object
        (r.2 :: s.1, s.2)
    else
      let s := primary_scan sqrt ro rd (index + 1) rest best_distance closest_object
      (o :: s.1, s.2)

/-- The shadow intersection loop of `raycaster` (lines 395-420) from index `index2` over the
remaining objects: the objects after the loop and `best_distance2`. -/
def shadow_scan (sqrt : K → K) (new_ro new_rd : Vec3 (Dbl K)) (light_distance : Dbl K)
    (closest_object : Int) : Nat → List (Object K) → Dbl K → List (Object K) × Dbl K
  | _, [], best_distance2 => ([], best_distance2)
  | index2, o :: rest, best_distance2 =>
    if closest_object ≠ (index2 : Int) then
      if o.type ≠ none then
        let r := object_intersection sqrt new_ro new_rd o
        if Dbl.le r.1 light_distance then
          if Dbl.gt r.1 (fin 0) && Dbl.lt r.1 best_distance2 then
            let s := shadow_scan sqrt new_ro new_rd light_distance closest_object
              (index2 + 1) rest r.1
            (r.2 :: s.1, s.2)
          else
            let s := shadow_scan sqrt new_ro new_rd light_distance closest_object
              (index2 + 1) rest best_distance2
            (r.2 :: s.1, s.2)
        else
          let s := shadow_scan sqrt new_ro new_rd light_distance closest_object
            (index2 + 1) rest best_distance2
          (r.2 :: s.1, s.2)
      else
        let s := shadow_scan sqrt new_ro new_rd light_distance closest_object
          (index2 + 1) rest best_distance2
        (o :: s.1, s.2)
    else
      let s := shadow_scan sqrt new_ro new_rd light_distance closest_object
        (index2 + 1) rest best_distance2
      (o :: s.1, s.2)

/-- Lines 422-445 of `raycaster`: the un-normalised surface normal, the diffuse colour and
the specular colour taken from `objects[closest_object]`; all three stay zero when its
type is NULL or neither sphere nor plane (and, in the model, when the index is outside
the list). -/
def surface_at (objects : List (Object K)) (closest_object : Int) (new_ro : Vec3 (Dbl K)) :
    Vec3 (Dbl K) × Vec3 (Dbl K) × Vec3 (Dbl K) :=
  match objects[closest_object.toNat]? with
  | none => (⟨fin 0, fin 0, fin 0⟩, ⟨fin 0, fin 0, fin 0⟩, ⟨fin 0, fin 0, fin 0⟩)
  | some oc =>
    if oc.type ≠ none then
      if oc.type = some "sphere" then
        (vector_subtract new_ro oc.sphere.position, oc.sphere.diffuse_color,
          oc.sphere.specular_color)
      else if oc.type = some "plane" then
        (oc.plane.normal, oc.plane.diffuse_color, oc.plane.specular_color)
      else
        (⟨fin 0, fin 0, fin 0⟩, ⟨fin 0, fin 0, fin 0⟩, ⟨fin 0, fin 0, fin 0⟩)
    else
      (⟨fin 0, fin 0, fin 0⟩, ⟨fin 0, fin 0, fin 0⟩, ⟨fin 0, fin 0, fin 0⟩)

/-- The body of the light loop of `raycaster` for one object of type light (lines 383-473):
the objects after the shadow scan and the new `pixel_coloring`. -/
def light_iteration [FloorRing K] (m : Libm K) (rd new_ro : Vec3 (Dbl K))
    (closest_object : Int) (light : Light K)
    (st : List (Object K) × Vec3 (Dbl K)) : List (Object K) × Vec3 (Dbl K) :=
  let new_rd := vector_subtract light.position new_ro
  let light_distance := vector_length m.sqrt new_rd
  let new_rd := normalize m.sqrt new_rd
  let s := shadow_scan m.sqrt new_ro new_rd light_distance closest_object 0 st.1 pinf
  if Dbl.eq s.2 pinf then
    let surf := surface_at s.1 closest_object new_ro
    let normal := normalize m.sqrt surf.1
    let new_rd := normalize m.sqrt new_rd
    let reflection_vector := vector_reflection new_rd normal
    let diffuse_out := diffuse_reflection normal new_rd light.color surf.2.1
    let specular_out := specular_highlight normal new_rd reflection_vector rd surf.2.2
      light.color
    let fang_out := fang m light.radial_a0 light.theta light.direction new_rd
    let frad_out := frad light.radial_a0 light.radial_a1 light.radial_a2 light_distance
    (s.1, ⟨fang_out * frad_out * (diffuse_out.c0 + specular_out.c0),
           fang_out * frad_out * (diffuse_out.c1 + specular_out.c1),
           fang_out * frad_out * (diffuse_out.c2 + specular_out.c2)⟩)
  else
    (s.1, st.2)

/-- One pass of the light loop of `raycaster` (lines 380-477) at index `index`.  The
source passes `type` to `strcmp` without a test for NULL (line 381); the model takes a
NULL type to differ from `"light"`. -/
def light_step [FloorRing K] (m : Libm K) (rd new_ro : Vec3 (Dbl K)) (closest_object : Int)
    (st : List (Object K) × Vec3 (Dbl K)) (index : Nat) : List (Object K) × Vec3 (Dbl K) :=
  match st.1[index]? with
  | none => st
  | some o =>
    if o.type = some "light" then
      light_iteration m rd new_ro closest_object o.light st
    else
      st

/-- The light loop of `raycaster` (lines 380-477): the objects after the loop and the
final `pixel_coloring`. -/
def light_loop [FloorRing K] (m : Libm K) (rd new_ro : Vec3 (Dbl K)) (closest_object : Int)
    (objects : List (Object K)) (pixel_coloring : Vec3 (Dbl K)) :
    List (Object K) × Vec3 (Dbl K) :=
  (List.range objects.length).foldl (light_step m rd new_ro closest_object)
    (objects, pixel_coloring)

/-- Lines 334-338 of `raycaster`: the view vector of the pixel before `normalize`. -/
def view_vector (w h pixel_width pixel_height : Dbl K) (row column : Nat) : Vec3 (Dbl K) :=
  ⟨fin 0 - (w / fin 2) + pixel_width * (fin ((column : K) + 1 / 2)),
   fin (-1) * (fin 0 - (h / fin 2) + pixel_height * (fin ((row : K) + 1 / 2))),
   fin 1⟩

/-- Lines 479-501 of `raycaster`: the pixel stored for a hit on a sphere or a plane. -/
def store_pixel [FloorRing K] (image : Image) (row column : Nat)
    (pixel_coloring : Vec3 (Dbl K)) : Image :=
  let red := clamp pixel_coloring.c0 (fin 0) (fin 1) * fin (image.max_color : K)
  let green := clamp pixel_coloring.c1 (fin 0) (fin 1) * fin (image.max_color : K)
  let blue := clamp pixel_coloring.c2 (fin 0) (fin 1) * fin (image.max_color : K)
  let data := List.set image.image_data (image.width * (row : Int) + (column : Int)).toNat
    ⟨Dbl.toUChar red, Dbl.toUChar green, Dbl.toUChar blue⟩
  { image with image_data := data }

/-- The body of the pixel loops of `raycaster` (lines 333-503) for the pixel
`(row, column)`: the objects, the image and `closest_object` after the pass. -/
def render_pixel [FloorRing K] (m : Libm K) (w h pixel_width pixel_height : Dbl K)
    (row column : Nat) (st : List (Object K) × Image × Int) : List (Object K) × Image × Int :=
  let ro : Vec3 (Dbl K) := ⟨fin 0, fin 0, fin 0⟩
  let rd := normalize m.sqrt (view_vector w h pixel_width pixel_height row column)
  let s := primary_scan m.sqrt ro rd 0 st.1 pinf st.2.2
  let best_distance := s.2.1
  let closest_object := s.2.2
  if Dbl.gt best_distance (fin 0) && Dbl.ne best_distance pinf then
    let new_ro := vector_add ro (vector_scale rd best_distance)
    let l := light_loop m rd new_ro closest_object s.1 ⟨fin 0, fin 0, fin 0⟩
    match l.1[closest_object.toNat]? with
    | none => (l.1, st.2.1, closest_object)
    | some oc =>
      if oc.type = some "sphere" then
        (l.1, store_pixel st.2.1 row column l.2, closest_object)
      else if oc.type = some "plane" then
        (l.1, store_pixel st.2.1 row column l.2, closest_object)
      else
        (l.1, st.2.1, closest_object)
  else
    (s.1, st.2.1, closest_object)

/-- Source `raycaster` (raycaster.c).  The result is `none` when no camera is found (the
call of `exit`); otherwise the objects and the image after the render.  The variable
`closest_object` is not initialised in the source: its initial value is a parameter. -/
def raycaster [FloorRing K] (m : Libm K) (objects : List (Object K)) (image : Image)
    (closest_object : Int) : Option (List (Object K) × Image) :=
  let index := get_camera objects
  if index = -1 then
    none
  else
    match objects[index.toNat]? with
    | none => none
    | some cam =>
      let h := cam.camera.height
      let w := cam.camera.width
      let pixel_height := h / fin (image.height : K)
      let pixel_width := w / fin (image.width : K)
      let st := (List.range image.height.toNat).foldl
        (fun st row => (List.range image.width.toNat).foldl
          (fun st column => render_pixel m w h pixel_width pixel_height row column st) st)
        (objects, image, closest_object)
      some (st.1, st.2.1)

end Render

/-! ## The scene reader: colour fields -/

section Json

variable {K : Type} [LinearOrderedField K]

open Dbl

/-- Source `color_tolerance` (json.c): the loop over the three components, with its
early `return (0)`. -/
def color_tolerance (color_v : Vec3 (Dbl K)) : Int :=
  if Dbl.lt color_v.c0 (fin 0) || Dbl.gt color_v.c0 (fin 1) then 0
  else if Dbl.lt color_v.c1 (fin 0) || Dbl.gt color_v.c1 (fin 1) then 0
  else if Dbl.lt color_v.c2 (fin 0) || Dbl.gt color_v.c2 (fin 1) then 0
  else 1

/-- Source `json_read_scene` (json.c), the branch of the key `diffuse_color` after
`get_vector` has returned `vector`: `none` is the call of `exit(-1)`, and `some` holds
`objects[index]` as the branch leaves it. -/
def json_read_scene_diffuse_color (o : Object K) (vector : Vec3 (Dbl K)) :
    Option (Object K) :=
  if o.type ≠ none then
    if color_tolerance vector ≠ 1 then
      none
    else if o.type = some "sphere" then
      some { o with sphere := { o.sphere with diffuse_color := vector } }
    else if o.type = some "plane" then
      some { o with plane := { o.plane with diffuse_color := vector } }
    else
      some o
  else
    some o

/-- Source `json_read_scene` (json.c), the branch of the key `specular_color` after
`get_vector` has returned `vector`. -/
def json_read_scene_specular_color (o : Object K) (vector : Vec3 (Dbl K)) :
    Option (Object K) :=
  if o.type ≠ none then
    if color_tolerance vector ≠ 1 then
      none
    else if o.type = some "sphere" then
      some { o with sphere := { o.sphere with specular_color := vector } }
    else if o.type = some "plane" then
      some { o with plane := { o.plane with specular_color := vector } }
    else
      some o
  else
    some o

/-- Source `json_read_scene` (json.c), the branch of the key `color` after `get_vector`
has returned `vector`: the colour of a light is stored before any call of
`color_tolerance`. -/
def json_read_scene_color (o : Object K) (vector : Vec3 (Dbl K)) : Option (Object K) :=
  if o.type ≠ none then
    if o.type = some "light" then
      some { o with light := { o.light with color := vector } }
    else
      if color_tolerance vector ≠ 1 then
        none
      else if o.type = some "sphere" then
        some { o with sphere := { o.sphere with color := vector } }
      else if o.type = some "plane" then
        some { o with plane := { o.plane with color := vector } }
      else
        some o
  else
    some o

end Json

/-! ## The pixel index in machine arithmetic -/

/-- The value of an `int` expression whose exact result is `x`, for an `int` of 32 bits
in two's complement: `x` when it is representable, and `x` reduced modulo `2^32` into
the range of `int` otherwise (the overflow is undefined in C; this is what the usual
targets compute). -/
def int_wrap (x : Int) : Int := (x + 2147483648) % 4294967296 - 2147483648

/-- The index expression `(image->width) * row + column` of `raycaster` (lines 488-499)
as the machine evaluates it, in `int`. -/
def pixel_index (width row column : Int) : Int :=
  int_wrap (int_wrap (width * row) + column)

/-! ## Example scenes -/

section Examples

variable {K : Type} [LinearOrderedField K]

/-- An entry of the global array `objects` before the scene is read: every byte zero, so
a NULL `type` and zero in every field. -/
def Object.zero : Object K :=
  { type := none
    camera := ⟨Dbl.fin 0, Dbl.fin 0⟩
    plane := ⟨vfin ⟨0, 0, 0⟩, vfin ⟨0, 0, 0⟩, vfin ⟨0, 0, 0⟩, vfin ⟨0, 0, 0⟩, vfin ⟨0, 0, 0⟩⟩
    sphere := ⟨vfin ⟨0, 0, 0⟩, vfin ⟨0, 0, 0⟩, vfin ⟨0, 0, 0⟩, vfin ⟨0, 0, 0⟩, Dbl.fin 0⟩
    light := ⟨vfin ⟨0, 0, 0⟩, vfin ⟨0, 0, 0⟩, vfin ⟨0, 0, 0⟩, Dbl.fin 0, Dbl.fin 0,
      Dbl.fin 0, Dbl.fin 0, Dbl.fin 0⟩ }

/-- A camera of width and height `1`. -/
def unit_camera : Object K :=
  { Object.zero with type := some "camera", camera := ⟨Dbl.fin 1, Dbl.fin 1⟩ }

/-- A unit sphere centred at `(0,0,10)` with diffuse colour `(1/8,0,0)` and no specular
colour. -/
def spot_sphere : Object K :=
  { Object.zero with
    type := some "sphere"
    sphere := ⟨vfin ⟨0, 0, 0⟩, vfin ⟨0, 0, 10⟩, vfin ⟨1 / 8, 0, 0⟩, vfin ⟨0, 0, 0⟩,
      Dbl.fin 1⟩ }

/-- A white spotlight at the origin with direction `(0,0,2)`, half-angle `90` degrees,
`radial_a0 = 1`, `radial_a1 = radial_a2 = 0` and `angular_a0 = 2`. -/
def spot_light : Light K :=
  ⟨vfin ⟨1, 1, 1⟩, vfin ⟨0, 0, 0⟩, vfin ⟨0, 0, 2⟩, Dbl.fin 90, Dbl.fin 1, Dbl.fin 0,
    Dbl.fin 0, Dbl.fin 2⟩

/-- The spotlight as an object of the scene. -/
def spot_light_object : Object K :=
  { Object.zero with type := some "light", light := spot_light }

/-- The scene of the spotlight example: camera, sphere, light. -/
def spot_scene : List (Object K) := [unit_camera, spot_sphere, spot_light_object]

/-- An image of one pixel, holding `(7,7,7)`. -/
def one_pixel_image : Image := ⟨"P6", 1, 1, 255, [⟨7, 7, 7⟩]⟩

/-- The sphere of scenario A: centre `(0,0,10)`, radius `1`, diffuse colour `(1,0,0)`,
every other field zero. -/
def red_sphere : Object K :=
  { Object.zero with
    type := some "sphere"
    sphere := ⟨vfin ⟨0, 0, 0⟩, vfin ⟨0, 0, 10⟩, vfin ⟨1, 0, 0⟩, vfin ⟨0, 0, 0⟩,
      Dbl.fin 1⟩ }

/-- The light of scenario A: a white point light at the origin (`theta = 0`, direction
`(0,0,0)`), every other field zero, the three radial coefficients included. -/
def point_light : Light K :=
  ⟨vfin ⟨1, 1, 1⟩, vfin ⟨0, 0, 0⟩, vfin ⟨0, 0, 0⟩, Dbl.fin 0, Dbl.fin 0, Dbl.fin 0,
    Dbl.fin 0, Dbl.fin 0⟩

/-- The point light as an object of the scene. -/
def point_light_object : Object K :=
  { Object.zero with type := some "light", light := point_light }

/-- The scene of scenario A: camera of width and height `1`, sphere, point light. -/
def scenario_a : List (Object K) := [unit_camera, red_sphere, point_light_object]

/-- The plane of scenario B: position `(0,0,5)`, normal `(0,0,-1)`, zero diffuse and
specular colour. -/
def occluder_plane : Object K :=
  { Object.zero with
    type := some "plane"
    plane := ⟨vfin ⟨0, 0, 0⟩, vfin ⟨0, 0, 5⟩, vfin ⟨0, 0, 0⟩, vfin ⟨0, 0, 0⟩,
      vfin ⟨0, 0, -1⟩⟩ }

/-- The scene of scenario B: the scene of scenario A followed by the plane. -/
def scenario_b : List (Object K) :=
  [unit_camera, red_sphere, point_light_object, occluder_plane]

/-- A buffer of `10 x 10` pixels, every byte zero, with `max_color = 255`. -/
def blank_image : Image := ⟨"P6", 10, 10, 255, List.replicate 100 ⟨0, 0, 0⟩⟩

/-- A plane at `(0,0,5)` whose normal `(0,0,-2)` has length `2`. -/
def long_normal_plane : Object K :=
  { Object.zero with
    type := some "plane"
    plane := ⟨vfin ⟨0, 0, 0⟩, vfin ⟨0, 0, 5⟩, vfin ⟨0, 0, 0⟩, vfin ⟨0, 0, 0⟩,
      vfin ⟨0, 0, -2⟩⟩ }

/-- A scene with a camera and the plane of normal `(0,0,-2)`. -/
def long_normal_scene : List (Object K) := [unit_camera, long_normal_plane]

/-- A plane at `(0,0,5)` whose `normal` is the zero vector, as the reader leaves a plane
that has no `normal` key or the key `"normal": [0, 0, 0]`. -/
def zero_normal_plane : Object K :=
  { Object.zero with
    type := some "plane"
    plane := ⟨vfin ⟨0, 0, 0⟩, vfin ⟨0, 0, 5⟩, vfin ⟨0, 0, 0⟩, vfin ⟨0, 0, 0⟩,
      vfin ⟨0, 0, 0⟩⟩ }

/-- A scene with a camera and the plane of zero normal. -/
def zero_normal_scene : List (Object K) := [unit_camera, zero_normal_plane]

/-- A plane through `(0,1,0)` with normal `(0,1,0)`: the ray from the origin along
`(0,0,1)` is parallel to it. -/
def parallel_plane : Object K :=
  { Object.zero with
    type := some "plane"
    plane := ⟨vfin ⟨0, 0, 0⟩, vfin ⟨0, 1, 0⟩, vfin ⟨0, 0, 0⟩, vfin ⟨0, 0, 0⟩,
      vfin ⟨0, 1, 0⟩⟩ }

/-- A scene with a camera and the plane parallel to the central ray. -/
def parallel_scene : List (Object K) := [unit_camera, parallel_plane]

/-- The spotlight of the spotlight example with the colour `(1/2,1/2,1/2)`. -/
def half_light : Light K :=
  ⟨vfin ⟨1 / 2, 1 / 2, 1 / 2⟩, vfin ⟨0, 0, 0⟩, vfin ⟨0, 0, 2⟩, Dbl.fin 90, Dbl.fin 1,
    Dbl.fin 0, Dbl.fin 0, Dbl.fin 2⟩

/-- The light of colour `(1/2,1/2,1/2)` as an object of the scene. -/
def half_light_object : Object K :=
  { Object.zero with type := some "light", light := half_light }

/-- The scene of the spotlight example followed by the light of colour
`(1/2,1/2,1/2)`: camera, sphere, two lights. -/
def two_light_scene : List (Object K) :=
  [unit_camera, spot_sphere, spot_light_object, half_light_object]

/-- The plane of scenario B with the diffuse colour `(1,1,1)`. -/
def white_plane : Object K :=
  { Object.zero with
    type := some "plane"
    plane := ⟨vfin ⟨0, 0, 0⟩, vfin ⟨0, 0, 5⟩, vfin ⟨1, 1, 1⟩, vfin ⟨0, 0, 0⟩,
      vfin ⟨0, 0, -1⟩⟩ }

/-- The scene of scenario A followed by the plane of diffuse colour `(1,1,1)`. -/
def scenario_b_white : List (Object K) :=
  [unit_camera, red_sphere, point_light_object, white_plane]

end Examples

/-! ## Vocabulary of the statements: vectors over the field -/

section Vocabulary

variable {K : Type} [LinearOrderedField K]

/-- Euclidean dot product of two field vectors. -/
def Vec3.dot (u v : Vec3 K) : K := u.c0 * v.c0 + u.c1 * v.c1 + u.c2 * v.c2

/-- Component-wise difference of two field vectors. -/
def Vec3.sub (u v : Vec3 K) : Vec3 K := ⟨u.c0 - v.c0, u.c1 - v.c1, u.c2 - v.c2⟩

/-- Squared Euclidean length of a field vector. -/
def Vec3.normSq (v : Vec3 K) : K := v.c0 ^ 2 + v.c1 ^ 2 + v.c2 ^ 2

/-- A field vector divided by a scalar. -/
def Vec3.sdiv (v : Vec3 K) (k : K) : Vec3 K := ⟨v.c0 / k, v.c1 / k, v.c2 / k⟩

/-- A field vector is nonzero when one of its components is. -/
def Vec3.Nonzero (v : Vec3 K) : Prop := v.c0 ≠ 0 ∨ v.c1 ≠ 0 ∨ v.c2 ≠ 0

/-- Opposite of a field vector. -/
def Vec3.neg (v : Vec3 K) : Vec3 K := ⟨-v.c0, -v.c1, -v.c2⟩

/-- The value of `distance` that the scans of `raycaster` compare for the object `o`
(lines 348-359 and 396-409): the intersection distance of a sphere or a plane, and the
initial `0` for every other object. -/
def hit_distance (sqrt : K → K) (ro rd : Vec3 (Dbl K)) (o : Object K) : Dbl K :=
  if o.type ≠ none then (object_intersection sqrt ro rd o).1 else Dbl.fin 0

/-- The value of `best_distance2` after the shadow loop of `raycaster` for one light
(lines 386-420): plus infinity when nothing lies between the point and the light. -/
def shadow_best (sqrt : K → K) (new_ro : Vec3 (Dbl K)) (closest_object : Int)
    (objects : List (Object K)) (light : Light K) : Dbl K :=
  (shadow_scan sqrt new_ro (normalize sqrt (vector_subtract light.position new_ro))
    (vector_length sqrt (vector_subtract light.position new_ro)) closest_object 0 objects
    Dbl.pinf).2

/-- The object with the normal of its plane member normalised, as `plane_intersection`
leaves an object of type plane. -/
def Object.settle (sqrt : K → K) (o : Object K) : Object K :=
  if o.type = some "plane" then
    { o with plane := { o.plane with normal := normalize sqrt o.plane.normal } }
  else o

/-- Every plane of the list has a normal that `normalize` leaves as it is. -/
def Settled (sqrt : K → K) (objects : List (Object K)) : Prop :=
  ∀ o ∈ objects, o.type = some "plane" → normalize sqrt o.plane.normal = o.plane.normal

/-- Every plane of the list has a normal with finite components. -/
def FiniteNormals (objects : List (Object K)) : Prop :=
  ∀ o ∈ objects, o.type = some "plane" → ∃ n : Vec3 K, o.plane.normal = vfin n

/-- The pixel loops of `raycaster` (lines 332-507) for a camera of width `w` and height
`h`: the objects, the image and `closest_object` after the last pixel. -/
def pixel_loops [FloorRing K] (m : Libm K) (w h : Dbl K) (objects : List (Object K))
    (image : Image) (closest_object : Int) : List (Object K) × Image × Int :=
  (List.range image.height.toNat).foldl
    (fun st row => (List.range image.width.toNat).foldl
      (fun st column => render_pixel m w h (w / Dbl.fin (image.width : K))
        (h / Dbl.fin (image.height : K)) row column st) st)
    (objects, image, closest_object)

/-- Every component of a field vector lies in `[0, 1]`. -/
def Vec3.InUnitRange (c : Vec3 K) : Prop :=
  (0 ≤ c.c0 ∧ c.c0 ≤ 1) ∧ (0 ≤ c.c1 ∧ c.c1 ≤ 1) ∧ (0 ≤ c.c2 ∧ c.c2 ≤ 1)

/-- Every object of the list has its `type` set (no NULL pointer): the scenes on which
no `strcmp` of `get_camera` or of the light loop receives a NULL pointer. -/
def Typed (objects : List (Object K)) : Prop := ∀ o ∈ objects, o.type ≠ none

/-- The object `o1` is the object `o` up to the normal of its plane member: same type,
same camera, sphere and light members, same colour, position, diffuse colour and
specular colour of the plane member; and the same object altogether when `o` is not a
plane. -/
def Object.SameButNormal (o o1 : Object K) : Prop :=
  o1.type = o.type ∧ o1.camera = o.camera ∧ o1.sphere = o.sphere ∧ o1.light = o.light
  ∧ o1.plane.color = o.plane.color ∧ o1.plane.position = o.plane.position
  ∧ o1.plane.diffuse_color = o.plane.diffuse_color
  ∧ o1.plane.specular_color = o.plane.specular_color
  ∧ (o.type ≠ some "plane" → o1 = o)

/-- The buffer of the image has `width * height` entries and that number is
representable in `int`: the images for which every index expression of `raycaster` is
evaluated without overflow and falls inside the buffer. -/
def Image.Sized (image : Image) : Prop :=
  image.width * image.height ≤ 2147483647
  ∧ image.image_data.length = (image.width * image.height).toNat

/-- The state of the light loop of `raycaster` (lines 380-477) before its pass at index
`index`: the objects and `pixel_coloring` after the passes at the indices below. -/
def light_loop_upto [FloorRing K] (m : Libm K) (rd new_ro : Vec3 (Dbl K))
    (closest_object : Int) (objects : List (Object K)) (pixel_coloring : Vec3 (Dbl K))
    (index : Nat) : List (Object K) × Vec3 (Dbl K) :=
  (List.range index).foldl (light_step m rd new_ro closest_object) (objects, pixel_coloring)

/-- The state of the pixel loops of `raycaster` before the pass for the pixel
`(row, column)`: the objects, the image and `closest_object` after the passes for the
rows above and for the columns to the left in the same row. -/
def pixel_state [FloorRing K] (m : Libm K) (w h : Dbl K) (objects : List (Object K))
    (image : Image) (closest_object : Int) (row column : Nat) :
    List (Object K) × Image × Int :=
  (List.range column).foldl
    (fun st c => render_pixel m w h (w / Dbl.fin (image.width : K))
      (h / Dbl.fin (image.height : K)) row c st)
    ((List.range row).foldl
      (fun st r => (List.range image.width.toNat).foldl
        (fun st c => render_pixel m w h (w / Dbl.fin (image.width : K))
          (h / Dbl.fin (image.height : K)) r c st) st)
      (objects, image, closest_object))

end Vocabulary

/-! ## Arithmetic of finite doubles -/

section FiniteArith

variable {K : Type} [LinearOrderedField K]

open Dbl

@[simp] theorem fin_add_fin (x y : K) : (fin x + fin y : Dbl K) = fin (x + y) := rfl

@[simp] theorem fin_sub_fin (x y : K) : (fin x - fin y : Dbl K) = fin (x - y) := by
  show Dbl.add (fin x) (Dbl.neg (fin y)) = fin (x - y)
  simp [Dbl.add, Dbl.neg, sub_eq_add_neg]

@[simp] theorem fin_mul_fin (x y : K) : (fin x * fin y : Dbl K) = fin (x * y) := rfl

theorem fin_div_fin (x y : K) :
    (fin x / fin y : Dbl K) = if y = 0 then infOfSign x else fin (x / y) := rfl

theorem fin_div_fin_of_ne (x : K) {y : K} (h : y ≠ 0) :
    (fin x / fin y : Dbl K) = fin (x / y) := by
  rw [fin_div_fin, if_neg h]

@[simp] theorem pow_fin (x : K) (n : Nat) : Dbl.pow (fin x) n = fin (x ^ n) := rfl

theorem sqrt_fin_of_nonneg (sq : K → K) {x : K} (h : 0 ≤ x) :
    Dbl.sqrt sq (fin x) = fin (sq x) := by
  simp [Dbl.sqrt, not_lt.mpr h]

@[simp] theorem lt_fin_fin (x y : K) : Dbl.lt (fin x) (fin y) = decide (x < y) := rfl

@[simp] theorem ge_fin_fin (x y : K) : Dbl.ge (fin x) (fin y) = decide (y ≤ x) := rfl

@[simp] theorem gt_fin_fin (x y : K) : Dbl.gt (fin x) (fin y) = decide (y < x) := rfl

end FiniteArith

/-! ## Facts about field vectors -/

section Vocabulary

variable {K : Type} [LinearOrderedField K]

theorem Vec3.normSq_nonneg (v : Vec3 K) : 0 ≤ v.normSq := by
  unfold Vec3.normSq; positivity

theorem Vec3.normSq_pos {v : Vec3 K} (h : v.Nonzero) : 0 < v.normSq := by
  unfold Vec3.normSq
  rcases h with h | h | h
  · nlinarith [sq_nonneg v.c1, sq_nonneg v.c2, sq_pos_of_ne_zero h]
  · nlinarith [sq_nonneg v.c0, sq_nonneg v.c2, sq_pos_of_ne_zero h]
  · nlinarith [sq_nonneg v.c0, sq_nonneg v.c1, sq_pos_of_ne_zero h]

end Vocabulary

/-! ## Sphere intersection -/

open Dbl

/-- Root selection of the quadratic solver on finite coefficients with `2 * a ≠ 0`. -/
theorem quadratic_select (a b c : ℝ) (ha : 2 * a ≠ 0) :
    (if Dbl.lt (fin (b ^ 2 - 4 * a * c)) (fin 0) then (fin (-1) : Dbl ℝ)
      else if Dbl.ge ((fin (-1 * b) - Dbl.sqrt Real.sqrt (fin (b ^ 2 - 4 * a * c)))
          / fin (2 * a)) (fin 0)
        then (fin (-1 * b) - Dbl.sqrt Real.sqrt (fin (b ^ 2 - 4 * a * c))) / fin (2 * a)
      else if Dbl.ge ((fin (-1 * b) + Dbl.sqrt Real.sqrt (fin (b ^ 2 - 4 * a * c)))
          / fin (2 * a)) (fin 0)
        then (fin (-1 * b) + Dbl.sqrt Real.sqrt (fin (b ^ 2 - 4 * a * c))) / fin (2 * a)
      else fin (-1)) =
    if b ^ 2 - 4 * a * c < 0 then fin (-1)
      else if 0 ≤ (-b - Real.sqrt (b ^ 2 - 4 * a * c)) / (2 * a)
        then fin ((-b - Real.sqrt (b ^ 2 - 4 * a * c)) / (2 * a))
      else if 0 ≤ (-b + Real.sqrt (b ^ 2 - 4 * a * c)) / (2 * a)
        then fin ((-b + Real.sqrt (b ^ 2 - 4 * a * c)) / (2 * a))
      else fin (-1) := by
  by_cases h : b ^ 2 - 4 * a * c < 0
  · simp [h]
  · have h0 : 0 ≤ b ^ 2 - 4 * a * c := not_lt.mp h
    rw [sqrt_fin_of_nonneg _ h0]
    simp only [fin_sub_fin, fin_add_fin, fin_div_fin_of_ne _ ha, ge_fin_fin, lt_fin_fin,
      decide_eq_true_eq, neg_one_mul]

/-- The sphere solver on finite inputs with a nonzero direction, in field arithmetic. -/
theorem sphere_intersection_fin (ro rd center : Vec3 ℝ) (radius : ℝ) (hrd : rd.Nonzero) :
    sphere_intersection Real.sqrt (vfin ro) (vfin rd) (vfin center) (fin radius) =
      if (2 * rd.dot (ro.sub center)) ^ 2
          - 4 * rd.normSq * ((ro.sub center).normSq - radius ^ 2) < 0 then fin (-1)
      else if 0 ≤ (-(2 * rd.dot (ro.sub center))
          - Real.sqrt ((2 * rd.dot (ro.sub center)) ^ 2
            - 4 * rd.normSq * ((ro.sub center).normSq - radius ^ 2))) / (2 * rd.normSq)
        then fin ((-(2 * rd.dot (ro.sub center))
          - Real.sqrt ((2 * rd.dot (ro.sub center)) ^ 2
            - 4 * rd.normSq * ((ro.sub center).normSq - radius ^ 2))) / (2 * rd.normSq))
      else if 0 ≤ (-(2 * rd.dot (ro.sub center))
          + Real.sqrt ((2 * rd.dot (ro.sub center)) ^ 2
            - 4 * rd.normSq * ((ro.sub center).normSq - radius ^ 2))) / (2 * rd.normSq)
        then fin ((-(2 * rd.dot (ro.sub center))
          + Real.sqrt ((2 * rd.dot (ro.sub center)) ^ 2
            - 4 * rd.normSq * ((ro.sub center).normSq - radius ^ 2))) / (2 * rd.normSq))
      else fin (-1) := by
  have ha : (2 * rd.normSq) ≠ 0 := by
    have := Vec3.normSq_pos hrd
    positivity
  unfold sphere_intersection
  simp only [vfin, pow_fin, fin_add_fin, fin_sub_fin, fin_mul_fin]
  exact quadratic_select _ _ _ ha

/-! ## Plane intersection -/

/-- On a finite nonzero vector `normalize` divides by the Euclidean length. -/
theorem normalize_fin (v : Vec3 ℝ) (hv : v.Nonzero) :
    normalize Real.sqrt (vfin v) = vfin (v.sdiv (Real.sqrt v.normSq)) := by
  have hpos : 0 < v.normSq := Vec3.normSq_pos hv
  have hne : Real.sqrt v.normSq ≠ 0 := ne_of_gt (Real.sqrt_pos.mpr hpos)
  have hlen : Dbl.sqrt Real.sqrt (fin (v.c0 ^ 2 + v.c1 ^ 2 + v.c2 ^ 2))
      = fin (Real.sqrt v.normSq) := sqrt_fin_of_nonneg Real.sqrt (Vec3.normSq_nonneg v)
  unfold normalize
  simp only [vfin, pow_fin, fin_add_fin, hlen, fin_div_fin_of_ne _ hne, Vec3.sdiv]

/-- The plane solver on finite inputs with a nonzero normal: the quotient it tests. -/
theorem plane_intersection_fin (ro rd pos normal : Vec3 ℝ) (hn : normal.Nonzero) :
    plane_intersection Real.sqrt (vfin ro) (vfin rd) (vfin pos) (vfin normal) =
      (if Dbl.ge (fin ((normal.sdiv (Real.sqrt normal.normSq)).dot (pos.sub ro))
            / fin ((normal.sdiv (Real.sqrt normal.normSq)).dot rd)) (fin 0)
        then fin ((normal.sdiv (Real.sqrt normal.normSq)).dot (pos.sub ro))
            / fin ((normal.sdiv (Real.sqrt normal.normSq)).dot rd)
        else fin (-1),
       vfin (normal.sdiv (Real.sqrt normal.normSq))) := by
  unfold plane_intersection
  rw [normalize_fin normal hn]
  simp only [vfin, fin_sub_fin, fin_mul_fin, fin_add_fin, Vec3.dot, Vec3.sub]
  split_ifs <;> rfl

/-- For a ray parallel to the plane (zero denominator) the solver never returns a
finite distance: the result is the sentinel `-1` or plus infinity. -/
theorem plane_intersection_parallel (ro rd pos normal : Vec3 ℝ) (hn : normal.Nonzero)
    (hpar : (normal.sdiv (Real.sqrt normal.normSq)).dot rd = 0) :
    (plane_intersection Real.sqrt (vfin ro) (vfin rd) (vfin pos) (vfin normal)).1 = fin (-1)
    ∨ (plane_intersection Real.sqrt (vfin ro) (vfin rd) (vfin pos) (vfin normal)).1
      = pinf := by
  rw [plane_intersection_fin ro rd pos normal hn, hpar, fin_div_fin, if_pos rfl]
  unfold infOfSign
  split_ifs <;> simp_all [Dbl.ge, Dbl.le]

/-- Claim C6 (`plane_intersection`, parallel ray), evaluated on a failing input.  The plane
through `(0,1,0)` with unit normal `(0,1,0)` and the ray from the origin along
`(1,0,0)` are parallel (`direction.normal = 0`); the numerator is `1`, the quotient
`1/0` is plus infinity, the test `t >= 0` succeeds and plus infinity is returned,
not the miss sentinel `-1`. -/
theorem plane_intersection_parallel_returns_infinity :
    (⟨1, 0, 0⟩ : Vec3 ℝ).dot ⟨0, 1, 0⟩ = 0 ∧
    (plane_intersection Real.sqrt (vfin ⟨0, 0, 0⟩) (vfin ⟨1, 0, 0⟩) (vfin ⟨0, 1, 0⟩)
      (vfin ⟨0, 1, 0⟩)).1 = (pinf : Dbl ℝ) ∧
    (plane_intersection Real.sqrt (vfin ⟨0, 0, 0⟩) (vfin ⟨1, 0, 0⟩) (vfin ⟨0, 1, 0⟩)
      (vfin ⟨0, 1, 0⟩)).1 ≠ (fin (-1) : Dbl ℝ) := by
  have hn : (⟨0, 1, 0⟩ : Vec3 ℝ).Nonzero := Or.inr (Or.inl one_ne_zero)
  have hs : Real.sqrt (⟨0, 1, 0⟩ : Vec3 ℝ).normSq = 1 := by
    have h1 : (⟨0, 1, 0⟩ : Vec3 ℝ).normSq = 1 := by norm_num [Vec3.normSq]
    rw [h1, Real.sqrt_one]
  have hval : (plane_intersection Real.sqrt (vfin ⟨0, 0, 0⟩) (vfin ⟨1, 0, 0⟩)
      (vfin ⟨0, 1, 0⟩) (vfin ⟨0, 1, 0⟩)).1 = (pinf : Dbl ℝ) := by
    rw [plane_intersection_fin _ _ _ _ hn, hs]
    norm_num [Vec3.sdiv, Vec3.dot, Vec3.sub, fin_div_fin, infOfSign, Dbl.ge, Dbl.le]
  refine ⟨by norm_num [Vec3.dot], hval, ?_⟩
  rw [hval]
  exact fun h => Dbl.noConfusion h

/-! ## Sentinel convention -/

section Sentinel

variable {K : Type} [LinearOrderedField K]

/-- Claim C7 (sentinel convention).  For every input (special values included, and
whatever `sqrt` computes) the value returned by `sphere_intersection` and the value
returned by `plane_intersection` is either exactly `-1` or passes the comparison
`>= 0`; no other negative value, and no NaN, is ever returned. -/
theorem intersection_sentinel_convention (sqrt : K → K) (ro rd center pos normal :
    Vec3 (Dbl K)) (radius : Dbl K) :
    (sphere_intersection sqrt ro rd center radius = fin (-1)
      ∨ Dbl.ge (sphere_intersection sqrt ro rd center radius) (fin 0) = true)
    ∧ ((plane_intersection sqrt ro rd pos normal).1 = fin (-1)
      ∨ Dbl.ge (plane_intersection sqrt ro rd pos normal).1 (fin 0) = true) := by
  constructor
  · unfold sphere_intersection
    simp only
    split_ifs with h1 h2 h3
    · exact Or.inl rfl
    · exact Or.inr h2
    · exact Or.inr h3
    · exact Or.inl rfl
  · unfold plane_intersection
    simp only
    split_ifs with h1
    · exact Or.inr h1
    · exact Or.inl rfl

end Sentinel

/-! ## Shading terms -/

/-- Dot product of finite vectors. -/
theorem vector_dot_product_fin (u v : Vec3 ℝ) :
    vector_dot_product (vfin u) (vfin v) = fin (u.dot v) := by
  simp only [vector_dot_product, vfin, fin_mul_fin, fin_add_fin, Vec3.dot]

/-- The diffuse term on finite vectors. -/
theorem diffuse_reflection_fin (N L light_color diffuse_color : Vec3 ℝ) :
    diffuse_reflection (vfin N) (vfin L) (vfin light_color) (vfin diffuse_color) =
      vfin ⟨max 0 (N.dot L) * diffuse_color.c0 * light_color.c0,
            max 0 (N.dot L) * diffuse_color.c1 * light_color.c1,
            max 0 (N.dot L) * diffuse_color.c2 * light_color.c2⟩ := by
  unfold diffuse_reflection
  rw [vector_dot_product_fin]
  by_cases h : 0 < N.dot L
  · simp [vfin, h, max_eq_right h.le]
  · simp [vfin, h, max_eq_left (not_lt.mp h)]

/-- The specular term on finite vectors. -/
theorem specular_highlight_fin (N L R V specular_color light_color : Vec3 ℝ) :
    specular_highlight (vfin N) (vfin L) (vfin R) (vfin V) (vfin specular_color)
        (vfin light_color) =
      if 0 < N.dot L ∧ 0 < R.dot V then
        vfin ⟨(R.dot V) ^ 25 * specular_color.c0 * light_color.c0,
              (R.dot V) ^ 25 * specular_color.c1 * light_color.c1,
              (R.dot V) ^ 25 * specular_color.c2 * light_color.c2⟩
      else vfin ⟨0, 0, 0⟩ := by
  have hcomm : V.dot R = R.dot V := by simp only [Vec3.dot]; ring
  unfold specular_highlight
  rw [vector_dot_product_fin, vector_dot_product_fin, hcomm]
  by_cases h : 0 < N.dot L ∧ 0 < R.dot V
  · simp [vfin, h.1, h.2]
  · rw [if_neg h]
    rw [not_and_or] at h
    rcases h with h | h <;> simp [vfin, h]

section Attenuation

variable {K : Type} [LinearOrderedField K] [FloorRing K]

/-- Claim C11 (`fang`, point light).  For `theta = 0` and `direction = (0,0,0)`, `fang`
returns exactly `1.0` for every exponent `a0` (special values included) and every
sampled shadow-ray direction. -/
theorem fang_point_light (m : Libm K) (a0 : Dbl K) (distance : Vec3 (Dbl K)) :
    fang m a0 (fin 0) ⟨fin 0, fin 0, fin 0⟩ distance = fin 1 := by
  have hpoint : (Dbl.eq (fin (0 : K)) (fin 0)
      && Dbl.eq (⟨fin 0, fin 0, fin 0⟩ : Vec3 (Dbl K)).c0 (fin 0)
      && Dbl.eq (⟨fin 0, fin 0, fin 0⟩ : Vec3 (Dbl K)).c1 (fin 0)
      && Dbl.eq (⟨fin 0, fin 0, fin 0⟩ : Vec3 (Dbl K)).c2 (fin 0)) = true := by
    simp [Dbl.eq]
  unfold fang
  rw [if_pos hpoint]

/-- For `theta = 0` and `direction = (0,0,0)` the first test of `fang` succeeds and the
angular attenuation is `1`. -/
theorem fang_theta_zero (m : Libm K) (a0 : Dbl K) (distance : Vec3 (Dbl K)) :
    fang m a0 (fin 0) ⟨fin 0, fin 0, fin 0⟩ distance = fin 1 := by
  have hpoint : (Dbl.eq (fin (0 : K)) (fin 0)
      && Dbl.eq (⟨fin 0, fin 0, fin 0⟩ : Vec3 (Dbl K)).c0 (fin 0)
      && Dbl.eq (⟨fin 0, fin 0, fin 0⟩ : Vec3 (Dbl K)).c1 (fin 0)
      && Dbl.eq (⟨fin 0, fin 0, fin 0⟩ : Vec3 (Dbl K)).c2 (fin 0)) = true := by
    simp [Dbl.eq]
  unfold fang
  rw [if_pos hpoint]

/-- The angular attenuation of a spotlight on finite arguments. -/
theorem fang_fin (m : Libm K) (a0 theta : K) (direction s : Vec3 K)
    (hspot : theta ≠ 0 ∨ direction.Nonzero) :
    fang m (fin a0) (fin theta) (vfin direction) (vfin s) =
      if m.cos (theta * m.pi / 180) ≤ direction.dot s.neg then
        Dbl.rpow m.pow (fin (direction.dot s.neg)) (fin a0)
      else fin 0 := by
  have hpoint : (Dbl.eq (fin theta) (fin 0) && Dbl.eq (vfin direction).c0 (fin 0)
      && Dbl.eq (vfin direction).c1 (fin 0) && Dbl.eq (vfin direction).c2 (fin 0)) = false := by
    simp only [Dbl.eq, vfin, Bool.and_eq_false_iff, decide_eq_false_iff_not]
    rcases hspot with h | h | h | h
    · exact Or.inl (Or.inl (Or.inl h))
    · exact Or.inl (Or.inl (Or.inr h))
    · exact Or.inl (Or.inr h)
    · exact Or.inr h
  have hscalar : vector_dot_product (vfin direction) (vector_scale (vfin s) (fin (-1)))
      = fin (direction.dot s.neg) := by
    simp only [vector_dot_product, vector_scale, vfin, fin_mul_fin, fin_add_fin, Vec3.dot,
      Vec3.neg, neg_one_mul]
  unfold fang
  rw [hpoint]
  simp only [Bool.false_eq_true, if_false, hscalar, fin_mul_fin]
  rw [fin_div_fin_of_ne _ (by norm_num : (180 : K) ≠ 0)]
  simp only [Dbl.cos, ge_fin_fin, decide_eq_true_eq]

end Attenuation

section Radial

variable {K : Type} [LinearOrderedField K]

/-- On finite arguments `frad` is the C quotient `1 / (a0 + a1*d + a2*d^2)`. -/
theorem frad_fin (a0 a1 a2 d : K) :
    frad (fin a0) (fin a1) (fin a2) (fin d) = fin 1 / fin (a0 + a1 * d + a2 * d ^ 2) := by
  simp [frad, Dbl.lt]

end Radial


/-! ## Order of the C comparisons -/

section DblOrder

variable {K : Type} [LinearOrderedField K]

/-- A value that passes `a > 0` is not NaN. -/
theorem Dbl.ne_nan_of_gt {a b : Dbl K} (h : Dbl.gt a b = true) : a ≠ nan := by
  cases a <;> cases b <;> simp_all [Dbl.gt, Dbl.lt]

theorem Dbl.clt_irrefl (a : Dbl K) : Dbl.lt a a = false := by
  cases a <;> simp [Dbl.lt]

theorem Dbl.clt_trans {a b c : Dbl K} (h1 : Dbl.lt a b = true) (h2 : Dbl.lt b c = true) :
    Dbl.lt a c = true := by
  cases a <;> cases b <;> cases c <;> simp_all [Dbl.lt]
  exact lt_trans h1 h2

theorem Dbl.cle_of_clt {a b : Dbl K} (h : Dbl.lt a b = true) : Dbl.le a b = true := by
  cases a <;> cases b <;> simp_all [Dbl.lt, Dbl.le]
  exact h.le

theorem Dbl.cle_refl {a : Dbl K} (h : a ≠ nan) : Dbl.le a a = true := by
  cases a <;> simp_all [Dbl.le]

theorem Dbl.cle_of_not_clt {a b : Dbl K} (ha : a ≠ nan) (hb : b ≠ nan)
    (h : Dbl.lt a b = false) : Dbl.le b a = true := by
  cases a <;> cases b <;> simp_all [Dbl.lt, Dbl.le]

theorem Dbl.clt_of_clt_of_cle {a b c : Dbl K} (h1 : Dbl.lt a b = true)
    (h2 : Dbl.le b c = true) : Dbl.lt a c = true := by
  cases a <;> cases b <;> cases c <;> simp_all [Dbl.lt, Dbl.le]
  exact lt_of_lt_of_le h1 h2

theorem Dbl.cle_trans {a b c : Dbl K} (h1 : Dbl.le a b = true) (h2 : Dbl.le b c = true) :
    Dbl.le a c = true := by
  cases a <;> cases b <;> cases c <;> simp_all [Dbl.lt, Dbl.le]
  exact le_trans h1 h2

/-- The comparison `a == INFINITY` holds for plus infinity only. -/
theorem Dbl.eq_pinf_iff (a : Dbl K) : Dbl.eq a pinf = true ↔ a = pinf := by
  cases a <;> simp [Dbl.eq]

/-- A value strictly below another one is not plus infinity. -/
theorem Dbl.eq_pinf_of_clt {a b : Dbl K} (h : Dbl.lt a b = true) :
    Dbl.eq a pinf = false := by
  cases a <;> cases b <;> simp_all [Dbl.eq, Dbl.lt]

end DblOrder

/-! ## Primary visibility -/

section Primary

variable {K : Type} [LinearOrderedField K]

/-- Only a sphere or a plane has a distance that passes `distance > 0`. -/
theorem hit_distance_pos_type (sqrt : K → K) (ro rd : Vec3 (Dbl K)) (o : Object K)
    (h : Dbl.gt (hit_distance sqrt ro rd o) (fin 0) = true) :
    o.type = some "sphere" ∨ o.type = some "plane" := by
  unfold hit_distance object_intersection at h
  by_cases hs : o.type = some "sphere"
  · exact Or.inl hs
  · by_cases hp : o.type = some "plane"
    · exact Or.inr hp
    · simp [hs, hp, Dbl.gt, Dbl.lt] at h

/-- One pass of the object intersection loop: `best_distance` and `closest_object` are
replaced exactly when the distance of the object passes both comparisons. -/
theorem primary_scan_cons (sqrt : K → K) (ro rd : Vec3 (Dbl K)) (index : Nat)
    (o : Object K) (rest : List (Object K)) (best : Dbl K) (closest : Int) :
    (primary_scan sqrt ro rd index (o :: rest) best closest).2 =
      (primary_scan sqrt ro rd (index + 1) rest
        (if (Dbl.gt (hit_distance sqrt ro rd o) (fin 0)
            && Dbl.lt (hit_distance sqrt ro rd o) best) = true
          then hit_distance sqrt ro rd o else best)
        (if (Dbl.gt (hit_distance sqrt ro rd o) (fin 0)
            && Dbl.lt (hit_distance sqrt ro rd o) best) = true
          then (index : Int) else closest)).2 := by
  by_cases ht : o.type = none
  · simp [primary_scan, hit_distance, ht, Dbl.gt, Dbl.lt]
  · by_cases hc : (Dbl.gt (object_intersection sqrt ro rd o).1 (fin 0)
        && Dbl.lt (object_intersection sqrt ro rd o).1 best) = true
    · simp only [primary_scan, hit_distance, ne_eq, ht, not_false_eq_true, if_true, hc]
    · simp only [primary_scan, hit_distance, ne_eq, ht, not_false_eq_true, if_true, hc,
        if_false]
      simp

/-- Invariant of the object intersection loop, started at any index with any running
minimum: either nothing passes both comparisons and the pair is unchanged, or the pair is
the distance and the index of the first object attaining the least passing distance. -/
theorem primary_scan_spec (sqrt : K → K) (ro rd : Vec3 (Dbl K)) (l : List (Object K)) :
    ∀ (index : Nat) (best : Dbl K) (closest : Int),
    ((primary_scan sqrt ro rd index l best closest).2 = (best, closest) ∧
      ∀ (j : Nat) (o : Object K), l[j]? = some o →
        ¬ (Dbl.gt (hit_distance sqrt ro rd o) (fin 0) = true
          ∧ Dbl.lt (hit_distance sqrt ro rd o) best = true))
    ∨ ∃ (k : Nat) (ok : Object K), l[k]? = some ok ∧
        (primary_scan sqrt ro rd index l best closest).2
          = (hit_distance sqrt ro rd ok, ((index + k : Nat) : Int)) ∧
        Dbl.gt (hit_distance sqrt ro rd ok) (fin 0) = true ∧
        Dbl.lt (hit_distance sqrt ro rd ok) best = true ∧
        (∀ (j : Nat) (o : Object K), l[j]? = some o → Dbl.gt (hit_distance sqrt ro rd o) (fin 0) = true →
          Dbl.lt (hit_distance sqrt ro rd o) best = true →
          Dbl.le (hit_distance sqrt ro rd ok) (hit_distance sqrt ro rd o) = true) ∧
        (∀ (j : Nat) (o : Object K), j < k → l[j]? = some o → Dbl.gt (hit_distance sqrt ro rd o) (fin 0) = true →
          Dbl.lt (hit_distance sqrt ro rd o) best = true →
          Dbl.lt (hit_distance sqrt ro rd ok) (hit_distance sqrt ro rd o) = true) := by
  induction l with
  | nil =>
    intro index best closest
    left
    simp [primary_scan]
  | cons o rest ih =>
    intro index best closest
    rw [primary_scan_cons]
    by_cases hc : (Dbl.gt (hit_distance sqrt ro rd o) (fin 0)
        && Dbl.lt (hit_distance sqrt ro rd o) best) = true
    · rw [if_pos hc, if_pos hc]
      obtain ⟨hgt, hlt⟩ := Bool.and_eq_true_iff.mp hc
      rcases ih (index + 1) (hit_distance sqrt ro rd o) (index : Int) with
        ⟨heq, hno⟩ | ⟨k, ok, hk, heq, hgtk, hltk, hmin, hfirst⟩
      · right
        refine ⟨0, o, by simp, by rw [heq]; simp, hgt, hlt, ?_, ?_⟩
        · intro j o1 hj hg hl
          cases j with
          | zero =>
            simp only [List.getElem?_cons_zero, Option.some.injEq] at hj
            subst hj
            exact Dbl.cle_refl (Dbl.ne_nan_of_gt hgt)
          | succ j1 =>
            simp only [List.getElem?_cons_succ] at hj
            have hnl : Dbl.lt (hit_distance sqrt ro rd o1) (hit_distance sqrt ro rd o)
                = false := by
              by_contra hcon
              exact hno j1 o1 hj ⟨hg, by simpa using hcon⟩
            exact Dbl.cle_of_not_clt (Dbl.ne_nan_of_gt hg) (Dbl.ne_nan_of_gt hgt) hnl
        · intro j o1 hj
          exact absurd hj (Nat.not_lt_zero j)
      · right
        refine ⟨k + 1, ok, by simpa using hk, ?_, hgtk, Dbl.clt_trans hltk hlt, ?_, ?_⟩
        · rw [heq]
          have : index + 1 + k = index + (k + 1) := by omega
          rw [this]
        · intro j o1 hj hg hl
          cases j with
          | zero =>
            simp only [List.getElem?_cons_zero, Option.some.injEq] at hj
            subst hj
            exact Dbl.cle_of_clt hltk
          | succ j1 =>
            simp only [List.getElem?_cons_succ] at hj
            by_cases hl1 : Dbl.lt (hit_distance sqrt ro rd o1) (hit_distance sqrt ro rd o)
                = true
            · exact hmin j1 o1 hj hg hl1
            · have hle := Dbl.cle_of_not_clt (Dbl.ne_nan_of_gt hg) (Dbl.ne_nan_of_gt hgt)
                (by simpa using hl1)
              exact Dbl.cle_of_clt (Dbl.clt_of_clt_of_cle hltk hle)
        · intro j o1 hjk hj hg hl
          cases j with
          | zero =>
            simp only [List.getElem?_cons_zero, Option.some.injEq] at hj
            subst hj
            exact hltk
          | succ j1 =>
            simp only [List.getElem?_cons_succ] at hj
            by_cases hl1 : Dbl.lt (hit_distance sqrt ro rd o1) (hit_distance sqrt ro rd o)
                = true
            · exact hfirst j1 o1 (by omega) hj hg hl1
            · have hle := Dbl.cle_of_not_clt (Dbl.ne_nan_of_gt hg) (Dbl.ne_nan_of_gt hgt)
                (by simpa using hl1)
              exact Dbl.clt_of_clt_of_cle hltk hle
    · rw [if_neg hc, if_neg hc]
      have hc1 : ¬ (Dbl.gt (hit_distance sqrt ro rd o) (fin 0) = true
          ∧ Dbl.lt (hit_distance sqrt ro rd o) best = true) := by
        intro h
        exact hc (Bool.and_eq_true_iff.mpr h)
      rcases ih (index + 1) best closest with
        ⟨heq, hno⟩ | ⟨k, ok, hk, heq, hgtk, hltk, hmin, hfirst⟩
      · left
        refine ⟨heq, ?_⟩
        intro j o1 hj
        cases j with
        | zero =>
          simp only [List.getElem?_cons_zero, Option.some.injEq] at hj
          subst hj
          exact hc1
        | succ j1 =>
          simp only [List.getElem?_cons_succ] at hj
          exact hno j1 o1 hj
      · right
        refine ⟨k + 1, ok, by simpa using hk, ?_, hgtk, hltk, ?_, ?_⟩
        · rw [heq]
          have : index + 1 + k = index + (k + 1) := by omega
          rw [this]
        · intro j o1 hj hg hl
          cases j with
          | zero =>
            simp only [List.getElem?_cons_zero, Option.some.injEq] at hj
            subst hj
            exact absurd ⟨hg, hl⟩ hc1
          | succ j1 =>
            simp only [List.getElem?_cons_succ] at hj
            exact hmin j1 o1 hj hg hl
        · intro j o1 hjk hj hg hl
          cases j with
          | zero =>
            simp only [List.getElem?_cons_zero, Option.some.injEq] at hj
            subst hj
            exact absurd ⟨hg, hl⟩ hc1
          | succ j1 =>
            simp only [List.getElem?_cons_succ] at hj
            exact hfirst j1 o1 (by omega) hj hg hl

/-- When no object has a distance that passes `distance > 0` the object intersection
loop ends at plus infinity. -/
theorem primary_scan_miss (sqrt : K → K) (ro rd : Vec3 (Dbl K)) (l : List (Object K))
    (closest : Int)
    (hmiss : ∀ o ∈ l, Dbl.gt (hit_distance sqrt ro rd o) (fin 0) = false) :
    (primary_scan sqrt ro rd 0 l pinf closest).2.1 = pinf := by
  rcases primary_scan_spec sqrt ro rd l 0 pinf closest with
    ⟨heq, -⟩ | ⟨k, ok, hk, -, hgtk, -⟩
  · rw [heq]
  · rw [hmiss ok (List.getElem?_mem hk)] at hgtk
    exact absurd hgtk Bool.false_ne_true

end Primary

/-! ## Shadow test -/

section Shadow

variable {K : Type} [LinearOrderedField K]

/-- One pass of the shadow intersection loop: `best_distance2` is replaced exactly when
the object is not the hit primitive and its distance passes the three comparisons. -/
theorem shadow_scan_cons (sqrt : K → K) (new_ro new_rd : Vec3 (Dbl K)) (ld : Dbl K)
    (closest : Int) (index2 : Nat) (o : Object K) (rest : List (Object K)) (best2 : Dbl K) :
    (shadow_scan sqrt new_ro new_rd ld closest index2 (o :: rest) best2).2 =
      (shadow_scan sqrt new_ro new_rd ld closest (index2 + 1) rest
        (if closest ≠ (index2 : Int)
            ∧ Dbl.le (hit_distance sqrt new_ro new_rd o) ld = true
            ∧ Dbl.gt (hit_distance sqrt new_ro new_rd o) (fin 0) = true
            ∧ Dbl.lt (hit_distance sqrt new_ro new_rd o) best2 = true
          then hit_distance sqrt new_ro new_rd o else best2)).2 := by
  by_cases hk : closest = (index2 : Int)
  · simp [shadow_scan, hk]
  · by_cases ht : o.type = none
    · simp [shadow_scan, hit_distance, hk, ht, Dbl.gt, Dbl.lt]
    · by_cases hle : Dbl.le (object_intersection sqrt new_ro new_rd o).1 ld = true
      · by_cases hc : (Dbl.gt (object_intersection sqrt new_ro new_rd o).1 (fin 0)
            && Dbl.lt (object_intersection sqrt new_ro new_rd o).1 best2) = true
        · have hc2 := Bool.and_eq_true_iff.mp hc
          simp [shadow_scan, hit_distance, hk, ht, hle, hc2.1, hc2.2]
        · have hc2 : ¬ (Dbl.gt (object_intersection sqrt new_ro new_rd o).1 (fin 0) = true
              ∧ Dbl.lt (object_intersection sqrt new_ro new_rd o).1 best2 = true) :=
            fun h => hc (Bool.and_eq_true_iff.mpr h)
          simp only [shadow_scan, hit_distance, ne_eq, hk, ht, not_false_eq_true, if_true,
            hle, hc, true_and, hc2, if_false]
          simp
      · simp [shadow_scan, hit_distance, hk, ht, hle]

/-- Invariant of the shadow intersection loop: `best_distance2` ends at plus infinity
exactly when it started there and no object other than the hit primitive has a
distance `d` with `d <= light_distance`, `d > 0` and `d < INFINITY`. -/
theorem shadow_scan_spec (sqrt : K → K) (new_ro new_rd : Vec3 (Dbl K)) (ld : Dbl K)
    (closest : Int) (l : List (Object K)) :
    ∀ (index2 : Nat) (best2 : Dbl K),
    Dbl.eq (shadow_scan sqrt new_ro new_rd ld closest index2 l best2).2 pinf = true ↔
      (Dbl.eq best2 pinf = true ∧
        ∀ (j : Nat) (o : Object K), l[j]? = some o → closest ≠ ((index2 + j : Nat) : Int) →
          ¬ (Dbl.le (hit_distance sqrt new_ro new_rd o) ld = true
            ∧ Dbl.gt (hit_distance sqrt new_ro new_rd o) (fin 0) = true
            ∧ Dbl.lt (hit_distance sqrt new_ro new_rd o) pinf = true)) := by
  induction l with
  | nil =>
    intro index2 best2
    simp [shadow_scan]
  | cons o rest ih =>
    intro index2 best2
    rw [shadow_scan_cons, ih]
    by_cases hc : closest ≠ (index2 : Int)
        ∧ Dbl.le (hit_distance sqrt new_ro new_rd o) ld = true
        ∧ Dbl.gt (hit_distance sqrt new_ro new_rd o) (fin 0) = true
        ∧ Dbl.lt (hit_distance sqrt new_ro new_rd o) best2 = true
    · rw [if_pos hc]
      obtain ⟨hk, hle, hgt, hlt⟩ := hc
      have hne : Dbl.eq (hit_distance sqrt new_ro new_rd o) pinf = false :=
        Dbl.eq_pinf_of_clt hlt
      constructor
      · intro h
        rw [hne] at h
        exact absurd h.1 Bool.false_ne_true
      · rintro ⟨hb, hall⟩
        have hb2 : best2 = pinf := (Dbl.eq_pinf_iff best2).mp hb
        exact absurd ⟨hle, hgt, hb2 ▸ hlt⟩ (hall 0 o (by simp) (by simpa using hk))
    · rw [if_neg hc]
      constructor
      · rintro ⟨hb, hall⟩
        refine ⟨hb, ?_⟩
        intro j o1 hj hkj
        cases j with
        | zero =>
          simp only [List.getElem?_cons_zero, Option.some.injEq] at hj
          subst hj
          have hb2 : best2 = pinf := (Dbl.eq_pinf_iff best2).mp hb
          rintro ⟨hle, hgt, hlt⟩
          exact hc ⟨by simpa using hkj, hle, hgt, hb2 ▸ hlt⟩
        | succ j1 =>
          simp only [List.getElem?_cons_succ] at hj
          have hidx : index2 + 1 + j1 = index2 + (j1 + 1) := by omega
          have hkj1 : closest ≠ ((index2 + 1 + j1 : Nat) : Int) := by
            rw [hidx]; exact hkj
          exact hall j1 o1 hj hkj1
      · rintro ⟨hb, hall⟩
        refine ⟨hb, ?_⟩
        intro j o1 hj hkj
        have hidx : index2 + 1 + j = index2 + (j + 1) := by omega
        rw [hidx] at hkj
        have hj1 : (o :: rest)[j + 1]? = some o1 := by
          rw [List.getElem?_cons_succ]; exact hj
        exact hall (j + 1) o1 hj1 hkj

/-- Difference of finite vectors. -/
theorem vector_subtract_fin (a b : Vec3 K) :
    vector_subtract (vfin a) (vfin b) = vfin (a.sub b) := by
  simp only [vector_subtract, vfin, fin_sub_fin, Vec3.sub]

/-- Length of a finite vector: the operand of `sqrt` is never negative. -/
theorem vector_length_fin (sqrt : K → K) (v : Vec3 K) :
    vector_length sqrt (vfin v) = fin (sqrt v.normSq) := by
  unfold vector_length
  simp only [vfin, pow_fin, fin_add_fin]
  exact sqrt_fin_of_nonneg sqrt (Vec3.normSq_nonneg v)

end Shadow

/-! ## Normalising twice -/

/-- A vector whose squared length is `1` is nonzero. -/
theorem Vec3.nonzero_of_normSq_eq_one {v : Vec3 ℝ} (h : v.normSq = 1) : v.Nonzero := by
  by_contra hcon
  simp only [Vec3.Nonzero, not_or, not_not] at hcon
  have h0 : v.normSq = 0 := by
    simp only [Vec3.normSq, hcon.1, hcon.2.1, hcon.2.2]; norm_num
  rw [h] at h0
  exact one_ne_zero h0

/-- A nonzero vector divided by its length has squared length `1`. -/
theorem Vec3.normSq_sdiv_sqrt {v : Vec3 ℝ} (hv : v.Nonzero) :
    (v.sdiv (Real.sqrt v.normSq)).normSq = 1 := by
  have hpos : 0 < v.normSq := Vec3.normSq_pos hv
  have hne : Real.sqrt v.normSq ≠ 0 := ne_of_gt (Real.sqrt_pos.mpr hpos)
  have h1 : (v.sdiv (Real.sqrt v.normSq)).normSq = v.normSq / (Real.sqrt v.normSq) ^ 2 := by
    simp only [Vec3.normSq, Vec3.sdiv]; field_simp
  rw [h1, Real.sq_sqrt hpos.le]
  exact div_self (ne_of_gt hpos)

/-- The zero vector is normalised to three NaN (the quotients `0/0`). -/
theorem normalize_zero : normalize Real.sqrt (vfin (⟨0, 0, 0⟩ : Vec3 ℝ)) = ⟨nan, nan, nan⟩ := by
  have hlen : Dbl.sqrt Real.sqrt (fin ((0 : ℝ) ^ 2 + 0 ^ 2 + 0 ^ 2)) = fin 0 := by
    rw [sqrt_fin_of_nonneg Real.sqrt (by norm_num)]
    norm_num
  unfold normalize
  simp only [vfin, pow_fin, fin_add_fin, hlen, fin_div_fin]
  simp [infOfSign]

/-- Normalising a second time changes nothing, for every finite vector (the zero vector
included, which stays at three NaN). -/
theorem normalize_normalize_fin (v : Vec3 ℝ) :
    normalize Real.sqrt (normalize Real.sqrt (vfin v)) = normalize Real.sqrt (vfin v) := by
  by_cases hv : v.Nonzero
  · have h1 := Vec3.normSq_sdiv_sqrt hv
    rw [normalize_fin v hv, normalize_fin _ (Vec3.nonzero_of_normSq_eq_one h1), h1,
      Real.sqrt_one]
    simp [Vec3.sdiv]
  · simp only [Vec3.Nonzero, not_or, not_not] at hv
    have hz : v = ⟨0, 0, 0⟩ := by
      cases v
      simp_all
    rw [hz, normalize_zero]
    rfl

/-! ## The objects after a scan -/

section ScanObjects

variable {K : Type} [LinearOrderedField K]

/-- The normal that `plane_intersection` leaves in the caller's array. -/
theorem plane_intersection_snd (sqrt : K → K) (ro rd pos normal : Vec3 (Dbl K)) :
    (plane_intersection sqrt ro rd pos normal).2 = normalize sqrt normal := by
  unfold plane_intersection
  simp only
  split_ifs <;> rfl

/-- The object after the dispatch of a scan: a plane has its normal normalised. -/
theorem object_intersection_snd (sqrt : K → K) (ro rd : Vec3 (Dbl K)) (o : Object K) :
    (object_intersection sqrt ro rd o).2 = o.settle sqrt := by
  unfold object_intersection Object.settle
  by_cases hs : o.type = some "sphere"
  · have hp : ¬ (o.type = some "plane") := by rw [hs]; decide
    simp [hs, hp]
  · by_cases hp : o.type = some "plane"
    · simp [hs, hp, plane_intersection_snd]
    · simp [hs, hp]

/-- An object of NULL type is not a plane. -/
theorem Object.settle_of_type_none (sqrt : K → K) (o : Object K) (h : o.type = none) :
    o.settle sqrt = o := by
  simp [Object.settle, h]

/-- A plane whose normal is a fixed point of `normalize` is left as it is. -/
theorem Object.settle_of_fixed (sqrt : K → K) (o : Object K)
    (h : o.type = some "plane" → normalize sqrt o.plane.normal = o.plane.normal) :
    o.settle sqrt = o := by
  unfold Object.settle
  by_cases hp : o.type = some "plane"
  · rw [if_pos hp, h hp]
  · rw [if_neg hp]

/-- The objects after the object intersection loop: every plane has been normalised. -/
theorem primary_scan_fst (sqrt : K → K) (ro rd : Vec3 (Dbl K)) (l : List (Object K)) :
    ∀ (index : Nat) (best : Dbl K) (closest : Int),
    (primary_scan sqrt ro rd index l best closest).1 = l.map (Object.settle sqrt) := by
  induction l with
  | nil => intro index best closest; rfl
  | cons o rest ih =>
    intro index best closest
    by_cases ht : o.type = none
    · simp [primary_scan, ht, ih, Object.settle_of_type_none sqrt o ht]
    · by_cases hc : (Dbl.gt (object_intersection sqrt ro rd o).1 (fin 0)
          && Dbl.lt (object_intersection sqrt ro rd o).1 best) = true
      · simp only [primary_scan, ne_eq, ht, not_false_eq_true, if_true, hc, ih,
          object_intersection_snd, List.map_cons]
      · simp only [primary_scan, ne_eq, ht, not_false_eq_true, if_true, hc, ih,
          object_intersection_snd, List.map_cons, if_false]
        simp

/-- The objects after one pass of the shadow intersection loop. -/
theorem shadow_scan_cons_fst (sqrt : K → K) (new_ro new_rd : Vec3 (Dbl K)) (ld : Dbl K)
    (closest : Int) (index2 : Nat) (o : Object K) (rest : List (Object K)) (best2 : Dbl K) :
    ∃ best3 : Dbl K, (shadow_scan sqrt new_ro new_rd ld closest index2 (o :: rest) best2).1 =
      (if closest ≠ (index2 : Int) then o.settle sqrt else o)
        :: (shadow_scan sqrt new_ro new_rd ld closest (index2 + 1) rest best3).1 := by
  by_cases hk : closest = (index2 : Int)
  · exact ⟨best2, by simp [shadow_scan, hk]⟩
  · by_cases ht : o.type = none
    · exact ⟨best2, by simp [shadow_scan, hk, ht, Object.settle_of_type_none sqrt o ht]⟩
    · by_cases hle : Dbl.le (object_intersection sqrt new_ro new_rd o).1 ld = true
      · by_cases hc : (Dbl.gt (object_intersection sqrt new_ro new_rd o).1 (fin 0)
            && Dbl.lt (object_intersection sqrt new_ro new_rd o).1 best2) = true
        · exact ⟨(object_intersection sqrt new_ro new_rd o).1, by
            simp only [shadow_scan, ne_eq, hk, ht, not_false_eq_true, if_true, hle, hc,
              object_intersection_snd]⟩
        · exact ⟨best2, by
            simp only [shadow_scan, ne_eq, hk, ht, not_false_eq_true, if_true, hle, hc,
              object_intersection_snd, if_false]
            simp⟩
      · exact ⟨best2, by
          simp only [shadow_scan, ne_eq, hk, ht, not_false_eq_true, if_true, hle,
            object_intersection_snd, if_false]
          simp⟩

/-- The shadow intersection loop leaves the hit primitive as it is. -/
theorem shadow_scan_fst_closest (sqrt : K → K) (new_ro new_rd : Vec3 (Dbl K)) (ld : Dbl K)
    (closest : Int) (l : List (Object K)) :
    ∀ (index2 : Nat) (best2 : Dbl K) (j : Nat), closest = ((index2 + j : Nat) : Int) →
    (shadow_scan sqrt new_ro new_rd ld closest index2 l best2).1[j]? = l[j]? := by
  induction l with
  | nil => intro index2 best2 j _; simp [shadow_scan]
  | cons o rest ih =>
    intro index2 best2 j hj
    obtain ⟨best3, h3⟩ := shadow_scan_cons_fst sqrt new_ro new_rd ld closest index2 o rest best2
    rw [h3]
    cases j with
    | zero =>
      have hk : closest = (index2 : Int) := by simpa using hj
      simp [hk]
    | succ j1 =>
      simp only [List.getElem?_cons_succ]
      apply ih
      rw [hj]
      congr 1
      omega

/-- On a list whose planes are all fixed points of `normalize` the shadow intersection
loop leaves every object as it is. -/
theorem shadow_scan_fst_settled (sqrt : K → K) (new_ro new_rd : Vec3 (Dbl K)) (ld : Dbl K)
    (closest : Int) (l : List (Object K)) (hl : Settled sqrt l) :
    ∀ (index2 : Nat) (best2 : Dbl K),
    (shadow_scan sqrt new_ro new_rd ld closest index2 l best2).1 = l := by
  induction l with
  | nil => intro index2 best2; simp [shadow_scan]
  | cons o rest ih =>
    intro index2 best2
    obtain ⟨best3, h3⟩ := shadow_scan_cons_fst sqrt new_ro new_rd ld closest index2 o rest best2
    have ho : o.settle sqrt = o :=
      Object.settle_of_fixed sqrt o (hl o (List.mem_cons_self o rest))
    have hrest : Settled sqrt rest := fun x hx => hl x (List.mem_cons_of_mem o hx)
    rw [h3, ho, ih hrest]
    simp

end ScanObjects

/-! ## Contribution of one light -/

/-- The light iteration for an unoccluded light at a finite position, seen from a
finite point on a sphere or a plane. -/
theorem light_iteration_unoccluded (m : Libm ℝ) (hm : m.sqrt = Real.sqrt)
    (objects : List (Object ℝ)) (rd : Vec3 (Dbl ℝ)) (P lp : Vec3 ℝ) (k : Nat)
    (ok : Object ℝ) (light : Light ℝ) (pixel_coloring : Vec3 (Dbl ℝ))
    (hk : objects[k]? = some ok)
    (htype : ok.type = some "sphere" ∨ ok.type = some "plane")
    (hpos : light.position = vfin lp)
    (hun : Dbl.eq (shadow_best m.sqrt (vfin P) (k : Int) objects light) pinf = true) :
    let L := normalize Real.sqrt (vector_subtract light.position (vfin P))
    let N := normalize Real.sqrt
      (if ok.type = some "sphere" then vector_subtract (vfin P) ok.sphere.position
        else ok.plane.normal)
    let R := vector_reflection L N
    let diffuse_color :=
      if ok.type = some "sphere" then ok.sphere.diffuse_color else ok.plane.diffuse_color
    let specular_color :=
      if ok.type = some "sphere" then ok.sphere.specular_color else ok.plane.specular_color
    let diffuse := diffuse_reflection N L light.color diffuse_color
    let specular := specular_highlight N L R rd specular_color light.color
    let fang_out := fang m light.radial_a0 light.theta light.direction L
    let frad_out := frad light.radial_a0 light.radial_a1 light.radial_a2
      (fin (Real.sqrt (lp.sub P).normSq))
    (light_iteration m rd (vfin P) (k : Int) light (objects, pixel_coloring)).2 =
      ⟨fang_out * frad_out * (diffuse.c0 + specular.c0),
       fang_out * frad_out * (diffuse.c1 + specular.c1),
       fang_out * frad_out * (diffuse.c2 + specular.c2)⟩ := by
  intro L N R diffuse_color specular_color diffuse specular fang_out frad_out
  have hL : normalize Real.sqrt (normalize Real.sqrt (vector_subtract light.position (vfin P)))
      = L := by
    show normalize Real.sqrt (normalize Real.sqrt (vector_subtract light.position (vfin P)))
      = normalize Real.sqrt (vector_subtract light.position (vfin P))
    rw [hpos, vector_subtract_fin, normalize_normalize_fin]
  have hlen : vector_length Real.sqrt (vector_subtract light.position (vfin P))
      = fin (Real.sqrt (lp.sub P).normSq) := by
    rw [hpos, vector_subtract_fin, vector_length_fin]
  have hobj : (shadow_scan Real.sqrt (vfin P)
      (normalize Real.sqrt (vector_subtract light.position (vfin P)))
      (fin (Real.sqrt (lp.sub P).normSq)) (k : Int) 0
      objects pinf).1[((k : Int)).toNat]? = some ok := by
    rw [Int.toNat_natCast, shadow_scan_fst_closest _ _ _ _ _ _ 0 pinf k (by simp), hk]
  have hnone : ok.type ≠ none := by
    rcases htype with h | h <;> rw [h] <;> simp
  unfold shadow_best at hun
  rw [hm, hlen] at hun
  unfold light_iteration
  simp only [hm, hlen]
  rw [if_pos hun]
  simp only [surface_at, hobj, hL]
  rcases htype with hs | hp
  · simp only [hs, ne_eq, reduceCtorEq, not_false_eq_true, if_true]
    have e1 : N = normalize Real.sqrt (vector_subtract (vfin P) ok.sphere.position) := by
      show normalize Real.sqrt (if ok.type = some "sphere" then _ else _) = _
      rw [if_pos hs]
    have e2 : diffuse_color = ok.sphere.diffuse_color := if_pos hs
    have e3 : specular_color = ok.sphere.specular_color := if_pos hs
    simp only [fang_out, frad_out, diffuse, specular, R, e1, e2, e3]
  · have hns : ¬ (ok.type = some "sphere") := by rw [hp]; decide
    simp only [hp, ne_eq, reduceCtorEq, not_false_eq_true, if_true]
    simp only [show ¬ ((some "plane" : Option String) = some "sphere") by decide, if_false]
    have e1 : N = normalize Real.sqrt ok.plane.normal := by
      show normalize Real.sqrt (if ok.type = some "sphere" then _ else _) = _
      rw [if_neg hns]
    have e2 : diffuse_color = ok.plane.diffuse_color := if_neg hns
    have e3 : specular_color = ok.plane.specular_color := if_neg hns
    simp only [fang_out, frad_out, diffuse, specular, R, e1, e2, e3]

/-! ## The light loop -/

section LightLoop

variable {K : Type} [LinearOrderedField K] [FloorRing K]

/-- On a list whose planes are fixed points of `normalize` a light iteration leaves the
objects as they are. -/
theorem light_iteration_fst_settled (m : Libm K) (rd new_ro : Vec3 (Dbl K)) (closest : Int)
    (light : Light K) (objects : List (Object K)) (c : Vec3 (Dbl K))
    (hl : Settled m.sqrt objects) :
    (light_iteration m rd new_ro closest light (objects, c)).1 = objects := by
  unfold light_iteration
  simp only
  split_ifs <;> exact shadow_scan_fst_settled _ _ _ _ _ _ hl _ _

/-- The colour after a light iteration: the contribution of the light when the shadow
loop ends at plus infinity, the previous colour otherwise. -/
theorem light_iteration_snd (m : Libm K) (rd new_ro : Vec3 (Dbl K)) (closest : Int)
    (light : Light K) (objects : List (Object K)) (c : Vec3 (Dbl K)) :
    (light_iteration m rd new_ro closest light (objects, c)).2 =
      if Dbl.eq (shadow_best m.sqrt new_ro closest objects light) pinf = true then
        (light_iteration m rd new_ro closest light (objects, ⟨fin 0, fin 0, fin 0⟩)).2
      else c := by
  unfold light_iteration shadow_best
  simp only
  split_ifs <;> rfl

/-- The light loop over any list of indices, on a list of objects whose planes are fixed
points of `normalize`: the objects stay as they are and the colour is overwritten by
every unoccluded light. -/
theorem light_step_foldl_settled (m : Libm K) (rd new_ro : Vec3 (Dbl K)) (closest : Int)
    (objects : List (Object K)) (hl : Settled m.sqrt objects) (indices : List Nat) :
    ∀ c : Vec3 (Dbl K),
    indices.foldl (light_step m rd new_ro closest) (objects, c) =
      (objects, indices.foldl (fun c i => ((objects[i]?).map (fun o =>
          if (decide (o.type = some "light")
              && Dbl.eq (shadow_best m.sqrt new_ro closest objects o.light) pinf) = true
          then (light_iteration m rd new_ro closest o.light
            (objects, ⟨fin 0, fin 0, fin 0⟩)).2
          else c)).getD c) c) := by
  induction indices with
  | nil => intro c; rfl
  | cons i rest ih =>
    intro c
    rw [List.foldl_cons, List.foldl_cons]
    have hstep : light_step m rd new_ro closest (objects, c) i =
        (objects, ((objects[i]?).map (fun o =>
            if (decide (o.type = some "light")
                && Dbl.eq (shadow_best m.sqrt new_ro closest objects o.light) pinf) = true
            then (light_iteration m rd new_ro closest o.light
              (objects, ⟨fin 0, fin 0, fin 0⟩)).2
            else c)).getD c) := by
      unfold light_step
      cases hoi : objects[i]? with
      | none => rfl
      | some o =>
        simp only [Option.map_some', Option.getD_some]
        by_cases ht : o.type = some "light"
        · rw [if_pos ht]
          apply Prod.ext
          · exact light_iteration_fst_settled m rd new_ro closest o.light objects c hl
          · rw [light_iteration_snd]
            simp [ht]
        · rw [if_neg ht]
          simp [ht]
    rw [hstep, ih]

end LightLoop

/-! ## Normalised scenes -/

/-- The plane solver depends on the normal only through its normalisation. -/
theorem plane_intersection_congr {K : Type} [LinearOrderedField K] (sqrt : K → K)
    (ro rd pos n1 n2 : Vec3 (Dbl K)) (h : normalize sqrt n1 = normalize sqrt n2) :
    plane_intersection sqrt ro rd pos n1 = plane_intersection sqrt ro rd pos n2 := by
  unfold plane_intersection
  rw [h]

/-- Normalising the plane of an object a second time changes nothing when the normal
was finite. -/
theorem Object.settle_settle (o : Object ℝ)
    (hf : o.type = some "plane" → ∃ n : Vec3 ℝ, o.plane.normal = vfin n) :
    (o.settle Real.sqrt).settle Real.sqrt = o.settle Real.sqrt := by
  by_cases hp : o.type = some "plane"
  · obtain ⟨n, hn⟩ := hf hp
    simp only [Object.settle, hp, if_true, hn, normalize_normalize_fin]
  · simp only [Object.settle, hp, if_false]

/-- The distance of an object is the same before and after its plane is normalised,
when the normal was finite. -/
theorem hit_distance_settle (ro rd : Vec3 (Dbl ℝ)) (o : Object ℝ)
    (hf : o.type = some "plane" → ∃ n : Vec3 ℝ, o.plane.normal = vfin n) :
    hit_distance Real.sqrt ro rd (o.settle Real.sqrt) = hit_distance Real.sqrt ro rd o := by
  by_cases hp : o.type = some "plane"
  · obtain ⟨n, hn⟩ := hf hp
    have hns : ¬ ((some "plane" : Option String) = some "sphere") := by decide
    have hcongr := plane_intersection_congr Real.sqrt ro rd o.plane.position
      (normalize Real.sqrt (vfin n)) (vfin n) (normalize_normalize_fin n)
    simp only [hit_distance, object_intersection, Object.settle, hp, if_true, hn, hns,
      if_false, hcongr]
  · simp only [Object.settle, hp, if_false]

/-- After one normalisation of every plane with a finite normal, every plane normal is
a fixed point of `normalize`. -/
theorem settled_map_settle (objects : List (Object ℝ)) (hf : FiniteNormals objects) :
    Settled Real.sqrt (objects.map (Object.settle Real.sqrt)) := by
  intro o1 ho1 hp1
  obtain ⟨o, ho, rfl⟩ := List.mem_map.mp ho1
  by_cases hp : o.type = some "plane"
  · obtain ⟨n, hn⟩ := hf o ho hp
    simp only [Object.settle, hp, if_true, hn, normalize_normalize_fin]
  · simp only [Object.settle, hp, if_false] at hp1

/-- Normalising every plane a second time changes nothing. -/
theorem map_settle_map_settle (objects : List (Object ℝ)) (hf : FiniteNormals objects) :
    (objects.map (Object.settle Real.sqrt)).map (Object.settle Real.sqrt)
      = objects.map (Object.settle Real.sqrt) := by
  rw [List.map_map]
  apply List.map_congr_left
  intro o ho
  exact Object.settle_settle o (hf o ho)

/-! ## Frame of the render loop -/

/-- A property kept by every step of a fold holds at its end. -/
theorem foldl_invariant {σ α : Type} (P : σ → Prop) (f : σ → α → σ) (l : List α) :
    ∀ s : σ, P s → (∀ (s : σ) (x : α), x ∈ l → P s → P (f s x)) → P (l.foldl f s) := by
  induction l with
  | nil => intro s hs _; exact hs
  | cons a rest ih =>
    intro s hs hstep
    rw [List.foldl_cons]
    apply ih
    · exact hstep s a (List.mem_cons_self a rest) hs
    · intro s1 x hx h1
      exact hstep s1 x (List.mem_cons_of_mem a hx) h1

/-- Two pixels of a row-major buffer with the same index are the same pixel. -/
theorem pixel_index_inj (W : Int) (r c r0 c0 : Nat) (hc : (c : Int) < W)
    (hc0 : (c0 : Int) < W)
    (h : (W * (r : Int) + (c : Int)).toNat = (W * (r0 : Int) + (c0 : Int)).toNat) :
    r = r0 ∧ c = c0 := by
  have hW : 0 < W := lt_of_le_of_lt (Int.ofNat_nonneg c) hc
  have h1 : 0 ≤ W * (r : Int) + (c : Int) :=
    add_nonneg (mul_nonneg hW.le (Int.ofNat_nonneg r)) (Int.ofNat_nonneg c)
  have h2 : 0 ≤ W * (r0 : Int) + (c0 : Int) :=
    add_nonneg (mul_nonneg hW.le (Int.ofNat_nonneg r0)) (Int.ofNat_nonneg c0)
  have heq : W * (r : Int) + (c : Int) = W * (r0 : Int) + (c0 : Int) := by
    rw [← Int.toNat_of_nonneg h1, ← Int.toNat_of_nonneg h2, h]
  have hdiv : ∀ (a b : Nat), (b : Int) < W → (W * (a : Int) + (b : Int)) / W = (a : Int) := by
    intro a b hb
    rw [add_comm, Int.add_mul_ediv_left _ _ (ne_of_gt hW),
      Int.ediv_eq_zero_of_lt (Int.ofNat_nonneg b) hb, zero_add]
  have hr : (r : Int) = (r0 : Int) := by
    rw [← hdiv r c hc, ← hdiv r0 c0 hc0, heq]
  have hcc : (c : Int) = (c0 : Int) := by
    rw [hr] at heq
    linarith
  exact ⟨Int.ofNat_inj.mp hr, Int.ofNat_inj.mp hcc⟩

section Frame

variable {K : Type} [LinearOrderedField K] [FloorRing K]

/-- Storing a pixel keeps the width of the image. -/
theorem store_pixel_width (image : Image) (row column : Nat) (c : Vec3 (Dbl K)) :
    (store_pixel image row column c).width = image.width := rfl

/-- Storing a pixel changes the buffer at the index `width*row + column` only. -/
theorem store_pixel_getElem_ne (image : Image) (row column : Nat) (c : Vec3 (Dbl K))
    (j : Nat) (hj : (image.width * (row : Int) + (column : Int)).toNat ≠ j) :
    (store_pixel image row column c).image_data[j]? = image.image_data[j]? := by
  unfold store_pixel
  simp only
  exact List.getElem?_set_ne hj

/-- The image after the pass for one pixel: as before, or with that pixel stored. -/
theorem render_pixel_image (m : Libm K) (w h pw ph : Dbl K) (row column : Nat)
    (st : List (Object K) × Image × Int) :
    (render_pixel m w h pw ph row column st).2.1 = st.2.1
    ∨ ∃ c : Vec3 (Dbl K),
      (render_pixel m w h pw ph row column st).2.1 = store_pixel st.2.1 row column c := by
  unfold render_pixel
  simp only
  split_ifs with h1
  · split
    · exact Or.inl rfl
    · split_ifs
      · exact Or.inr ⟨_, rfl⟩
      · exact Or.inr ⟨_, rfl⟩
      · exact Or.inl rfl
  · exact Or.inl rfl

/-- When the object intersection loop ends at plus infinity the pass for the pixel
leaves the image as it was. -/
theorem render_pixel_miss (m : Libm K) (w h pw ph : Dbl K) (row column : Nat)
    (st : List (Object K) × Image × Int)
    (hbest : (primary_scan m.sqrt ⟨fin 0, fin 0, fin 0⟩
      (normalize m.sqrt (view_vector w h pw ph row column)) 0 st.1 pinf st.2.2).2.1 = pinf) :
    (render_pixel m w h pw ph row column st).2.1 = st.2.1 := by
  unfold render_pixel
  simp only [hbest]
  simp [Dbl.ne, Dbl.eq]

/-- On a list whose planes are fixed points of `normalize` the light loop leaves the
objects as they are. -/
theorem light_loop_fst_settled (m : Libm K) (rd new_ro : Vec3 (Dbl K)) (closest : Int)
    (objects : List (Object K)) (c : Vec3 (Dbl K)) (hl : Settled m.sqrt objects) :
    (light_loop m rd new_ro closest objects c).1 = objects := by
  unfold light_loop
  rw [light_step_foldl_settled m rd new_ro closest objects hl]

/-- The objects after the pass for one pixel, when one normalisation of the planes
settles them: every plane normalised once. -/
theorem render_pixel_fst (m : Libm K) (w h pw ph : Dbl K) (row column : Nat)
    (st : List (Object K) × Image × Int)
    (hl : Settled m.sqrt (st.1.map (Object.settle m.sqrt))) :
    (render_pixel m w h pw ph row column st).1 = st.1.map (Object.settle m.sqrt) := by
  unfold render_pixel
  simp only [primary_scan_fst]
  split_ifs with h1
  · have hloop := light_loop_fst_settled m
      (normalize m.sqrt (view_vector w h pw ph row column))
      (vector_add ⟨fin 0, fin 0, fin 0⟩
        (vector_scale (normalize m.sqrt (view_vector w h pw ph row column))
          (primary_scan m.sqrt ⟨fin 0, fin 0, fin 0⟩
            (normalize m.sqrt (view_vector w h pw ph row column)) 0 st.1 pinf st.2.2).2.1))
      (primary_scan m.sqrt ⟨fin 0, fin 0, fin 0⟩
        (normalize m.sqrt (view_vector w h pw ph row column)) 0 st.1 pinf st.2.2).2.2
      (st.1.map (Object.settle m.sqrt)) ⟨fin 0, fin 0, fin 0⟩ hl
    split
    · exact hloop
    · split_ifs <;> exact hloop
  · rfl

end Frame

/-! ## The spotlight example -/

/-- In the spotlight example the light is at distance `9` from the hit point. -/
theorem spot_len : Real.sqrt ((⟨0, 0, 0⟩ : Vec3 ℝ).sub ⟨0, 0, 9⟩).normSq = 9 := by
  have h1 : ((⟨0, 0, 0⟩ : Vec3 ℝ).sub ⟨0, 0, 9⟩).normSq = 9 ^ 2 := by
    norm_num [Vec3.normSq, Vec3.sub]
  rw [h1, Real.sqrt_sq (by norm_num)]

/-- In the spotlight example the light vector at the hit point `(0,0,9)` is `(0,0,-1)`. -/
theorem spot_L : normalize Real.sqrt (vector_subtract (vfin (⟨0, 0, 0⟩ : Vec3 ℝ))
    (vfin ⟨0, 0, 9⟩)) = vfin ⟨0, 0, -1⟩ := by
  rw [vector_subtract_fin, normalize_fin _ (Or.inr (Or.inr (by norm_num [Vec3.sub]))), spot_len]
  norm_num [Vec3.sdiv, Vec3.sub]

/-- In the spotlight example the surface normal at the hit point is `(0,0,-1)`. -/
theorem spot_N : normalize Real.sqrt (vector_subtract (vfin (⟨0, 0, 9⟩ : Vec3 ℝ))
    (vfin ⟨0, 0, 10⟩)) = vfin ⟨0, 0, -1⟩ := by
  have h1 : Real.sqrt ((⟨0, 0, 9⟩ : Vec3 ℝ).sub ⟨0, 0, 10⟩).normSq = 1 := by
    have h2 : ((⟨0, 0, 9⟩ : Vec3 ℝ).sub ⟨0, 0, 10⟩).normSq = 1 := by
      norm_num [Vec3.normSq, Vec3.sub]
    rw [h2, Real.sqrt_one]
  rw [vector_subtract_fin, normalize_fin _ (Or.inr (Or.inr (by norm_num [Vec3.sub]))), h1]
  norm_num [Vec3.sdiv, Vec3.sub]

/-- In the spotlight example nothing lies between the hit point and the light. -/
theorem spot_unoccluded :
    Dbl.eq (shadow_best Real.sqrt (vfin (⟨0, 0, 9⟩ : Vec3 ℝ)) 1 spot_scene spot_light) pinf
      = true := by
  unfold shadow_best
  rw [shadow_scan_spec]
  refine ⟨rfl, ?_⟩
  intro j o hj hk
  have hgt : Dbl.gt (hit_distance Real.sqrt (vfin (⟨0, 0, 9⟩ : Vec3 ℝ))
      (normalize Real.sqrt (vector_subtract (spot_light (K := ℝ)).position (vfin ⟨0, 0, 9⟩))) o)
      (fin 0) = false := by
    match j, hj with
    | 0, hj =>
      simp only [spot_scene, List.getElem?_cons_zero, Option.some.injEq] at hj
      subst hj
      simp [hit_distance, object_intersection, unit_camera, Object.zero, Dbl.gt, Dbl.lt]
    | 1, _ => exact absurd rfl hk
    | 2, hj =>
      simp only [spot_scene, List.getElem?_cons_succ, List.getElem?_cons_zero,
        Option.some.injEq] at hj
      subst hj
      simp [hit_distance, object_intersection, spot_light_object, Object.zero, Dbl.gt, Dbl.lt]
    | (n + 3), hj => simp [spot_scene] at hj
  rw [hgt]
  simp

/-- Reflection of finite vectors. -/
theorem vector_reflection_fin (a b : Vec3 ℝ) :
    vector_reflection (vfin a) (vfin b) =
      vfin ⟨a.c0 - 2 * a.dot b * b.c0, a.c1 - 2 * a.dot b * b.c1,
        a.c2 - 2 * a.dot b * b.c2⟩ := by
  simp only [vector_reflection, vector_scale, vector_subtract, vector_dot_product, vfin,
    fin_mul_fin, fin_add_fin, fin_sub_fin, Vec3.dot]

/-- In the spotlight example `fang` with the exponent `radial_a0 = 1` is `2`. -/
theorem spot_fang_radial :
    fang ⟨Real.sqrt, Real.cos, Real.rpow, Real.pi⟩ (spot_light (K := ℝ)).radial_a0
      (spot_light (K := ℝ)).theta (spot_light (K := ℝ)).direction (vfin ⟨0, 0, -1⟩)
      = fin 2 := by
  have hcos : Real.cos (90 * Real.pi / 180) = 0 := by
    rw [show (90 : ℝ) * Real.pi / 180 = Real.pi / 2 by ring]
    exact Real.cos_pi_div_two
  have hdot : (⟨0, 0, 2⟩ : Vec3 ℝ).dot (Vec3.neg ⟨0, 0, -1⟩) = 2 := by
    norm_num [Vec3.dot, Vec3.neg]
  simp only [spot_light]
  rw [fang_fin _ _ _ _ _ (Or.inl (by norm_num))]
  simp only [hcos, hdot]
  norm_num [Dbl.rpow]

/-- In the spotlight example `fang` with the exponent `angular_a0 = 2` is `4`. -/
theorem spot_fang_angular :
    fang ⟨Real.sqrt, Real.cos, Real.rpow, Real.pi⟩ (spot_light (K := ℝ)).angular_a0
      (spot_light (K := ℝ)).theta (spot_light (K := ℝ)).direction (vfin ⟨0, 0, -1⟩)
      = fin 4 := by
  have hcos : Real.cos (90 * Real.pi / 180) = 0 := by
    rw [show (90 : ℝ) * Real.pi / 180 = Real.pi / 2 by ring]
    exact Real.cos_pi_div_two
  have hdot : (⟨0, 0, 2⟩ : Vec3 ℝ).dot (Vec3.neg ⟨0, 0, -1⟩) = 2 := by
    norm_num [Vec3.dot, Vec3.neg]
  simp only [spot_light]
  rw [fang_fin _ _ _ _ _ (Or.inl (by norm_num))]
  simp only [hcos, hdot]
  norm_num [Dbl.rpow]

/-- In the spotlight example the light iteration at the hit point `(0,0,9)` of the
sphere, seen along `(0,0,1)`, sets the working colour to `(1/4, 0, 0)`. -/
theorem spot_colour (c : Vec3 (Dbl ℝ)) :
    (light_iteration ⟨Real.sqrt, Real.cos, Real.rpow, Real.pi⟩ (vfin ⟨0, 0, 1⟩)
      (vfin ⟨0, 0, 9⟩) 1 spot_light (spot_scene, c)).2 = vfin ⟨1 / 4, 0, 0⟩ := by
  have h := light_iteration_unoccluded ⟨Real.sqrt, Real.cos, Real.rpow, Real.pi⟩ rfl
    spot_scene (vfin ⟨0, 0, 1⟩) ⟨0, 0, 9⟩ ⟨0, 0, 0⟩ 1 spot_sphere spot_light c rfl
    (Or.inl rfl) rfl spot_unoccluded
  simp only at h
  rw [Nat.cast_one] at h
  rw [h]
  have hs : (spot_sphere (K := ℝ)).type = some "sphere" := rfl
  have hpos : (spot_light (K := ℝ)).position = vfin ⟨0, 0, 0⟩ := rfl
  have hsp : (spot_sphere (K := ℝ)).sphere.position = vfin ⟨0, 0, 10⟩ := rfl
  have hdc : (spot_sphere (K := ℝ)).sphere.diffuse_color = vfin ⟨1 / 8, 0, 0⟩ := rfl
  have hsc : (spot_sphere (K := ℝ)).sphere.specular_color = vfin ⟨0, 0, 0⟩ := rfl
  have hlc : (spot_light (K := ℝ)).color = vfin ⟨1, 1, 1⟩ := rfl
  have hfr : frad (spot_light (K := ℝ)).radial_a0 (spot_light (K := ℝ)).radial_a1
      (spot_light (K := ℝ)).radial_a2 (fin 9) = fin 1 := by
    simp only [spot_light]
    rw [frad_fin, fin_div_fin_of_ne _ (by norm_num)]
    norm_num
  simp only [hs, if_true, hpos, hsp, hdc, hsc, hlc, spot_L, spot_N, spot_len,
    spot_fang_radial, hfr, vector_reflection_fin, diffuse_reflection_fin,
    specular_highlight_fin]
  norm_num [vfin, Vec3.dot]

/-- The light iteration never reads the field `angular_a0` of the light: changing it
changes nothing. -/
theorem light_iteration_angular_a0_unused {K : Type} [LinearOrderedField K] [FloorRing K]
    (m : Libm K) (rd new_ro : Vec3 (Dbl K)) (closest : Int) (light : Light K) (x : Dbl K)
    (st : List (Object K) × Vec3 (Dbl K)) :
    light_iteration m rd new_ro closest { light with angular_a0 := x } st
      = light_iteration m rd new_ro closest light st := rfl

/-! ## The primary ray of an image of one pixel -/

/-- The primary ray of the only pixel of a one-pixel image, for a camera of width and
height `1`, is `(0,0,1)`. -/
theorem one_pixel_ray :
    normalize Real.sqrt (view_vector (fin (1 : ℝ)) (fin 1) (fin 1 / fin ((1 : Int) : ℝ))
      (fin 1 / fin ((1 : Int) : ℝ)) 0 0) = vfin ⟨0, 0, 1⟩ := by
  have hv : view_vector (fin (1 : ℝ)) (fin 1) (fin 1 / fin ((1 : Int) : ℝ))
      (fin 1 / fin ((1 : Int) : ℝ)) 0 0 = vfin ⟨0, 0, 1⟩ := by
    unfold view_vector
    rw [fin_div_fin_of_ne _ (by norm_num), fin_div_fin_of_ne _ (by norm_num)]
    simp only [fin_sub_fin, fin_mul_fin, fin_add_fin, vfin]
    norm_num
  have hlen : Real.sqrt (⟨0, 0, 1⟩ : Vec3 ℝ).normSq = 1 := by
    have h1 : (⟨0, 0, 1⟩ : Vec3 ℝ).normSq = 1 := by norm_num [Vec3.normSq]
    rw [h1, Real.sqrt_one]
  rw [hv, normalize_fin _ (Or.inr (Or.inr one_ne_zero)), hlen]
  norm_num [Vec3.sdiv]

/-! ## The spotlight example, end to end -/

/-- In the spotlight example the primary ray `(0,0,1)` meets the sphere at distance `9`. -/
theorem spot_sphere_distance :
    sphere_intersection Real.sqrt (vfin (⟨0, 0, 0⟩ : Vec3 ℝ)) (vfin ⟨0, 0, 1⟩)
      (vfin ⟨0, 0, 10⟩) (fin 1) = fin 9 := by
  have h4 : Real.sqrt 4 = 2 := by
    rw [show (4 : ℝ) = 2 ^ 2 by norm_num]
    exact Real.sqrt_sq (by norm_num)
  rw [sphere_intersection_fin _ _ _ _ (Or.inr (Or.inr one_ne_zero))]
  norm_num [Vec3.normSq, Vec3.dot, Vec3.sub, h4]

/-- In the spotlight example the object intersection loop selects the sphere, index `1`,
at distance `9`. -/
theorem spot_primary_scan (closest : Int) :
    (primary_scan Real.sqrt (⟨fin 0, fin 0, fin 0⟩ : Vec3 (Dbl ℝ)) (vfin ⟨0, 0, 1⟩) 0
      spot_scene pinf closest).2 = (fin 9, 1) := by
  have hro : (⟨fin 0, fin 0, fin 0⟩ : Vec3 (Dbl ℝ)) = vfin ⟨0, 0, 0⟩ := rfl
  have hd0 : hit_distance Real.sqrt (vfin (⟨0, 0, 0⟩ : Vec3 ℝ)) (vfin ⟨0, 0, 1⟩)
      unit_camera = fin 0 := by
    simp [hit_distance, object_intersection, unit_camera, Object.zero]
  have hd1 : hit_distance Real.sqrt (vfin (⟨0, 0, 0⟩ : Vec3 ℝ)) (vfin ⟨0, 0, 1⟩)
      spot_sphere = fin 9 := by
    have hty : (spot_sphere (K := ℝ)).type = some "sphere" := rfl
    have hps : (spot_sphere (K := ℝ)).sphere.position = vfin ⟨0, 0, 10⟩ := rfl
    have hra : (spot_sphere (K := ℝ)).sphere.radius = fin 1 := rfl
    simp only [hit_distance, object_intersection, hty, hps, hra, spot_sphere_distance]
    simp
  have hd2 : hit_distance Real.sqrt (vfin (⟨0, 0, 0⟩ : Vec3 ℝ)) (vfin ⟨0, 0, 1⟩)
      spot_light_object = fin 0 := by
    simp [hit_distance, object_intersection, spot_light_object, Object.zero]
  rw [hro]
  show (primary_scan Real.sqrt _ _ 0 [unit_camera, spot_sphere, spot_light_object] pinf
    closest).2 = _
  rw [primary_scan_cons, primary_scan_cons, primary_scan_cons, hd0, hd1, hd2]
  simp [primary_scan, Dbl.gt, Dbl.lt]

/-- The spotlight scene has no plane. -/
theorem spot_scene_settled : Settled Real.sqrt (spot_scene (K := ℝ)) := by
  intro o ho hp
  simp only [spot_scene, List.mem_cons, List.mem_singleton, List.not_mem_nil, or_false]
    at ho
  rcases ho with rfl | rfl | rfl <;>
    simp [unit_camera, spot_sphere, spot_light_object, Object.zero] at hp

/-- The spotlight scene is left as it is by the normalisation of the planes. -/
theorem spot_scene_map_settle :
    (spot_scene (K := ℝ)).map (Object.settle Real.sqrt) = spot_scene := by
  have h := spot_scene_settled
  have hall : ∀ o ∈ (spot_scene (K := ℝ)), o.settle Real.sqrt = o :=
    fun o ho => Object.settle_of_fixed Real.sqrt o (h o ho)
  calc (spot_scene (K := ℝ)).map (Object.settle Real.sqrt)
      = (spot_scene (K := ℝ)).map id := List.map_congr_left hall
    _ = spot_scene := List.map_id _

/-- In the spotlight example the light loop ends with the colour `(1/4, 0, 0)`. -/
theorem spot_light_loop :
    light_loop ⟨Real.sqrt, Real.cos, Real.rpow, Real.pi⟩ (vfin ⟨0, 0, 1⟩) (vfin ⟨0, 0, 9⟩) 1
      spot_scene ⟨fin 0, fin 0, fin 0⟩ = (spot_scene, vfin (⟨1 / 4, 0, 0⟩ : Vec3 ℝ)) := by
  have h1 : (unit_camera (K := ℝ)).type = some "camera" := rfl
  have h2 : (spot_sphere (K := ℝ)).type = some "sphere" := rfl
  have h3 : (spot_light_object (K := ℝ)).type = some "light" := rfl
  have h4 : Dbl.eq (shadow_best Real.sqrt (vfin (⟨0, 0, 9⟩ : Vec3 ℝ)) 1 spot_scene
      (spot_light_object (K := ℝ)).light) pinf = true := spot_unoccluded
  have h5 : (light_iteration ⟨Real.sqrt, Real.cos, Real.rpow, Real.pi⟩ (vfin ⟨0, 0, 1⟩)
      (vfin ⟨0, 0, 9⟩) 1 (spot_light_object (K := ℝ)).light
      (spot_scene, ⟨fin 0, fin 0, fin 0⟩)).2 = vfin ⟨1 / 4, 0, 0⟩ := spot_colour _
  have hrange : List.range (spot_scene (K := ℝ)).length = [0, 1, 2] := rfl
  have e0 : (spot_scene (K := ℝ))[0]? = some unit_camera := rfl
  have e1 : (spot_scene (K := ℝ))[1]? = some spot_sphere := rfl
  have e2 : (spot_scene (K := ℝ))[2]? = some spot_light_object := rfl
  unfold light_loop
  rw [light_step_foldl_settled ⟨Real.sqrt, Real.cos, Real.rpow, Real.pi⟩ _ _ _ _
    spot_scene_settled, hrange]
  simp only [List.foldl_cons, List.foldl_nil, e0, e1, e2, Option.map_some', Option.getD_some,
    h1, h2, h3, h4, h5]
  simp

/-- The byte stored for the colour channel `1/4` with `max_color = 255` is `63`. -/
theorem toUChar_quarter : Dbl.toUChar (fin ((1 / 4 : ℝ) * ((255 : Int) : ℝ))) = 63 := by
  have hfloor : Int.floor ((1 / 4 : ℝ) * ((255 : Int) : ℝ)) = 63 := by
    rw [Int.floor_eq_iff]
    constructor <;> norm_num
  have hnn : (0 : ℝ) ≤ (1 / 4 : ℝ) * ((255 : Int) : ℝ) := by norm_num
  simp only [Dbl.toUChar, hnn, if_true, hfloor]
  decide

/-- The byte stored for the colour channel `0` is `0`. -/
theorem toUChar_zero : Dbl.toUChar (fin ((0 : ℝ) * ((255 : Int) : ℝ))) = 0 := by
  simp [Dbl.toUChar]

/-- In the spotlight example the pass for the only pixel stores `(63, 0, 0)`. -/
theorem spot_render_pixel (closest : Int) :
    render_pixel ⟨Real.sqrt, Real.cos, Real.rpow, Real.pi⟩ (fin (1 : ℝ)) (fin 1)
      (fin 1 / fin ((1 : Int) : ℝ)) (fin 1 / fin ((1 : Int) : ℝ)) 0 0
      (spot_scene, one_pixel_image, closest)
    = (spot_scene, ⟨"P6", 1, 1, 255, [⟨63, 0, 0⟩]⟩, 1) := by
  have hscan1 := primary_scan_fst Real.sqrt (⟨fin 0, fin 0, fin 0⟩ : Vec3 (Dbl ℝ))
    (vfin ⟨0, 0, 1⟩) spot_scene 0 pinf closest
  rw [spot_scene_map_settle] at hscan1
  have hscan2 := spot_primary_scan closest
  have hscan : primary_scan Real.sqrt (⟨fin 0, fin 0, fin 0⟩ : Vec3 (Dbl ℝ)) (vfin ⟨0, 0, 1⟩) 0
      spot_scene pinf closest = (spot_scene, fin 9, 1) := Prod.ext hscan1 hscan2
  have hnew : vector_add (⟨fin 0, fin 0, fin 0⟩ : Vec3 (Dbl ℝ))
      (vector_scale (vfin ⟨0, 0, 1⟩) (fin 9)) = vfin ⟨0, 0, 9⟩ := by
    simp [vector_add, vector_scale, vfin]
  have e1 : (spot_scene (K := ℝ))[(1 : Int).toNat]? = some spot_sphere := rfl
  have hty : (spot_sphere (K := ℝ)).type = some "sphere" := rfl
  have hclamp : clamp (fin (1 / 4 : ℝ)) (fin 0) (fin 1) = fin (1 / 4) := by
    simp [clamp, Dbl.gt, Dbl.lt]
    norm_num
  have hclamp0 : clamp (fin (0 : ℝ)) (fin 0) (fin 1) = fin 0 := by
    simp [clamp, Dbl.gt, Dbl.lt]
  unfold render_pixel
  simp only [one_pixel_ray, hscan]
  have hcond : (Dbl.gt (fin (9 : ℝ)) (fin 0) && Dbl.ne (fin (9 : ℝ)) pinf) = true := by
    simp [Dbl.gt, Dbl.lt, Dbl.ne, Dbl.eq]
  rw [if_pos hcond]
  simp only [hnew, spot_light_loop, e1, hty, if_true]
  simp only [store_pixel, one_pixel_image, vfin, hclamp, hclamp0, fin_mul_fin,
    toUChar_quarter, toUChar_zero]
  rfl

/-- The spotlight example rendered by `raycaster`: the pixel is `(63, 0, 0)`, the red byte
of the colour `1/4`. -/
theorem spot_raycaster (closest : Int) :
    raycaster ⟨Real.sqrt, Real.cos, Real.rpow, Real.pi⟩ spot_scene one_pixel_image closest
      = some (spot_scene, ⟨"P6", 1, 1, 255, [⟨63, 0, 0⟩]⟩) := by
  have hcam0 : get_camera (spot_scene (K := ℝ)) = 0 := by
    simp [get_camera, get_camera_from, spot_scene, unit_camera]
  have hcam : (spot_scene (K := ℝ))[(0 : Int).toNat]? = some unit_camera := rfl
  have hw : (unit_camera (K := ℝ)).camera.width = fin 1 := rfl
  have hh : (unit_camera (K := ℝ)).camera.height = fin 1 := rfl
  have hiw : one_pixel_image.width = 1 := rfl
  have hih : one_pixel_image.height = 1 := rfl
  have hr : List.range (1 : Int).toNat = [0] := rfl
  unfold raycaster
  simp only [hcam0, hcam, hw, hh, hiw, hih, hr, List.foldl_cons, List.foldl_nil,
    spot_render_pixel]
  simp

/-- Claim C13 (the exponent of the angular attenuation in the render loop), evaluated on
a failing input.  In the spotlight example (`radial_a0 = 1`, `angular_a0 = 2`, one-pixel
image, hit point `(0,0,9)` inside the cone, `scalar = 2`) the light iteration multiplies
the colour by `fang` computed with the exponent `radial_a0`, that is by `2^1 = 2`: the
working colour is `2 * 1 * (1/8) = 1/4` in the red channel and `raycaster` stores the
pixel `(63, 0, 0)`.  With the exponent `angular_a0` the factor would be `2^2 = 4`, the
colour `1/2` and the red byte `127`. -/
theorem light_iteration_exponent_is_radial_a0 :
    raycaster ⟨Real.sqrt, Real.cos, Real.rpow, Real.pi⟩ (spot_scene (K := ℝ))
      one_pixel_image 0 = some (spot_scene, ⟨"P6", 1, 1, 255, [⟨63, 0, 0⟩]⟩)
    ∧ (light_iteration ⟨Real.sqrt, Real.cos, Real.rpow, Real.pi⟩ (vfin ⟨0, 0, 1⟩)
      (vfin ⟨0, 0, 9⟩) 1 spot_light (spot_scene, ⟨fin 0, fin 0, fin 0⟩)).2
        = vfin (⟨1 / 4, 0, 0⟩ : Vec3 ℝ)
    ∧ fang ⟨Real.sqrt, Real.cos, Real.rpow, Real.pi⟩ (spot_light (K := ℝ)).radial_a0
        (spot_light (K := ℝ)).theta (spot_light (K := ℝ)).direction
        (normalize Real.sqrt (vector_subtract (spot_light (K := ℝ)).position
          (vfin ⟨0, 0, 9⟩))) = fin 2
    ∧ fang ⟨Real.sqrt, Real.cos, Real.rpow, Real.pi⟩ (spot_light (K := ℝ)).angular_a0
        (spot_light (K := ℝ)).theta (spot_light (K := ℝ)).direction
        (normalize Real.sqrt (vector_subtract (spot_light (K := ℝ)).position
          (vfin ⟨0, 0, 9⟩))) = fin 4 := by
  have hpos : (spot_light (K := ℝ)).position = vfin ⟨0, 0, 0⟩ := rfl
  refine ⟨spot_raycaster 0, spot_colour _, ?_, ?_⟩
  · rw [hpos, spot_L]
    exact spot_fang_radial
  · rw [hpos, spot_L]
    exact spot_fang_angular

/-! ## Reflection and normalisation -/

section Reflection

variable {K : Type} [LinearOrderedField K]

end Reflection

/-- A vector whose squared length is positive is nonzero. -/
theorem Vec3.nonzero_of_normSq_pos {v : Vec3 ℝ} (h : 0 < v.normSq) : v.Nonzero := by
  by_contra hcon
  simp only [Vec3.Nonzero, not_or, not_not] at hcon
  have h0 : v.normSq = 0 := by
    simp only [Vec3.normSq, hcon.1, hcon.2.1, hcon.2.2]; norm_num
  rw [h0] at h
  exact lt_irrefl 0 h

/-- A vector of squared length `1` is left as it is by `normalize`. -/
theorem normalize_of_normSq_eq_one (v : Vec3 ℝ) (h : v.normSq = 1) :
    normalize Real.sqrt (vfin v) = vfin v := by
  rw [normalize_fin v (Vec3.nonzero_of_normSq_eq_one h), h, Real.sqrt_one]
  simp [Vec3.sdiv]

/-! ## The camera -/

section GetCamera

variable {K : Type}

/-- The loop of `get_camera` from index `k`: either no remaining object is a camera and
the result is `-1`, or the result is the index of the first remaining camera. -/
theorem get_camera_from_spec (l : List (Object K)) : ∀ k : Nat,
    (get_camera_from k l = -1 ∧ ∀ o ∈ l, o.type ≠ some "camera")
    ∨ ∃ (i : Nat) (cam : Object K), get_camera_from k l = ((k + i : Nat) : Int)
        ∧ l[i]? = some cam ∧ cam.type = some "camera"
        ∧ ∀ (j : Nat) (o : Object K), j < i → l[j]? = some o → o.type ≠ some "camera" := by
  induction l with
  | nil =>
    intro k
    left
    exact ⟨rfl, fun o ho => absurd ho (List.not_mem_nil o)⟩
  | cons a rest ih =>
    intro k
    by_cases ha : a.type = some "camera"
    · right
      refine ⟨0, a, ?_, List.getElem?_cons_zero, ha, ?_⟩
      · simp [get_camera_from, ha]
      · intro j o hj
        exact absurd hj (Nat.not_lt_zero j)
    · rcases ih (k + 1) with ⟨h1, h2⟩ | ⟨i, cam, h1, h2, h3, h4⟩
      · left
        refine ⟨?_, ?_⟩
        · simp only [get_camera_from, ha, if_false]
          exact h1
        · intro o ho
          rcases List.mem_cons.mp ho with rfl | ho1
          · exact ha
          · exact h2 o ho1
      · right
        refine ⟨i + 1, cam, ?_, ?_, h3, ?_⟩
        · simp only [get_camera_from, ha, if_false]
          rw [h1]
          congr 1
          omega
        · rw [List.getElem?_cons_succ]
          exact h2
        · intro j o hj hjo
          cases j with
          | zero =>
            simp only [List.getElem?_cons_zero, Option.some.injEq] at hjo
            subst hjo
            exact ha
          | succ j1 =>
            rw [List.getElem?_cons_succ] at hjo
            exact h4 j1 o (by omega) hjo

/-- The result of `get_camera`: `-1` and no camera, or the index of the first camera. -/
theorem get_camera_spec (objects : List (Object K)) :
    (get_camera objects = -1 ∧ ∀ o ∈ objects, o.type ≠ some "camera")
    ∨ ∃ (i : Nat) (cam : Object K), get_camera objects = (i : Int)
        ∧ objects[i]? = some cam ∧ cam.type = some "camera"
        ∧ ∀ (j : Nat) (o : Object K), j < i → objects[j]? = some o →
            o.type ≠ some "camera" := by
  rcases get_camera_from_spec objects 0 with h | ⟨i, cam, h1, h2, h3, h4⟩
  · exact Or.inl h
  · right
    refine ⟨i, cam, ?_, h2, h3, h4⟩
    unfold get_camera
    rw [h1, Nat.zero_add]

/-- The first camera of a list is the one `get_camera` finds. -/
theorem get_camera_of_first (objects : List (Object K)) (i : Nat) (cam : Object K)
    (hi : objects[i]? = some cam) (hcam : cam.type = some "camera")
    (hfirst : ∀ (j : Nat) (o : Object K), j < i → objects[j]? = some o →
      o.type ≠ some "camera") :
    get_camera objects = (i : Int) := by
  rcases get_camera_spec objects with ⟨-, h2⟩ | ⟨i1, cam1, h1, h2, h3, h4⟩
  · exact absurd hcam (h2 cam (List.getElem?_mem hi))
  · rw [h1]
    congr 1
    rcases Nat.lt_trichotomy i1 i with hlt | heq | hgt
    · exact absurd h3 (hfirst i1 cam1 hlt h2)
    · exact heq
    · exact absurd hcam (h4 i cam hgt hi)

/-- A list has no camera exactly when `get_camera` returns `-1`. -/
theorem get_camera_eq_neg_one_iff (objects : List (Object K)) :
    get_camera objects = -1 ↔ ∀ o ∈ objects, o.type ≠ some "camera" := by
  constructor
  · intro h
    rcases get_camera_spec objects with ⟨-, h2⟩ | ⟨i, cam, h1, -, -, -⟩
    · exact h2
    · rw [h1] at h
      omega
  · intro h
    rcases get_camera_spec objects with ⟨h1, -⟩ | ⟨i, cam, -, h2, h3, -⟩
    · exact h1
    · exact absurd h3 (h cam (List.getElem?_mem h2))

end GetCamera

section RaycasterCamera

variable {K : Type} [LinearOrderedField K] [FloorRing K]

/-- With the camera at index `i`, `raycaster` returns the objects and the image that the
pixel loops leave for the width and the height of that camera. -/
theorem raycaster_of_camera (m : Libm K) (objects : List (Object K)) (image : Image)
    (closest_object : Int) (i : Nat) (cam : Object K)
    (hi : get_camera objects = (i : Int)) (hcam : objects[i]? = some cam) :
    raycaster m objects image closest_object =
      some ((pixel_loops m cam.camera.width cam.camera.height objects image
          closest_object).1,
        (pixel_loops m cam.camera.width cam.camera.height objects image
          closest_object).2.1) := by
  have hne : ¬ ((i : Int) = -1) := by omega
  unfold raycaster
  simp only [hi, hne, if_false, Int.toNat_natCast, hcam]
  rfl

/-- Without a camera `raycaster` stops at `exit`. -/
theorem raycaster_of_no_camera (m : Libm K) (objects : List (Object K)) (image : Image)
    (closest_object : Int) (h : get_camera objects = -1) :
    raycaster m objects image closest_object = none := by
  unfold raycaster
  simp only [h, if_true]

end RaycasterCamera

/-! ## The primary ray of a pixel -/

section ViewVector

variable {K : Type} [LinearOrderedField K]

/-- The view vector of a pixel for a finite camera and a positive image size. -/
theorem view_vector_fin (w h : K) (W H : Int) (hW : 0 < W) (hH : 0 < H)
    (row column : Nat) :
    view_vector (fin w) (fin h) (fin w / fin (W : K)) (fin h / fin (H : K)) row column =
      vfin ⟨-w / 2 + (w / (W : K)) * ((column : K) + 1 / 2),
        -(-h / 2 + (h / (H : K)) * ((row : K) + 1 / 2)), 1⟩ := by
  have hW0 : (W : K) ≠ 0 := by
    have : (0 : K) < (W : K) := by exact_mod_cast hW
    exact ne_of_gt this
  have hH0 : (H : K) ≠ 0 := by
    have : (0 : K) < (H : K) := by exact_mod_cast hH
    exact ne_of_gt this
  have h2 : ∀ x : K, (fin x / fin 2 : Dbl K) = fin (x / 2) :=
    fun x => fin_div_fin_of_ne x (by norm_num)
  unfold view_vector
  rw [fin_div_fin_of_ne _ hW0, fin_div_fin_of_ne _ hH0]
  simp only [h2, fin_sub_fin, fin_mul_fin, fin_add_fin, vfin]
  congr 1 <;> congr 1 <;> ring

end ViewVector

section PixelCentre

variable {K : Type} [LinearOrderedField K] [FloorRing K]

end PixelCentre

section ClosestIrrelevant

variable {K : Type} [LinearOrderedField K]

/-- The object intersection loop started with two values of `closest_object`: the results
agree, or `best_distance` is unchanged in both. -/
theorem primary_scan_closest_irrelevant (sqrt : K → K) (ro rd : Vec3 (Dbl K))
    (l : List (Object K)) :
    ∀ (index : Nat) (best : Dbl K) (c1 c2 : Int),
      (primary_scan sqrt ro rd index l best c1).2 = (primary_scan sqrt ro rd index l best c2).2
      ∨ ((primary_scan sqrt ro rd index l best c1).2.1 = best
        ∧ (primary_scan sqrt ro rd index l best c2).2.1 = best) := by
  induction l with
  | nil =>
    intro index best c1 c2
    exact Or.inr ⟨rfl, rfl⟩
  | cons o rest ih =>
    intro index best c1 c2
    rw [primary_scan_cons sqrt ro rd index o rest best c1,
      primary_scan_cons sqrt ro rd index o rest best c2]
    by_cases hc : (Dbl.gt (hit_distance sqrt ro rd o) (fin 0)
        && Dbl.lt (hit_distance sqrt ro rd o) best) = true
    · left
      simp only [if_pos hc]
    · simp only [if_neg hc]
      exact ih (index + 1) best c1 c2

end ClosestIrrelevant

section PixelIrrelevant

variable {K : Type} [LinearOrderedField K] [FloorRing K]

/-- The objects and the image after the pass for a pixel do not depend on the value of
`closest_object` before the pass. -/
theorem render_pixel_closest_irrelevant (m : Libm K) (w h pw ph : Dbl K) (row column : Nat)
    (objects : List (Object K)) (image : Image) (c1 c2 : Int) :
    (render_pixel m w h pw ph row column (objects, image, c1)).1
        = (render_pixel m w h pw ph row column (objects, image, c2)).1
    ∧ (render_pixel m w h pw ph row column (objects, image, c1)).2.1
        = (render_pixel m w h pw ph row column (objects, image, c2)).2.1 := by
  have hfst := fun c : Int => primary_scan_fst m.sqrt ⟨fin 0, fin 0, fin 0⟩
    (normalize m.sqrt (view_vector w h pw ph row column)) objects 0 pinf c
  rcases primary_scan_closest_irrelevant m.sqrt ⟨fin 0, fin 0, fin 0⟩
    (normalize m.sqrt (view_vector w h pw ph row column)) objects 0 pinf c1 c2 with
    hsnd | ⟨h1, h2⟩
  · have hs : primary_scan m.sqrt ⟨fin 0, fin 0, fin 0⟩
        (normalize m.sqrt (view_vector w h pw ph row column)) 0 objects pinf c1
        = primary_scan m.sqrt ⟨fin 0, fin 0, fin 0⟩
          (normalize m.sqrt (view_vector w h pw ph row column)) 0 objects pinf c2 :=
      Prod.ext ((hfst c1).trans (hfst c2).symm) hsnd
    unfold render_pixel
    simp only [hs]
    exact ⟨trivial, trivial⟩
  · constructor
    · unfold render_pixel
      simp only [h1, h2, hfst]
      simp [Dbl.ne, Dbl.eq]
    · rw [render_pixel_miss m w h pw ph row column (objects, image, c1) h1,
        render_pixel_miss m w h pw ph row column (objects, image, c2) h2]

end PixelIrrelevant

/-! ## The render loop on a scene and on the scene with normalised planes -/

/-- The normalisation of the planes keeps the finiteness of the normals of a tail. -/
theorem FiniteNormals.tail {K : Type} {o : Object K} {rest : List (Object K)}
    (h : FiniteNormals (o :: rest)) : FiniteNormals rest :=
  fun x hx => h x (List.mem_cons_of_mem o hx)

/-- The object intersection loop gives the same distance and index on a list and on the
list with every plane normalised. -/
theorem primary_scan_snd_settle (ro rd : Vec3 (Dbl ℝ)) (l : List (Object ℝ)) :
    FiniteNormals l → ∀ (index : Nat) (best : Dbl ℝ) (c : Int),
      (primary_scan Real.sqrt ro rd index (l.map (Object.settle Real.sqrt)) best c).2
        = (primary_scan Real.sqrt ro rd index l best c).2 := by
  induction l with
  | nil => intro _ index best c; rfl
  | cons o rest ih =>
    intro hf index best c
    rw [List.map_cons, primary_scan_cons, primary_scan_cons,
      hit_distance_settle ro rd o (hf o (List.mem_cons_self o rest))]
    exact ih hf.tail _ _ _

/-- The pass for a pixel is the same on a scene and on the scene with every plane
normalised. -/
theorem render_pixel_settle (m : Libm ℝ) (hm : m.sqrt = Real.sqrt)
    (objects : List (Object ℝ)) (hfin : FiniteNormals objects) (w h pw ph : Dbl ℝ)
    (row column : Nat) (image : Image) (c : Int) :
    render_pixel m w h pw ph row column (objects.map (Object.settle Real.sqrt), image, c)
      = render_pixel m w h pw ph row column (objects, image, c) := by
  have hs : primary_scan m.sqrt ⟨fin 0, fin 0, fin 0⟩
      (normalize m.sqrt (view_vector w h pw ph row column)) 0
        (objects.map (Object.settle Real.sqrt)) pinf c
      = primary_scan m.sqrt ⟨fin 0, fin 0, fin 0⟩
        (normalize m.sqrt (view_vector w h pw ph row column)) 0 objects pinf c := by
    apply Prod.ext
    · rw [primary_scan_fst, primary_scan_fst, hm, map_settle_map_settle objects hfin]
    · rw [hm]
      exact primary_scan_snd_settle _ _ objects hfin 0 pinf c
  unfold render_pixel
  simp only [hs]

/-- The pass for a pixel, from a state whose objects are the scene or the scene with
every plane normalised: the objects become the scene with every plane normalised, and
the image is the one that the pass gives from the scene itself. -/
theorem render_pixel_canonical (m : Libm ℝ) (hm : m.sqrt = Real.sqrt)
    (objects : List (Object ℝ)) (hfin : FiniteNormals objects) (w h pw ph : Dbl ℝ)
    (row column : Nat) (st : List (Object ℝ) × Image × Int)
    (hst : st.1 = objects ∨ st.1 = objects.map (Object.settle Real.sqrt)) :
    (render_pixel m w h pw ph row column st).1 = objects.map (Object.settle Real.sqrt)
    ∧ (render_pixel m w h pw ph row column st).2.1
      = (render_pixel m w h pw ph row column (objects, st.2.1, 0)).2.1 := by
  have hset : Settled m.sqrt (objects.map (Object.settle m.sqrt)) := by
    rw [hm]
    exact settled_map_settle objects hfin
  have hbase : ∀ (image : Image) (c : Int),
      (render_pixel m w h pw ph row column (objects, image, c)).1
        = objects.map (Object.settle Real.sqrt)
      ∧ (render_pixel m w h pw ph row column (objects, image, c)).2.1
        = (render_pixel m w h pw ph row column (objects, image, 0)).2.1 := by
    intro image c
    refine ⟨?_, (render_pixel_closest_irrelevant m w h pw ph row column objects image c 0).2⟩
    rw [render_pixel_fst m w h pw ph row column (objects, image, c) hset, hm]
  obtain ⟨o1, image, c⟩ := st
  rcases hst with h1 | h1
  · have h2 : o1 = objects := h1
    rw [h2]
    exact hbase image c
  · have h2 : o1 = objects.map (Object.settle Real.sqrt) := h1
    rw [h2, render_pixel_settle m hm objects hfin]
    exact hbase image c

/-! ## Folds -/

/-- A fold over a list that contains `x0`: a property `Q` that the step for `x0`
establishes from `P`, and that every step keeps, holds at the end when `P` holds at the
start and every step keeps `P`. -/
theorem foldl_reach {σ α : Type} (P Q : σ → Prop) (f : σ → α → σ) (x0 : α) (l : List α) :
    x0 ∈ l → ∀ s : σ, P s → (∀ (s : σ) (x : α), x ∈ l → P s → P (f s x)) →
      (∀ s : σ, P s → Q (f s x0)) → (∀ (s : σ) (x : α), x ∈ l → Q s → Q (f s x)) →
      Q (l.foldl f s) := by
  induction l with
  | nil => intro hx; exact absurd hx (List.not_mem_nil x0)
  | cons a rest ih =>
    intro hx s hs hP hPQ hQ
    rw [List.foldl_cons]
    by_cases hmem : x0 ∈ rest
    · exact ih hmem (f s a) (hP s a (List.mem_cons_self a rest) hs)
        (fun s1 x hx1 h1 => hP s1 x (List.mem_cons_of_mem a hx1) h1) hPQ
        (fun s1 x hx1 h1 => hQ s1 x (List.mem_cons_of_mem a hx1) h1)
    · have ha : x0 = a := by
        rcases List.mem_cons.mp hx with h | h
        · exact h
        · exact absurd h hmem
      apply foldl_invariant Q f rest (f s a)
      · rw [← ha]
        exact hPQ s hs
      · intro s1 x hx1 h1
        exact hQ s1 x (List.mem_cons_of_mem a hx1) h1

/-! ## The scene after the render -/

/-- The objects after the pixel loops, started from the scene or from the scene with every
plane normalised: the scene with every plane normalised when the image has a pixel, the
objects of the start otherwise. -/
theorem pixel_loops_fst (m : Libm ℝ) (hm : m.sqrt = Real.sqrt)
    (objects : List (Object ℝ)) (hfin : FiniteNormals objects) (w h : Dbl ℝ)
    (image : Image) (c : Int) (objects1 : List (Object ℝ))
    (h1 : objects1 = objects ∨ objects1 = objects.map (Object.settle Real.sqrt)) :
    (pixel_loops m w h objects1 image c).1 =
      if 0 < image.width ∧ 0 < image.height then objects.map (Object.settle Real.sqrt)
      else objects1 := by
  have hpix : ∀ (row column : Nat) (st : List (Object ℝ) × Image × Int),
      (st.1 = objects ∨ st.1 = objects.map (Object.settle Real.sqrt)) →
      (render_pixel m w h (w / fin (image.width : ℝ)) (h / fin (image.height : ℝ))
        row column st).1 = objects.map (Object.settle Real.sqrt) :=
    fun row column st hst =>
      (render_pixel_canonical m hm objects hfin w h _ _ row column st hst).1
  by_cases hH : 0 < image.height
  · by_cases hW : 0 < image.width
    · rw [if_pos ⟨hW, hH⟩]
      have hW0 : 0 ∈ List.range image.width.toNat := List.mem_range.mpr (by omega)
      have hH0 : 0 ∈ List.range image.height.toNat := List.mem_range.mpr (by omega)
      have hrow : ∀ (row : Nat) (st : List (Object ℝ) × Image × Int),
          (st.1 = objects ∨ st.1 = objects.map (Object.settle Real.sqrt)) →
          ((List.range image.width.toNat).foldl
            (fun st column => render_pixel m w h (w / fin (image.width : ℝ))
              (h / fin (image.height : ℝ)) row column st) st).1
            = objects.map (Object.settle Real.sqrt) := by
        intro row st hst
        exact foldl_reach
          (fun st : List (Object ℝ) × Image × Int =>
            st.1 = objects ∨ st.1 = objects.map (Object.settle Real.sqrt))
          (fun st : List (Object ℝ) × Image × Int =>
            st.1 = objects.map (Object.settle Real.sqrt))
          (fun st column => render_pixel m w h (w / fin (image.width : ℝ))
            (h / fin (image.height : ℝ)) row column st)
          0 (List.range image.width.toNat) hW0 st hst
          (fun s x _ hs => Or.inr (hpix row x s hs))
          (fun s hs => hpix row 0 s hs)
          (fun s x _ hs => hpix row x s (Or.inr hs))
      unfold pixel_loops
      exact foldl_reach
        (fun st : List (Object ℝ) × Image × Int =>
          st.1 = objects ∨ st.1 = objects.map (Object.settle Real.sqrt))
        (fun st : List (Object ℝ) × Image × Int =>
          st.1 = objects.map (Object.settle Real.sqrt))
        (fun st row => (List.range image.width.toNat).foldl
          (fun st column => render_pixel m w h (w / fin (image.width : ℝ))
            (h / fin (image.height : ℝ)) row column st) st)
        0 (List.range image.height.toNat) hH0 (objects1, image, c) h1
        (fun s x _ hs => Or.inr (hrow x s hs))
        (fun s hs => hrow 0 s hs)
        (fun s x _ hs => hrow x s (Or.inr hs))
    · rw [if_neg (fun hc => hW hc.1)]
      have hW0 : image.width.toNat = 0 := by omega
      unfold pixel_loops
      rw [hW0]
      simp
  · rw [if_neg (fun hc => hH hc.2)]
    have hH0 : image.height.toNat = 0 := by omega
    unfold pixel_loops
    rw [hH0]
    rfl

section SettleFacts

variable {K : Type} [LinearOrderedField K]

/-- The normalisation of the plane of an object changes nothing but the normal of a
plane. -/
theorem Object.settle_fields (sqrt : K → K) (o : Object K) :
    (o.settle sqrt).type = o.type ∧ (o.settle sqrt).camera = o.camera
    ∧ (o.settle sqrt).sphere = o.sphere ∧ (o.settle sqrt).light = o.light
    ∧ (o.settle sqrt).plane.color = o.plane.color
    ∧ (o.settle sqrt).plane.position = o.plane.position
    ∧ (o.settle sqrt).plane.diffuse_color = o.plane.diffuse_color
    ∧ (o.settle sqrt).plane.specular_color = o.plane.specular_color
    ∧ (o.settle sqrt).plane.normal
      = if o.type = some "plane" then normalize sqrt o.plane.normal else o.plane.normal := by
  unfold Object.settle
  by_cases hp : o.type = some "plane"
  · simp only [hp, if_true]
    exact ⟨trivial, trivial, trivial, trivial, trivial, trivial, trivial, trivial, trivial⟩
  · simp only [hp, if_false]
    exact ⟨trivial, trivial, trivial, trivial, trivial, trivial, trivial, trivial, trivial⟩

/-- A list whose planes are fixed points of `normalize` is left as it is by the
normalisation of the planes. -/
theorem map_settle_of_settled (sqrt : K → K) (l : List (Object K)) (h : Settled sqrt l) :
    l.map (Object.settle sqrt) = l := by
  have hall : ∀ o ∈ l, o.settle sqrt = o :=
    fun o ho => Object.settle_of_fixed sqrt o (h o ho)
  calc l.map (Object.settle sqrt) = l.map id := List.map_congr_left hall
    _ = l := List.map_id _

end SettleFacts

/-- The result of `raycaster` on a scene with a camera and finite plane normals: the
scene with every plane normalised when the image has a pixel, the scene itself
otherwise, together with the image after the pixel loops. -/
theorem raycaster_scene (m : Libm ℝ) (hm : m.sqrt = Real.sqrt)
    (objects : List (Object ℝ)) (hfin : FiniteNormals objects) (image : Image)
    (closest_object : Int) (hcam : ∃ o ∈ objects, o.type = some "camera") :
    ∃ (cam : Object ℝ), cam ∈ objects ∧ cam.type = some "camera"
      ∧ raycaster m objects image closest_object =
        some (if 0 < image.width ∧ 0 < image.height
            then objects.map (Object.settle Real.sqrt) else objects,
          (pixel_loops m cam.camera.width cam.camera.height objects image
            closest_object).2.1) := by
  rcases get_camera_spec objects with ⟨-, h2⟩ | ⟨i, cam, h1, h2, h3, -⟩
  · obtain ⟨o, ho, hty⟩ := hcam
    exact absurd hty (h2 o ho)
  · refine ⟨cam, List.getElem?_mem h2, h3, ?_⟩
    rw [raycaster_of_camera m objects image closest_object i cam h1 h2,
      pixel_loops_fst m hm objects hfin _ _ image closest_object objects (Or.inl rfl)]

/-! ## A plane whose normal is not a unit vector -/

/-- The square root of `4`. -/
theorem sqrt_four : Real.sqrt 4 = 2 := by
  rw [show (4 : ℝ) = 2 ^ 2 by norm_num]
  exact Real.sqrt_sq (by norm_num)

/-- The normal `(0,0,-2)` is normalised to `(0,0,-1)`. -/
theorem normalize_long_normal :
    normalize Real.sqrt (vfin (⟨0, 0, -2⟩ : Vec3 ℝ)) = vfin ⟨0, 0, -1⟩ := by
  have hlen : Real.sqrt (⟨0, 0, -2⟩ : Vec3 ℝ).normSq = 2 := by
    have h1 : (⟨0, 0, -2⟩ : Vec3 ℝ).normSq = 4 := by norm_num [Vec3.normSq]
    rw [h1, sqrt_four]
  rw [normalize_fin _ (Or.inr (Or.inr (by norm_num))), hlen]
  norm_num [Vec3.sdiv]

/-- The plane normals of the scene with the long normal are finite. -/
theorem long_normal_scene_finite : FiniteNormals (long_normal_scene (K := ℝ)) := by
  intro o ho _
  simp only [long_normal_scene, List.mem_cons, List.mem_singleton, List.not_mem_nil,
    or_false] at ho
  rcases ho with rfl | rfl
  · exact ⟨⟨0, 0, 0⟩, rfl⟩
  · exact ⟨⟨0, 0, -2⟩, rfl⟩

/-- The normals of the scene with the long normal after the normalisation of its
planes. -/
theorem long_normal_scene_settle :
    ((long_normal_scene (K := ℝ)).map (Object.settle Real.sqrt)).map
      (fun o => o.plane.normal) = [vfin ⟨0, 0, 0⟩, vfin ⟨0, 0, -1⟩] := by
  have h1 : ((unit_camera (K := ℝ)).settle Real.sqrt).plane.normal = vfin ⟨0, 0, 0⟩ := by
    rw [(Object.settle_fields Real.sqrt unit_camera).2.2.2.2.2.2.2.2]
    rfl
  have h2 : ((long_normal_plane (K := ℝ)).settle Real.sqrt).plane.normal
      = vfin ⟨0, 0, -1⟩ := by
    rw [(Object.settle_fields Real.sqrt long_normal_plane).2.2.2.2.2.2.2.2]
    have hty : (long_normal_plane (K := ℝ)).type = some "plane" := rfl
    have hn : (long_normal_plane (K := ℝ)).plane.normal = vfin ⟨0, 0, -2⟩ := rfl
    rw [if_pos hty, hn, normalize_long_normal]
  simp only [long_normal_scene, List.map_cons, List.map_nil, h1, h2]

/-- Counterexample to C25 as stated: the scene with a camera and a plane of normal
`(0,0,-2)`, rendered into the one-pixel image.  `raycaster` returns, and the scene after
the call differs from the scene before it: the normal of the plane is `(0,0,-1)`. -/
theorem raycaster_changes_plane_normal :
    ∃ (objects1 : List (Object ℝ)) (image1 : Image),
      raycaster ⟨Real.sqrt, Real.cos, Real.rpow, Real.pi⟩ (long_normal_scene (K := ℝ))
          one_pixel_image 0 = some (objects1, image1)
      ∧ objects1 ≠ long_normal_scene
      ∧ (long_normal_scene (K := ℝ)).map (fun o => o.plane.normal)
        = [vfin ⟨0, 0, 0⟩, vfin ⟨0, 0, -2⟩]
      ∧ objects1.map (fun o => o.plane.normal) = [vfin ⟨0, 0, 0⟩, vfin ⟨0, 0, -1⟩] := by
  have hcam : ∃ o ∈ (long_normal_scene (K := ℝ)), o.type = some "camera" :=
    ⟨unit_camera, List.mem_cons_self _ _, rfl⟩
  obtain ⟨cam, -, -, hres⟩ := raycaster_scene ⟨Real.sqrt, Real.cos, Real.rpow, Real.pi⟩ rfl
    long_normal_scene long_normal_scene_finite one_pixel_image 0 hcam
  have hpix : (0 : Int) < one_pixel_image.width ∧ (0 : Int) < one_pixel_image.height := by
    decide
  rw [if_pos hpix] at hres
  have hbefore : (long_normal_scene (K := ℝ)).map (fun o => o.plane.normal)
      = [vfin ⟨0, 0, 0⟩, vfin ⟨0, 0, -2⟩] := rfl
  refine ⟨_, _, hres, ?_, hbefore, long_normal_scene_settle⟩
  intro heq
  have h1 := long_normal_scene_settle
  rw [heq, hbefore] at h1
  simp only [List.cons.injEq, vfin, Vec3.mk.injEq, Dbl.fin.injEq, and_true, true_and] at h1
  norm_num at h1

/-! ## The buffer entry of one pixel after the render -/

/-- The pixel loops as a fold over rows of folds over columns: a property `Q` that the
pass for the pixel `(r0, c0)` establishes from `P`, and that every pass keeps, holds at
the end when `P` holds at the start and every pass keeps `P`. -/
theorem nested_foldl_reach {σ : Type} (P Q : σ → Prop) (f : Nat → Nat → σ → σ)
    (H W r0 c0 : Nat) (hr : r0 < H) (hc : c0 < W)
    (hP : ∀ (r c : Nat) (s : σ), c < W → P s → P (f r c s))
    (hQ : ∀ (r c : Nat) (s : σ), c < W → Q s → Q (f r c s))
    (hPQ : ∀ s : σ, P s → Q (f r0 c0 s)) (s0 : σ) (h0 : P s0) :
    Q ((List.range H).foldl (fun st r => (List.range W).foldl (fun st c => f r c st) st)
      s0) := by
  have hrowP : ∀ (r : Nat) (s : σ), P s →
      P ((List.range W).foldl (fun st c => f r c st) s) := by
    intro r s hs
    exact foldl_invariant P (fun st c => f r c st) (List.range W) s hs
      (fun s1 c hc1 h1 => hP r c s1 (List.mem_range.mp hc1) h1)
  have hrowQ : ∀ (r : Nat) (s : σ), Q s →
      Q ((List.range W).foldl (fun st c => f r c st) s) := by
    intro r s hs
    exact foldl_invariant Q (fun st c => f r c st) (List.range W) s hs
      (fun s1 c hc1 h1 => hQ r c s1 (List.mem_range.mp hc1) h1)
  have hrowPQ : ∀ s : σ, P s → Q ((List.range W).foldl (fun st c => f r0 c st) s) := by
    intro s hs
    exact foldl_reach P Q (fun st c => f r0 c st) c0 (List.range W) (List.mem_range.mpr hc)
      s hs (fun s1 c hc1 h1 => hP r0 c s1 (List.mem_range.mp hc1) h1) hPQ
      (fun s1 c hc1 h1 => hQ r0 c s1 (List.mem_range.mp hc1) h1)
  exact foldl_reach P Q
    (fun st r => (List.range W).foldl (fun st c => f r c st) st) r0 (List.range H)
    (List.mem_range.mpr hr) s0 h0 (fun s r _ hs => hrowP r s hs) hrowPQ
    (fun s r _ hs => hrowQ r s hs)

section Uniform

variable {K : Type} [LinearOrderedField K] [FloorRing K]

/-- Storing a pixel keeps `max_color`. -/
theorem store_pixel_max_color (image : Image) (row column : Nat) (c : Vec3 (Dbl K)) :
    (store_pixel image row column c).max_color = image.max_color := rfl

/-- The buffer entry that `store_pixel` writes. -/
theorem store_pixel_getElem_self (image : Image) (row column : Nat) (c : Vec3 (Dbl K)) :
    (store_pixel image row column c).image_data[
        (image.width * (row : Int) + (column : Int)).toNat]?
      = (image.image_data[(image.width * (row : Int) + (column : Int)).toNat]?).map
        (fun _ => (⟨Dbl.toUChar (clamp c.c0 (fin 0) (fin 1) * fin (image.max_color : K)),
          Dbl.toUChar (clamp c.c1 (fin 0) (fin 1) * fin (image.max_color : K)),
          Dbl.toUChar (clamp c.c2 (fin 0) (fin 1) * fin (image.max_color : K))⟩ : Pixel)) := by
  unfold store_pixel
  simp only
  rw [List.getElem?_set_self']
  rfl

/-- The buffer entry that `store_pixel` writes depends on the image through its width,
its `max_color` and the entry only; writing it twice is writing it once. -/
theorem store_pixel_getElem_congr (image image1 : Image) (row column : Nat)
    (c : Vec3 (Dbl K)) (hw : image1.width = image.width)
    (hm : image1.max_color = image.max_color)
    (hd : image1.image_data[(image.width * (row : Int) + (column : Int)).toNat]?
        = image.image_data[(image.width * (row : Int) + (column : Int)).toNat]?
      ∨ image1.image_data[(image.width * (row : Int) + (column : Int)).toNat]?
        = (store_pixel image row column c).image_data[
          (image.width * (row : Int) + (column : Int)).toNat]?) :
    (store_pixel image1 row column c).image_data[
        (image.width * (row : Int) + (column : Int)).toNat]?
      = (store_pixel image row column c).image_data[
        (image.width * (row : Int) + (column : Int)).toNat]? := by
  have h1 := store_pixel_getElem_self image1 row column c
  rw [hw, hm] at h1
  rw [h1]
  rcases hd with hd | hd
  · rw [hd, store_pixel_getElem_self]
  · rw [hd, store_pixel_getElem_self]
    cases image.image_data[(image.width * (row : Int) + (column : Int)).toNat]? <;> rfl

/-- The pass for a pixel either leaves every image as it is or stores one and the same
colour in every image, whatever the value of `closest_object` before the pass. -/
theorem render_pixel_uniform (m : Libm K) (w h pw ph : Dbl K) (row column : Nat)
    (objects : List (Object K)) :
    ∃ oc : Option (Vec3 (Dbl K)), ∀ (image : Image) (cl : Int),
      (render_pixel m w h pw ph row column (objects, image, cl)).2.1
        = oc.elim image (fun col => store_pixel image row column col) := by
  refine ⟨if (Dbl.gt (primary_scan m.sqrt ⟨fin 0, fin 0, fin 0⟩
        (normalize m.sqrt (view_vector w h pw ph row column)) 0 objects pinf 0).2.1 (fin 0)
      && Dbl.ne (primary_scan m.sqrt ⟨fin 0, fin 0, fin 0⟩
        (normalize m.sqrt (view_vector w h pw ph row column)) 0 objects pinf 0).2.1 pinf)
        = true
    then ((light_loop m (normalize m.sqrt (view_vector w h pw ph row column))
        (vector_add ⟨fin 0, fin 0, fin 0⟩
          (vector_scale (normalize m.sqrt (view_vector w h pw ph row column))
            (primary_scan m.sqrt ⟨fin 0, fin 0, fin 0⟩
              (normalize m.sqrt (view_vector w h pw ph row column)) 0 objects pinf 0).2.1))
        (primary_scan m.sqrt ⟨fin 0, fin 0, fin 0⟩
          (normalize m.sqrt (view_vector w h pw ph row column)) 0 objects pinf 0).2.2
        (primary_scan m.sqrt ⟨fin 0, fin 0, fin 0⟩
          (normalize m.sqrt (view_vector w h pw ph row column)) 0 objects pinf 0).1
        ⟨fin 0, fin 0, fin 0⟩).1[(primary_scan m.sqrt ⟨fin 0, fin 0, fin 0⟩
          (normalize m.sqrt (view_vector w h pw ph row column)) 0 objects pinf
            0).2.2.toNat]?).bind
      (fun o => if o.type = some "sphere" ∨ o.type = some "plane" then
        some (light_loop m (normalize m.sqrt (view_vector w h pw ph row column))
          (vector_add ⟨fin 0, fin 0, fin 0⟩
            (vector_scale (normalize m.sqrt (view_vector w h pw ph row column))
              (primary_scan m.sqrt ⟨fin 0, fin 0, fin 0⟩
                (normalize m.sqrt (view_vector w h pw ph row column)) 0 objects pinf 0).2.1))
          (primary_scan m.sqrt ⟨fin 0, fin 0, fin 0⟩
            (normalize m.sqrt (view_vector w h pw ph row column)) 0 objects pinf 0).2.2
          (primary_scan m.sqrt ⟨fin 0, fin 0, fin 0⟩
            (normalize m.sqrt (view_vector w h pw ph row column)) 0 objects pinf 0).1
          ⟨fin 0, fin 0, fin 0⟩).2
        else none)
    else none, ?_⟩
  intro image cl
  rw [(render_pixel_closest_irrelevant m w h pw ph row column objects image cl 0).2]
  unfold render_pixel
  simp only
  split_ifs with hc
  · cases hk : (light_loop m (normalize m.sqrt (view_vector w h pw ph row column))
        (vector_add ⟨fin 0, fin 0, fin 0⟩
          (vector_scale (normalize m.sqrt (view_vector w h pw ph row column))
            (primary_scan m.sqrt ⟨fin 0, fin 0, fin 0⟩
              (normalize m.sqrt (view_vector w h pw ph row column)) 0 objects pinf 0).2.1))
        (primary_scan m.sqrt ⟨fin 0, fin 0, fin 0⟩
          (normalize m.sqrt (view_vector w h pw ph row column)) 0 objects pinf 0).2.2
        (primary_scan m.sqrt ⟨fin 0, fin 0, fin 0⟩
          (normalize m.sqrt (view_vector w h pw ph row column)) 0 objects pinf 0).1
        ⟨fin 0, fin 0, fin 0⟩).1[(primary_scan m.sqrt ⟨fin 0, fin 0, fin 0⟩
          (normalize m.sqrt (view_vector w h pw ph row column)) 0 objects pinf
            0).2.2.toNat]? with
    | none => rfl
    | some o =>
      simp only [Option.some_bind]
      by_cases hs : o.type = some "sphere"
      · simp [hs]
      · by_cases hp : o.type = some "plane"
        · simp [hs, hp]
        · simp [hs, hp]
  · rfl

end Uniform

/-- The buffer entry of a pixel after the pixel loops is the entry that the pass for that
pixel alone writes, from the scene and the initial image. -/
theorem pixel_loops_entry (m : Libm ℝ) (hm : m.sqrt = Real.sqrt)
    (objects : List (Object ℝ)) (hfin : FiniteNormals objects) (w h : Dbl ℝ)
    (image : Image) (cl : Int) (row column : Nat) (hrow : (row : Int) < image.height)
    (hcol : (column : Int) < image.width) :
    (pixel_loops m w h objects image cl).2.1.image_data[
        (image.width * (row : Int) + (column : Int)).toNat]?
      = (render_pixel m w h (w / fin (image.width : ℝ)) (h / fin (image.height : ℝ))
          row column (objects, image, 0)).2.1.image_data[
        (image.width * (row : Int) + (column : Int)).toNat]? := by
  obtain ⟨oc, hoc⟩ := render_pixel_uniform m w h (w / fin (image.width : ℝ))
    (h / fin (image.height : ℝ)) row column objects
  have hbase : ∀ (r c : Nat) (st : List (Object ℝ) × Image × Int),
      ((st.1 = objects ∨ st.1 = objects.map (Object.settle Real.sqrt))
        ∧ st.2.1.width = image.width ∧ st.2.1.max_color = image.max_color) →
      (((render_pixel m w h (w / fin (image.width : ℝ)) (h / fin (image.height : ℝ))
            r c st).1 = objects
          ∨ (render_pixel m w h (w / fin (image.width : ℝ)) (h / fin (image.height : ℝ))
            r c st).1 = objects.map (Object.settle Real.sqrt))
        ∧ (render_pixel m w h (w / fin (image.width : ℝ)) (h / fin (image.height : ℝ))
            r c st).2.1.width = image.width
        ∧ (render_pixel m w h (w / fin (image.width : ℝ)) (h / fin (image.height : ℝ))
            r c st).2.1.max_color = image.max_color) := by
    intro r c st hst
    obtain ⟨hobj, hwid, hmax⟩ := hst
    refine ⟨Or.inr (render_pixel_canonical m hm objects hfin w h _ _ r c st hobj).1, ?_, ?_⟩
    · rcases render_pixel_image m w h (w / fin (image.width : ℝ))
        (h / fin (image.height : ℝ)) r c st with h1 | ⟨col, h1⟩
      · rw [h1, hwid]
      · rw [h1, store_pixel_width, hwid]
    · rcases render_pixel_image m w h (w / fin (image.width : ℝ))
        (h / fin (image.height : ℝ)) r c st with h1 | ⟨col, h1⟩
      · rw [h1, hmax]
      · rw [h1, store_pixel_max_color, hmax]
  have hself : ∀ st : List (Object ℝ) × Image × Int,
      ((st.1 = objects ∨ st.1 = objects.map (Object.settle Real.sqrt))
        ∧ st.2.1.width = image.width ∧ st.2.1.max_color = image.max_color) →
      (st.2.1.image_data[(image.width * (row : Int) + (column : Int)).toNat]?
          = image.image_data[(image.width * (row : Int) + (column : Int)).toNat]?
        ∨ st.2.1.image_data[(image.width * (row : Int) + (column : Int)).toNat]?
          = (render_pixel m w h (w / fin (image.width : ℝ)) (h / fin (image.height : ℝ))
              row column (objects, image, 0)).2.1.image_data[
            (image.width * (row : Int) + (column : Int)).toNat]?) →
      (render_pixel m w h (w / fin (image.width : ℝ)) (h / fin (image.height : ℝ))
          row column st).2.1.image_data[
        (image.width * (row : Int) + (column : Int)).toNat]?
      = (render_pixel m w h (w / fin (image.width : ℝ)) (h / fin (image.height : ℝ))
          row column (objects, image, 0)).2.1.image_data[
        (image.width * (row : Int) + (column : Int)).toNat]? := by
    intro st hst hd
    obtain ⟨hobj, hwid, hmax⟩ := hst
    rw [(render_pixel_canonical m hm objects hfin w h _ _ row column st hobj).2,
      hoc st.2.1 0]
    rw [hoc image 0] at hd ⊢
    cases oc with
    | none =>
      simp only [Option.elim] at hd ⊢
      rcases hd with hd | hd <;> exact hd
    | some col =>
      simp only [Option.elim] at hd ⊢
      exact store_pixel_getElem_congr image st.2.1 row column col hwid hmax hd
  have hother : ∀ (r c : Nat) (st : List (Object ℝ) × Image × Int), (c : Int) < image.width →
      ¬ (r = row ∧ c = column) → st.2.1.width = image.width →
      (render_pixel m w h (w / fin (image.width : ℝ)) (h / fin (image.height : ℝ))
          r c st).2.1.image_data[(image.width * (row : Int) + (column : Int)).toNat]?
        = st.2.1.image_data[(image.width * (row : Int) + (column : Int)).toNat]? := by
    intro r c st hc hne hwid
    rcases render_pixel_image m w h (w / fin (image.width : ℝ))
      (h / fin (image.height : ℝ)) r c st with h1 | ⟨col, h1⟩
    · rw [h1]
    · rw [h1, store_pixel_getElem_ne]
      rw [hwid]
      intro hidx
      exact hne (pixel_index_inj image.width r c row column hc hcol hidx)
  have hfinal := nested_foldl_reach
    (fun st : List (Object ℝ) × Image × Int =>
      ((st.1 = objects ∨ st.1 = objects.map (Object.settle Real.sqrt))
        ∧ st.2.1.width = image.width ∧ st.2.1.max_color = image.max_color)
      ∧ (st.2.1.image_data[(image.width * (row : Int) + (column : Int)).toNat]?
          = image.image_data[(image.width * (row : Int) + (column : Int)).toNat]?
        ∨ st.2.1.image_data[(image.width * (row : Int) + (column : Int)).toNat]?
          = (render_pixel m w h (w / fin (image.width : ℝ)) (h / fin (image.height : ℝ))
              row column (objects, image, 0)).2.1.image_data[
            (image.width * (row : Int) + (column : Int)).toNat]?))
    (fun st : List (Object ℝ) × Image × Int =>
      ((st.1 = objects ∨ st.1 = objects.map (Object.settle Real.sqrt))
        ∧ st.2.1.width = image.width ∧ st.2.1.max_color = image.max_color)
      ∧ st.2.1.image_data[(image.width * (row : Int) + (column : Int)).toNat]?
          = (render_pixel m w h (w / fin (image.width : ℝ)) (h / fin (image.height : ℝ))
              row column (objects, image, 0)).2.1.image_data[
            (image.width * (row : Int) + (column : Int)).toNat]?)
    (fun r c st => render_pixel m w h (w / fin (image.width : ℝ))
      (h / fin (image.height : ℝ)) r c st)
    image.height.toNat image.width.toNat row column (by omega) (by omega)
    (by
      intro r c st hc hst
      have hc1 : (c : Int) < image.width := by omega
      refine ⟨hbase r c st hst.1, ?_⟩
      by_cases hpix : r = row ∧ c = column
      · obtain ⟨hr, hcc⟩ := hpix
        subst hr
        subst hcc
        exact Or.inr (hself st hst.1 hst.2)
      · rw [hother r c st hc1 hpix hst.1.2.1]
        exact hst.2)
    (by
      intro r c st hc hst
      have hc1 : (c : Int) < image.width := by omega
      refine ⟨hbase r c st hst.1, ?_⟩
      by_cases hpix : r = row ∧ c = column
      · obtain ⟨hr, hcc⟩ := hpix
        subst hr
        subst hcc
        exact hself st hst.1 (Or.inr hst.2)
      · rw [hother r c st hc1 hpix hst.1.2.1]
        exact hst.2)
    (fun st hst => ⟨hbase row column st hst.1, hself st hst.1 hst.2⟩)
    (objects, image, cl) ⟨⟨Or.inl rfl, rfl, rfl⟩, Or.inl rfl⟩
  exact hfinal.2

/-! ## Scenario A -/

/-- The unit ray of a view vector whose third component is `1`. -/
theorem unit_ray_of_view (v : Vec3 ℝ) (hv : v.c2 = 1) :
    normalize Real.sqrt (vfin v) = vfin (v.sdiv (Real.sqrt v.normSq))
    ∧ (v.sdiv (Real.sqrt v.normSq)).normSq = 1
    ∧ 0 < (v.sdiv (Real.sqrt v.normSq)).c2
    ∧ (v.sdiv (Real.sqrt v.normSq)).c2 ^ 2 = 1 / v.normSq := by
  have hnz : v.Nonzero := Or.inr (Or.inr (by rw [hv]; exact one_ne_zero))
  have hpos : 0 < v.normSq := Vec3.normSq_pos hnz
  have hs : 0 < Real.sqrt v.normSq := Real.sqrt_pos.mpr hpos
  refine ⟨normalize_fin v hnz, Vec3.normSq_sdiv_sqrt hnz, ?_, ?_⟩
  · simp only [Vec3.sdiv, hv]
    positivity
  · simp only [Vec3.sdiv, hv]
    rw [div_pow, Real.sq_sqrt hpos.le]
    norm_num

/-- The third component of a unit vector is at most `1` in square. -/
theorem Vec3.c2_sq_le_one {u : Vec3 ℝ} (hu : u.normSq = 1) : u.c2 ^ 2 ≤ 1 := by
  unfold Vec3.normSq at hu
  nlinarith [sq_nonneg u.c0, sq_nonneg u.c1]

/-- The distance of the sphere of scenario A along a unit ray from the origin that meets
it: a value `t` with `10*u.z - 1 <= t < 10*u.z`. -/
theorem red_sphere_distance (u : Vec3 ℝ) (hu : u.normSq = 1) (hz : 0 < u.c2)
    (hhit : 99 < 100 * u.c2 ^ 2) :
    ∃ t : ℝ, 10 * u.c2 - 1 ≤ t ∧ t < 10 * u.c2 ∧ 0 < t
      ∧ sphere_intersection Real.sqrt (vfin ⟨0, 0, 0⟩) (vfin u) (vfin ⟨0, 0, 10⟩) (fin 1)
        = fin t := by
  have hle := Vec3.c2_sq_le_one hu
  have hdot : u.dot ((⟨0, 0, 0⟩ : Vec3 ℝ).sub ⟨0, 0, 10⟩) = -10 * u.c2 := by
    simp only [Vec3.dot, Vec3.sub]
    ring
  have hnorm : ((⟨0, 0, 0⟩ : Vec3 ℝ).sub ⟨0, 0, 10⟩).normSq = 100 := by
    norm_num [Vec3.normSq, Vec3.sub]
  have hdisc : (2 * (-10 * u.c2)) ^ 2 - 4 * 1 * (100 - 1 ^ 2) = 400 * u.c2 ^ 2 - 396 := by
    ring
  have hd0 : 0 < 400 * u.c2 ^ 2 - 396 := by linarith
  have hD0 : 0 < Real.sqrt (400 * u.c2 ^ 2 - 396) := Real.sqrt_pos.mpr hd0
  have hD2 : Real.sqrt (400 * u.c2 ^ 2 - 396) ≤ 2 :=
    Real.sqrt_le_iff.mpr ⟨by norm_num, by linarith⟩
  have hD20 : Real.sqrt (400 * u.c2 ^ 2 - 396) < 20 * u.c2 :=
    (Real.sqrt_lt' (by linarith)).mpr (by nlinarith)
  refine ⟨(-(2 * (-10 * u.c2)) - Real.sqrt (400 * u.c2 ^ 2 - 396)) / (2 * 1), ?_, ?_, ?_, ?_⟩
  · linarith
  · linarith
  · linarith
  · rw [sphere_intersection_fin _ _ _ _ (Vec3.nonzero_of_normSq_eq_one hu), hdot, hu, hnorm,
      hdisc]
    have h1 : ¬ (400 * u.c2 ^ 2 - 396 < 0) := not_lt.mpr hd0.le
    have h2 : 0 ≤ (-(2 * (-10 * u.c2)) - Real.sqrt (400 * u.c2 ^ 2 - 396)) / (2 * 1) := by
      linarith
    rw [if_neg h1, if_pos h2]

/-- The sphere of scenario A is missed by a unit ray from the origin that is too far
from the axis. -/
theorem red_sphere_miss (u : Vec3 ℝ) (hu : u.normSq = 1) (hmiss : 100 * u.c2 ^ 2 < 99) :
    sphere_intersection Real.sqrt (vfin ⟨0, 0, 0⟩) (vfin u) (vfin ⟨0, 0, 10⟩) (fin 1)
      = fin (-1) := by
  have hdot : u.dot ((⟨0, 0, 0⟩ : Vec3 ℝ).sub ⟨0, 0, 10⟩) = -10 * u.c2 := by
    simp only [Vec3.dot, Vec3.sub]
    ring
  have hnorm : ((⟨0, 0, 0⟩ : Vec3 ℝ).sub ⟨0, 0, 10⟩).normSq = 100 := by
    norm_num [Vec3.normSq, Vec3.sub]
  have hdisc : (2 * (-10 * u.c2)) ^ 2 - 4 * 1 * (100 - 1 ^ 2) = 400 * u.c2 ^ 2 - 396 := by
    ring
  rw [sphere_intersection_fin _ _ _ _ (Vec3.nonzero_of_normSq_eq_one hu), hdot, hu, hnorm,
    hdisc]
  have h1 : 400 * u.c2 ^ 2 - 396 < 0 := by linarith
  rw [if_pos h1]

/-- The distances of the camera and of the light of the scenarios are the initial `0`. -/
theorem hit_distance_unit_camera (ro rd : Vec3 (Dbl ℝ)) :
    hit_distance Real.sqrt ro rd unit_camera = fin 0 := by
  simp [hit_distance, object_intersection, unit_camera, Object.zero]

/-- The distance of the point light is the initial `0`. -/
theorem hit_distance_point_light (ro rd : Vec3 (Dbl ℝ)) :
    hit_distance Real.sqrt ro rd point_light_object = fin 0 := by
  simp [hit_distance, object_intersection, point_light_object, Object.zero]

/-- The distance of the sphere of the scenarios is the result of `sphere_intersection`. -/
theorem hit_distance_red_sphere (ro rd : Vec3 (Dbl ℝ)) :
    hit_distance Real.sqrt ro rd red_sphere
      = sphere_intersection Real.sqrt ro rd (vfin ⟨0, 0, 10⟩) (fin 1) := by
  have hty : (red_sphere (K := ℝ)).type = some "sphere" := rfl
  have hps : (red_sphere (K := ℝ)).sphere.position = vfin ⟨0, 0, 10⟩ := rfl
  have hra : (red_sphere (K := ℝ)).sphere.radius = fin 1 := rfl
  simp only [hit_distance, object_intersection, hty, hps, hra]
  simp

/-- Scenario A has no plane. -/
theorem scenario_a_settled : Settled Real.sqrt (scenario_a (K := ℝ)) := by
  intro o ho hp
  simp only [scenario_a, List.mem_cons, List.mem_singleton, List.not_mem_nil, or_false]
    at ho
  rcases ho with rfl | rfl | rfl <;>
    simp [unit_camera, red_sphere, point_light_object, Object.zero] at hp

/-- The plane normals of scenario A are finite. -/
theorem scenario_a_finite : FiniteNormals (scenario_a (K := ℝ)) := by
  intro o ho _
  simp only [scenario_a, List.mem_cons, List.mem_singleton, List.not_mem_nil, or_false]
    at ho
  rcases ho with rfl | rfl | rfl <;> exact ⟨⟨0, 0, 0⟩, rfl⟩

/-- In scenario A the object intersection loop selects the sphere, index `1`. -/
theorem scenario_a_primary_scan (u : Vec3 ℝ) (t : ℝ) (ht : 0 < t) (cl : Int)
    (hd : sphere_intersection Real.sqrt (vfin ⟨0, 0, 0⟩) (vfin u) (vfin ⟨0, 0, 10⟩) (fin 1)
      = fin t) :
    primary_scan Real.sqrt (⟨fin 0, fin 0, fin 0⟩ : Vec3 (Dbl ℝ)) (vfin u) 0
      scenario_a pinf cl = (scenario_a, fin t, 1) := by
  have hro : (⟨fin 0, fin 0, fin 0⟩ : Vec3 (Dbl ℝ)) = vfin ⟨0, 0, 0⟩ := rfl
  apply Prod.ext
  · rw [primary_scan_fst, map_settle_of_settled Real.sqrt _ scenario_a_settled]
  · rw [hro]
    show (primary_scan Real.sqrt _ _ 0 [unit_camera, red_sphere, point_light_object] pinf
      cl).2 = _
    rw [primary_scan_cons, primary_scan_cons, primary_scan_cons, hit_distance_unit_camera,
      hit_distance_red_sphere, hit_distance_point_light, hd]
    simp [primary_scan, Dbl.gt, Dbl.lt, ht]

/-- In scenario A nothing lies between a point of the sphere and the light: the other
objects are the camera and the light. -/
theorem scenario_a_unoccluded (P : Vec3 (Dbl ℝ)) (light : Light ℝ) :
    Dbl.eq (shadow_best Real.sqrt P 1 scenario_a light) pinf = true := by
  unfold shadow_best
  rw [shadow_scan_spec]
  refine ⟨rfl, ?_⟩
  intro j o hj hk
  have hgt : Dbl.gt (hit_distance Real.sqrt P
      (normalize Real.sqrt (vector_subtract light.position P)) o) (fin 0) = false := by
    match j, hj with
    | 0, hj =>
      simp only [scenario_a, List.getElem?_cons_zero, Option.some.injEq] at hj
      subst hj
      rw [hit_distance_unit_camera]
      simp [Dbl.gt, Dbl.lt]
    | 1, _ => exact absurd rfl hk
    | 2, hj =>
      simp only [scenario_a, List.getElem?_cons_succ, List.getElem?_cons_zero,
        Option.some.injEq] at hj
      subst hj
      rw [hit_distance_point_light]
      simp [Dbl.gt, Dbl.lt]
    | (n + 3), hj => simp [scenario_a] at hj
  rw [hgt]
  simp

/-- The specular term is zero for a zero specular colour. -/
theorem specular_highlight_zero (N L R V light_color : Vec3 ℝ) :
    specular_highlight (vfin N) (vfin L) (vfin R) (vfin V) (vfin ⟨0, 0, 0⟩)
      (vfin light_color) = vfin ⟨0, 0, 0⟩ := by
  rw [specular_highlight_fin]
  split_ifs <;> simp [vfin]

/-- The diffuse term is zero for a zero diffuse colour. -/
theorem diffuse_reflection_zero (N L light_color : Vec3 ℝ) :
    diffuse_reflection (vfin N) (vfin L) (vfin light_color) (vfin ⟨0, 0, 0⟩)
      = vfin ⟨0, 0, 0⟩ := by
  rw [diffuse_reflection_fin]
  simp [vfin]

/-- With the three radial coefficients zero `frad` divides by zero: the result is plus
infinity at every finite distance. -/
theorem frad_zero (d : ℝ) : frad (fin 0) (fin 0) (fin 0) (fin d) = (pinf : Dbl ℝ) := by
  rw [frad_fin, fin_div_fin]
  simp [infOfSign]

/-- The product of the attenuations `1` and plus infinity with a finite sum of shading
terms: an infinity of the sign of the sum, NaN for a zero sum. -/
theorem attenuated_colour (x y : ℝ) :
    (fin 1 * pinf * (fin x + fin y) : Dbl ℝ) = infOfSign (x + y) := by
  have h1 : (fin 1 * pinf : Dbl ℝ) = pinf := by
    show Dbl.mul (fin 1) pinf = pinf
    simp [Dbl.mul, infOfSign]
  rw [h1, fin_add_fin]
  rfl

/-- In scenario A the light iteration at a point `t*u` of the sphere, `0 < t < 10*u.z`,
seen along the unit ray `u`, sets the working colour to `(+inf, NaN, NaN)`. -/
theorem scenario_a_colour (u : Vec3 ℝ) (hu : u.normSq = 1) (t : ℝ) (ht : 0 < t)
    (ht10 : t < 10 * u.c2) (c : Vec3 (Dbl ℝ)) :
    (light_iteration ⟨Real.sqrt, Real.cos, Real.rpow, Real.pi⟩ (vfin u)
      (vfin ⟨t * u.c0, t * u.c1, t * u.c2⟩) 1 point_light (scenario_a, c)).2
      = ⟨pinf, nan, nan⟩ := by
  have h := light_iteration_unoccluded ⟨Real.sqrt, Real.cos, Real.rpow, Real.pi⟩ rfl
    scenario_a (vfin u) ⟨t * u.c0, t * u.c1, t * u.c2⟩ ⟨0, 0, 0⟩ 1 red_sphere point_light c
    rfl (Or.inl rfl) rfl (scenario_a_unoccluded _ _)
  simp only at h
  rw [Nat.cast_one] at h
  rw [h]
  have hs : (red_sphere (K := ℝ)).type = some "sphere" := rfl
  have hpos : (point_light (K := ℝ)).position = vfin ⟨0, 0, 0⟩ := rfl
  have hsp : (red_sphere (K := ℝ)).sphere.position = vfin ⟨0, 0, 10⟩ := rfl
  have hdc : (red_sphere (K := ℝ)).sphere.diffuse_color = vfin ⟨1, 0, 0⟩ := rfl
  have hsc : (red_sphere (K := ℝ)).sphere.specular_color = vfin ⟨0, 0, 0⟩ := rfl
  have hlc : (point_light (K := ℝ)).color = vfin ⟨1, 1, 1⟩ := rfl
  have hth : (point_light (K := ℝ)).theta = fin 0 := rfl
  have hdir : (point_light (K := ℝ)).direction = ⟨fin 0, fin 0, fin 0⟩ := rfl
  have ha0 : (point_light (K := ℝ)).radial_a0 = fin 0 := rfl
  have ha1 : (point_light (K := ℝ)).radial_a1 = fin 0 := rfl
  have ha2 : (point_light (K := ℝ)).radial_a2 = fin 0 := rfl
  have hnsq : u.c0 ^ 2 + u.c1 ^ 2 + u.c2 ^ 2 = 1 := hu
  -- the light vector and the normal before normalisation
  have hqn : ((⟨0, 0, 0⟩ : Vec3 ℝ).sub ⟨t * u.c0, t * u.c1, t * u.c2⟩).normSq = t ^ 2 := by
    simp only [Vec3.normSq, Vec3.sub]
    linear_combination t ^ 2 * hnsq
  have hq : ((⟨0, 0, 0⟩ : Vec3 ℝ).sub ⟨t * u.c0, t * u.c1, t * u.c2⟩).Nonzero :=
    Vec3.nonzero_of_normSq_pos (by rw [hqn]; positivity)
  have hdotpos : 0 < ((⟨t * u.c0, t * u.c1, t * u.c2⟩ : Vec3 ℝ).sub ⟨0, 0, 10⟩).dot
      ((⟨0, 0, 0⟩ : Vec3 ℝ).sub ⟨t * u.c0, t * u.c1, t * u.c2⟩) := by
    have e : ((⟨t * u.c0, t * u.c1, t * u.c2⟩ : Vec3 ℝ).sub ⟨0, 0, 10⟩).dot
        ((⟨0, 0, 0⟩ : Vec3 ℝ).sub ⟨t * u.c0, t * u.c1, t * u.c2⟩)
        = t * (10 * u.c2 - t) := by
      simp only [Vec3.dot, Vec3.sub]
      linear_combination (-(t ^ 2)) * hnsq
    rw [e]
    exact mul_pos ht (by linarith)
  have hn : ((⟨t * u.c0, t * u.c1, t * u.c2⟩ : Vec3 ℝ).sub ⟨0, 0, 10⟩).Nonzero := by
    apply Vec3.nonzero_of_normSq_pos
    by_contra hcon
    have h0 : ((⟨t * u.c0, t * u.c1, t * u.c2⟩ : Vec3 ℝ).sub ⟨0, 0, 10⟩).normSq = 0 :=
      le_antisymm (not_lt.mp hcon) (Vec3.normSq_nonneg _)
    simp only [Vec3.normSq, Vec3.sub] at h0
    simp only [Vec3.dot, Vec3.sub] at hdotpos
    nlinarith [sq_nonneg (t * u.c0 - 0), sq_nonneg (t * u.c1 - 0),
      sq_nonneg (t * u.c2 - 10)]
  have hNL : 0 < (((⟨t * u.c0, t * u.c1, t * u.c2⟩ : Vec3 ℝ).sub ⟨0, 0, 10⟩).sdiv
      (Real.sqrt ((⟨t * u.c0, t * u.c1, t * u.c2⟩ : Vec3 ℝ).sub ⟨0, 0, 10⟩).normSq)).dot
      (((⟨0, 0, 0⟩ : Vec3 ℝ).sub ⟨t * u.c0, t * u.c1, t * u.c2⟩).sdiv
        (Real.sqrt ((⟨0, 0, 0⟩ : Vec3 ℝ).sub ⟨t * u.c0, t * u.c1, t * u.c2⟩).normSq)) := by
    have hsn := Real.sqrt_pos.mpr (Vec3.normSq_pos hn)
    have hsq := Real.sqrt_pos.mpr (Vec3.normSq_pos hq)
    have e : ∀ (a b : Vec3 ℝ) (x y : ℝ), (a.sdiv x).dot (b.sdiv y) = a.dot b / (x * y) := by
      intro a b x y
      simp only [Vec3.dot, Vec3.sdiv]
      by_cases hx : x = 0
      · simp [hx]
      · by_cases hy : y = 0
        · simp [hy]
        · field_simp
    rw [e]
    exact div_pos hdotpos (mul_pos hsn hsq)
  simp only [hs, if_true, hpos, hsp, hdc, hsc, hlc, hth, hdir, ha0, ha1, ha2,
    vector_subtract_fin, normalize_fin _ hq, normalize_fin _ hn, vector_reflection_fin,
    diffuse_reflection_fin, specular_highlight_zero, fang_theta_zero, frad_zero]
  simp only [vfin, attenuated_colour, max_eq_right hNL.le]
  have e1 : ∀ x : ℝ, 0 < x → (infOfSign (x * 1 * 1 + 0) : Dbl ℝ) = pinf := by
    intro x hx
    simp [infOfSign, hx, ne_of_gt hx]
  have e2 : ∀ x : ℝ, (infOfSign (x * 0 * 1 + 0) : Dbl ℝ) = nan := by
    intro x
    simp [infOfSign]
  rw [e1 _ hNL, e2]

/-- In scenario A the light loop at a point of the sphere ends with the colour
`(+inf, NaN, NaN)`. -/
theorem scenario_a_light_loop (u : Vec3 ℝ) (hu : u.normSq = 1) (t : ℝ) (ht : 0 < t)
    (ht10 : t < 10 * u.c2) :
    light_loop ⟨Real.sqrt, Real.cos, Real.rpow, Real.pi⟩ (vfin u)
      (vfin ⟨t * u.c0, t * u.c1, t * u.c2⟩) 1 scenario_a ⟨fin 0, fin 0, fin 0⟩
      = (scenario_a, ⟨pinf, nan, nan⟩) := by
  have h1 : (unit_camera (K := ℝ)).type = some "camera" := rfl
  have h2 : (red_sphere (K := ℝ)).type = some "sphere" := rfl
  have h3 : (point_light_object (K := ℝ)).type = some "light" := rfl
  have h4 : Dbl.eq (shadow_best Real.sqrt (vfin (⟨t * u.c0, t * u.c1, t * u.c2⟩ : Vec3 ℝ)) 1
      scenario_a (point_light_object (K := ℝ)).light) pinf = true :=
    scenario_a_unoccluded _ _
  have h5 : (light_iteration ⟨Real.sqrt, Real.cos, Real.rpow, Real.pi⟩ (vfin u)
      (vfin ⟨t * u.c0, t * u.c1, t * u.c2⟩) 1 (point_light_object (K := ℝ)).light
      (scenario_a, ⟨fin 0, fin 0, fin 0⟩)).2 = ⟨pinf, nan, nan⟩ :=
    scenario_a_colour u hu t ht ht10 _
  have hrange : List.range (scenario_a (K := ℝ)).length = [0, 1, 2] := rfl
  have e0 : (scenario_a (K := ℝ))[0]? = some unit_camera := rfl
  have e1 : (scenario_a (K := ℝ))[1]? = some red_sphere := rfl
  have e2 : (scenario_a (K := ℝ))[2]? = some point_light_object := rfl
  unfold light_loop
  rw [light_step_foldl_settled ⟨Real.sqrt, Real.cos, Real.rpow, Real.pi⟩ _ _ _ _
    scenario_a_settled, hrange]
  simp only [List.foldl_cons, List.foldl_nil, e0, e1, e2, Option.map_some', Option.getD_some,
    h1, h2, h3, h4, h5]
  simp

/-- In scenario A the pass for a pixel whose unit ray `u` meets the sphere stores the
colour `(+inf, NaN, NaN)`. -/
theorem scenario_a_hit (w h pw ph : Dbl ℝ) (row column : Nat) (image : Image) (cl : Int)
    (u : Vec3 ℝ) (hray : normalize Real.sqrt (view_vector w h pw ph row column) = vfin u)
    (hu : u.normSq = 1) (hz : 0 < u.c2) (hhit : 99 < 100 * u.c2 ^ 2) :
    (render_pixel ⟨Real.sqrt, Real.cos, Real.rpow, Real.pi⟩ w h pw ph row column
      (scenario_a, image, cl)).2.1
      = store_pixel image row column (⟨pinf, nan, nan⟩ : Vec3 (Dbl ℝ)) := by
  obtain ⟨t, -, ht10, ht, hd⟩ := red_sphere_distance u hu hz hhit
  have hscan := scenario_a_primary_scan u t ht cl hd
  have hnew : vector_add (⟨fin 0, fin 0, fin 0⟩ : Vec3 (Dbl ℝ))
      (vector_scale (vfin u) (fin t)) = vfin ⟨t * u.c0, t * u.c1, t * u.c2⟩ := by
    simp [vector_add, vector_scale, vfin]
  have e1 : (scenario_a (K := ℝ))[(1 : Int).toNat]? = some red_sphere := rfl
  have hty : (red_sphere (K := ℝ)).type = some "sphere" := rfl
  have hcond : (Dbl.gt (fin t) (fin 0) && Dbl.ne (fin t) pinf) = true := by
    simp [Dbl.gt, Dbl.lt, Dbl.ne, Dbl.eq, ht]
  unfold render_pixel
  simp only [hray, hscan]
  rw [if_pos hcond]
  simp only [hnew, scenario_a_light_loop u hu t ht ht10, e1, hty, if_true]

/-! ## The pixels of scenario A -/

/-- The bytes stored for the working colour `(+inf, NaN, NaN)` with `max_color = 255`:
`255` for plus infinity, which `clamp` brings to `1`, and the conversion of NaN for the
other two channels. -/
theorem store_pixel_inf_nan_nan (image : Image) (hmax : image.max_color = 255)
    (row column : Nat) :
    (store_pixel image row column (⟨pinf, nan, nan⟩ : Vec3 (Dbl ℝ))).image_data[
        (image.width * (row : Int) + (column : Int)).toNat]?
      = (image.image_data[(image.width * (row : Int) + (column : Int)).toNat]?).map
        (fun _ => (⟨255, Dbl.toUChar (nan : Dbl ℝ), Dbl.toUChar (nan : Dbl ℝ)⟩ : Pixel)) := by
  have h1 : clamp (pinf : Dbl ℝ) (fin 0) (fin 1) = fin 1 := by
    simp [clamp, Dbl.gt, Dbl.lt]
  have h2 : clamp (nan : Dbl ℝ) (fin 0) (fin 1) = nan := by
    simp [clamp, Dbl.gt, Dbl.lt]
  have h3 : (nan * fin ((255 : Int) : ℝ) : Dbl ℝ) = nan := rfl
  have h4 : Dbl.toUChar (fin 1 * fin ((255 : Int) : ℝ) : Dbl ℝ) = 255 := by
    have hfloor : Int.floor ((1 : ℝ) * ((255 : Int) : ℝ)) = 255 := by
      rw [one_mul]
      exact Int.floor_intCast 255
    have hnn : (0 : ℝ) ≤ (1 : ℝ) * ((255 : Int) : ℝ) := by norm_num
    simp only [fin_mul_fin, Dbl.toUChar, hnn, if_true, hfloor]
    decide
  rw [store_pixel_getElem_self, hmax]
  simp only [h1, h2, h3, h4]

/-- The unit ray of a centre pixel of the `10 x 10` image for the camera of width and
height `1`: it passes within the sphere of the scenarios. -/
theorem centre_ray (row column : Nat) (hr : row = 4 ∨ row = 5) (hc : column = 4 ∨ column = 5) :
    ∃ u : Vec3 ℝ, normalize Real.sqrt (view_vector (fin (1 : ℝ)) (fin 1)
        (fin 1 / fin ((blank_image.width : Int) : ℝ))
        (fin 1 / fin ((blank_image.height : Int) : ℝ)) row column) = vfin u
      ∧ u.normSq = 1 ∧ 0 < u.c2 ∧ 99 < 100 * u.c2 ^ 2 := by
  rw [view_vector_fin 1 1 blank_image.width blank_image.height (by decide) (by decide)
    row column]
  obtain ⟨h1, h2, h3, h4⟩ := unit_ray_of_view
    ⟨-1 / 2 + (1 / ((blank_image.width : Int) : ℝ)) * ((column : ℝ) + 1 / 2),
      -(-1 / 2 + (1 / ((blank_image.height : Int) : ℝ)) * ((row : ℝ) + 1 / 2)), 1⟩ rfl
  refine ⟨_, h1, h2, h3, ?_⟩
  rw [h4]
  have hW : ((blank_image.width : Int) : ℝ) = 10 := by norm_num [blank_image]
  have hH : ((blank_image.height : Int) : ℝ) = 10 := by norm_num [blank_image]
  rcases hr with rfl | rfl <;> rcases hc with rfl | rfl <;>
    norm_num [Vec3.normSq, hW, hH]

/-- The unit ray of a corner pixel of the `10 x 10` image for the camera of width and
height `1`: it passes outside the sphere of the scenarios. -/
theorem corner_ray (row column : Nat) (hr : row = 0 ∨ row = 9) (hc : column = 0 ∨ column = 9) :
    ∃ u : Vec3 ℝ, normalize Real.sqrt (view_vector (fin (1 : ℝ)) (fin 1)
        (fin 1 / fin ((blank_image.width : Int) : ℝ))
        (fin 1 / fin ((blank_image.height : Int) : ℝ)) row column) = vfin u
      ∧ u.normSq = 1 ∧ 100 * u.c2 ^ 2 < 99 := by
  rw [view_vector_fin 1 1 blank_image.width blank_image.height (by decide) (by decide)
    row column]
  obtain ⟨h1, h2, -, h4⟩ := unit_ray_of_view
    ⟨-1 / 2 + (1 / ((blank_image.width : Int) : ℝ)) * ((column : ℝ) + 1 / 2),
      -(-1 / 2 + (1 / ((blank_image.height : Int) : ℝ)) * ((row : ℝ) + 1 / 2)), 1⟩ rfl
  refine ⟨_, h1, h2, ?_⟩
  rw [h4]
  have hW : ((blank_image.width : Int) : ℝ) = 10 := by norm_num [blank_image]
  have hH : ((blank_image.height : Int) : ℝ) = 10 := by norm_num [blank_image]
  rcases hr with rfl | rfl <;> rcases hc with rfl | rfl <;>
    norm_num [Vec3.normSq, hW, hH]

/-- The index of a pixel of the `10 x 10` image. -/
theorem blank_image_index (row column : Nat) :
    (blank_image.width * (row : Int) + (column : Int)).toNat = 10 * row + column := by
  have hW : blank_image.width = 10 := rfl
  rw [hW]
  omega

/-- Every entry of the `10 x 10` image is `(0,0,0)` before the render. -/
theorem blank_image_entry (n : Nat) (hn : n < 100) :
    blank_image.image_data[n]? = some ⟨0, 0, 0⟩ := by
  show (List.replicate 100 (⟨0, 0, 0⟩ : Pixel))[n]? = some ⟨0, 0, 0⟩
  rw [List.getElem?_replicate]
  simp [hn]

/-- The camera of a scene that starts with the camera of width and height `1`. -/
theorem get_camera_unit_camera (rest : List (Object ℝ)) :
    get_camera (unit_camera :: rest) = ((0 : Nat) : Int) := by
  simp [get_camera, get_camera_from, unit_camera]

/-- Scenario A rendered by `raycaster` into the `10 x 10` image: the entry of a pixel is
the one that the pass for that pixel writes into the initial image. -/
theorem scenario_a_entry (cl : Int) (row column : Nat) (hr : row < 10) (hc : column < 10) :
    ∃ (objects1 : List (Object ℝ)) (image1 : Image),
      raycaster ⟨Real.sqrt, Real.cos, Real.rpow, Real.pi⟩ scenario_a blank_image cl
        = some (objects1, image1)
      ∧ image1.image_data[10 * row + column]?
        = (render_pixel ⟨Real.sqrt, Real.cos, Real.rpow, Real.pi⟩ (fin 1) (fin 1)
            (fin 1 / fin ((blank_image.width : Int) : ℝ))
            (fin 1 / fin ((blank_image.height : Int) : ℝ)) row column
            (scenario_a, blank_image, 0)).2.1.image_data[10 * row + column]? := by
  have hW : blank_image.width = 10 := rfl
  have hH : blank_image.height = 10 := rfl
  refine ⟨_, _, raycaster_of_camera ⟨Real.sqrt, Real.cos, Real.rpow, Real.pi⟩ scenario_a
    blank_image cl 0 unit_camera (get_camera_unit_camera _) rfl, ?_⟩
  have h := pixel_loops_entry ⟨Real.sqrt, Real.cos, Real.rpow, Real.pi⟩ rfl scenario_a
    scenario_a_finite (unit_camera (K := ℝ)).camera.width
    (unit_camera (K := ℝ)).camera.height blank_image cl row column
    (by rw [hH]; omega) (by rw [hW]; omega)
  rw [blank_image_index] at h
  exact h

/-! ## Scenario B -/

/-- A sphere that lies behind the origin of a ray and does not contain it is not met:
with `b >= 0` and `c > 0` both roots are negative or there is none. -/
theorem sphere_intersection_behind (ro rd center : Vec3 ℝ) (radius : ℝ) (hrd : rd.Nonzero)
    (hb : 0 ≤ rd.dot (ro.sub center)) (hc : radius ^ 2 < (ro.sub center).normSq) :
    sphere_intersection Real.sqrt (vfin ro) (vfin rd) (vfin center) (fin radius)
      = fin (-1) := by
  rw [sphere_intersection_fin _ _ _ _ hrd]
  have ha : 0 < rd.normSq := Vec3.normSq_pos hrd
  have hc0 : 0 < (ro.sub center).normSq - radius ^ 2 := by linarith
  have hac := mul_pos ha hc0
  by_cases hd : (2 * rd.dot (ro.sub center)) ^ 2
      - 4 * rd.normSq * ((ro.sub center).normSq - radius ^ 2) < 0
  · rw [if_pos hd]
  · rw [if_neg hd]
    have hd0 := not_lt.mp hd
    have hbpos : 0 < 2 * rd.dot (ro.sub center) := by
      rcases hb.lt_or_eq with h | h
      · linarith
      · rw [← h] at hd0
        nlinarith
    have hs : Real.sqrt ((2 * rd.dot (ro.sub center)) ^ 2
        - 4 * rd.normSq * ((ro.sub center).normSq - radius ^ 2))
        < 2 * rd.dot (ro.sub center) :=
      (Real.sqrt_lt' hbpos).mpr (by linarith)
    have hs0 := Real.sqrt_nonneg ((2 * rd.dot (ro.sub center)) ^ 2
      - 4 * rd.normSq * ((ro.sub center).normSq - radius ^ 2))
    have h0 : ¬ (0 ≤ (-(2 * rd.dot (ro.sub center))
        - Real.sqrt ((2 * rd.dot (ro.sub center)) ^ 2
          - 4 * rd.normSq * ((ro.sub center).normSq - radius ^ 2))) / (2 * rd.normSq)) := by
      rw [not_le]
      exact div_neg_of_neg_of_pos (by linarith) (by linarith)
    have h1 : ¬ (0 ≤ (-(2 * rd.dot (ro.sub center))
        + Real.sqrt ((2 * rd.dot (ro.sub center)) ^ 2
          - 4 * rd.normSq * ((ro.sub center).normSq - radius ^ 2))) / (2 * rd.normSq)) := by
      rw [not_le]
      exact div_neg_of_neg_of_pos (by linarith) (by linarith)
    rw [if_neg h0, if_neg h1]

/-- The normal `(0,0,-1)` divided by its length. -/
theorem occluder_normal_sdiv :
    (⟨0, 0, -1⟩ : Vec3 ℝ).sdiv (Real.sqrt (⟨0, 0, -1⟩ : Vec3 ℝ).normSq) = ⟨0, 0, -1⟩ := by
  have h1 : (⟨0, 0, -1⟩ : Vec3 ℝ).normSq = 1 := by norm_num [Vec3.normSq]
  rw [h1, Real.sqrt_one]
  norm_num [Vec3.sdiv]

/-- The normal `(0,0,-1)` is a fixed point of `normalize`. -/
theorem occluder_normal_unit :
    normalize Real.sqrt (vfin (⟨0, 0, -1⟩ : Vec3 ℝ)) = vfin ⟨0, 0, -1⟩ :=
  normalize_of_normSq_eq_one _ (by norm_num [Vec3.normSq])

/-- The plane of scenario B has a normal that `normalize` leaves as it is. -/
theorem scenario_b_settled : Settled Real.sqrt (scenario_b (K := ℝ)) := by
  intro o ho hp
  simp only [scenario_b, List.mem_cons, List.mem_singleton, List.not_mem_nil, or_false]
    at ho
  rcases ho with rfl | rfl | rfl | rfl
  · simp [unit_camera, Object.zero] at hp
  · simp [red_sphere, Object.zero] at hp
  · simp [point_light_object, Object.zero] at hp
  · exact occluder_normal_unit

/-- The plane normals of scenario B are finite. -/
theorem scenario_b_finite : FiniteNormals (scenario_b (K := ℝ)) := by
  intro o ho _
  simp only [scenario_b, List.mem_cons, List.mem_singleton, List.not_mem_nil, or_false]
    at ho
  rcases ho with rfl | rfl | rfl | rfl
  · exact ⟨⟨0, 0, 0⟩, rfl⟩
  · exact ⟨⟨0, 0, 0⟩, rfl⟩
  · exact ⟨⟨0, 0, 0⟩, rfl⟩
  · exact ⟨⟨0, 0, -1⟩, rfl⟩

/-- The distance of the plane of scenario B along a ray from the origin with a positive
third component. -/
theorem hit_distance_occluder_plane (u : Vec3 ℝ) (hz : 0 < u.c2) :
    hit_distance Real.sqrt (vfin ⟨0, 0, 0⟩) (vfin u) occluder_plane = fin (5 / u.c2) := by
  have hty : (occluder_plane (K := ℝ)).type = some "plane" := rfl
  have hns : ¬ ((some "plane" : Option String) = some "sphere") := by decide
  have hps : (occluder_plane (K := ℝ)).plane.position = vfin ⟨0, 0, 5⟩ := rfl
  have hno : (occluder_plane (K := ℝ)).plane.normal = vfin ⟨0, 0, -1⟩ := rfl
  have hd1 : (⟨0, 0, -1⟩ : Vec3 ℝ).dot ((⟨0, 0, 5⟩ : Vec3 ℝ).sub ⟨0, 0, 0⟩) = -5 := by
    norm_num [Vec3.dot, Vec3.sub]
  have hd2 : (⟨0, 0, -1⟩ : Vec3 ℝ).dot u = -u.c2 := by
    simp [Vec3.dot]
  have hne : -u.c2 ≠ 0 := by linarith
  have hq : (-5 : ℝ) / -u.c2 = 5 / u.c2 := by rw [neg_div_neg_eq]
  have hpos : 0 ≤ 5 / u.c2 := by positivity
  simp only [hit_distance, object_intersection, hty, hns, if_false, hps, hno]
  rw [plane_intersection_fin _ _ _ _ (Or.inr (Or.inr (by norm_num))), occluder_normal_sdiv,
    hd1, hd2, fin_div_fin_of_ne _ hne, hq]
  simp [hpos]

/-- In scenario B the object intersection loop selects the plane, index `3`: it is nearer
than the sphere. -/
theorem scenario_b_primary_scan (u : Vec3 ℝ) (hu : u.normSq = 1) (hz : 0 < u.c2)
    (hhit : 99 < 100 * u.c2 ^ 2) (cl : Int) :
    primary_scan Real.sqrt (⟨fin 0, fin 0, fin 0⟩ : Vec3 (Dbl ℝ)) (vfin u) 0
      scenario_b pinf cl = (scenario_b, fin (5 / u.c2), 3) := by
  obtain ⟨t, ht9, -, ht, hd⟩ := red_sphere_distance u hu hz hhit
  have hle := Vec3.c2_sq_le_one hu
  have hz1 : u.c2 ≤ 1 := by nlinarith
  have hs : 0 < 5 / u.c2 := by positivity
  have hlt : 5 / u.c2 < t := by
    rw [div_lt_iff₀ hz]
    nlinarith
  have hro : (⟨fin 0, fin 0, fin 0⟩ : Vec3 (Dbl ℝ)) = vfin ⟨0, 0, 0⟩ := rfl
  apply Prod.ext
  · rw [primary_scan_fst, map_settle_of_settled Real.sqrt _ scenario_b_settled]
  · rw [hro]
    show (primary_scan Real.sqrt _ _ 0
      [unit_camera, red_sphere, point_light_object, occluder_plane] pinf cl).2 = _
    rw [primary_scan_cons, primary_scan_cons, primary_scan_cons, primary_scan_cons,
      hit_distance_unit_camera, hit_distance_red_sphere, hit_distance_point_light,
      hit_distance_occluder_plane u hz, hd]
    simp [primary_scan, Dbl.gt, Dbl.lt, ht, hs, hlt]

/-- In scenario B the code finds nothing between a point `t*u` of the plane and the
light at the origin: the sphere lies behind the shadow ray. -/
theorem scenario_b_unoccluded (u : Vec3 ℝ) (hu : u.normSq = 1) (hz : 0 < u.c2) (t : ℝ)
    (ht5 : t * u.c2 = 5) (ht10 : t < 10 * u.c2) :
    Dbl.eq (shadow_best Real.sqrt (vfin (⟨t * u.c0, t * u.c1, t * u.c2⟩ : Vec3 ℝ)) 3
      scenario_b point_light) pinf = true := by
  have hnsq : u.c0 ^ 2 + u.c1 ^ 2 + u.c2 ^ 2 = 1 := hu
  have ht : 0 < t := by
    by_contra hcon
    have : t * u.c2 ≤ 0 := mul_nonpos_of_nonpos_of_nonneg (not_lt.mp hcon) hz.le
    linarith
  have hqn : ((⟨0, 0, 0⟩ : Vec3 ℝ).sub ⟨t * u.c0, t * u.c1, t * u.c2⟩).normSq = t ^ 2 := by
    simp only [Vec3.normSq, Vec3.sub]
    linear_combination t ^ 2 * hnsq
  have hq : ((⟨0, 0, 0⟩ : Vec3 ℝ).sub ⟨t * u.c0, t * u.c1, t * u.c2⟩).Nonzero :=
    Vec3.nonzero_of_normSq_pos (by rw [hqn]; positivity)
  have hsq := Real.sqrt_pos.mpr (Vec3.normSq_pos hq)
  have hdot : 0 ≤ (((⟨0, 0, 0⟩ : Vec3 ℝ).sub ⟨t * u.c0, t * u.c1, t * u.c2⟩).sdiv
      (Real.sqrt ((⟨0, 0, 0⟩ : Vec3 ℝ).sub ⟨t * u.c0, t * u.c1, t * u.c2⟩).normSq)).dot
      ((⟨t * u.c0, t * u.c1, t * u.c2⟩ : Vec3 ℝ).sub ⟨0, 0, 10⟩) := by
    have e : ∀ (a b : Vec3 ℝ) (x : ℝ), (a.sdiv x).dot b = a.dot b / x := by
      intro a b x
      simp only [Vec3.dot, Vec3.sdiv]
      ring
    have e2 : ((⟨0, 0, 0⟩ : Vec3 ℝ).sub ⟨t * u.c0, t * u.c1, t * u.c2⟩).dot
        ((⟨t * u.c0, t * u.c1, t * u.c2⟩ : Vec3 ℝ).sub ⟨0, 0, 10⟩)
        = t * (10 * u.c2 - t) := by
      simp only [Vec3.dot, Vec3.sub]
      linear_combination (-(t ^ 2)) * hnsq
    rw [e, e2]
    exact div_nonneg (mul_nonneg ht.le (by linarith)) hsq.le
  have hfar : (1 : ℝ) ^ 2
      < ((⟨t * u.c0, t * u.c1, t * u.c2⟩ : Vec3 ℝ).sub ⟨0, 0, 10⟩).normSq := by
    simp only [Vec3.normSq, Vec3.sub]
    rw [ht5]
    nlinarith [sq_nonneg (t * u.c0 - 0), sq_nonneg (t * u.c1 - 0)]
  have hpos : (point_light (K := ℝ)).position = vfin ⟨0, 0, 0⟩ := rfl
  unfold shadow_best
  rw [shadow_scan_spec]
  refine ⟨rfl, ?_⟩
  intro j o hj hk
  have hgt : Dbl.gt (hit_distance Real.sqrt (vfin (⟨t * u.c0, t * u.c1, t * u.c2⟩ : Vec3 ℝ))
      (normalize Real.sqrt (vector_subtract (point_light (K := ℝ)).position
        (vfin ⟨t * u.c0, t * u.c1, t * u.c2⟩))) o) (fin 0) = false := by
    match j, hj with
    | 0, hj =>
      simp only [scenario_b, List.getElem?_cons_zero, Option.some.injEq] at hj
      subst hj
      rw [hit_distance_unit_camera]
      simp [Dbl.gt, Dbl.lt]
    | 1, hj =>
      simp only [scenario_b, List.getElem?_cons_succ, List.getElem?_cons_zero,
        Option.some.injEq] at hj
      subst hj
      rw [hit_distance_red_sphere, hpos, vector_subtract_fin, normalize_fin _ hq,
        sphere_intersection_behind _ _ _ _
          (Vec3.nonzero_of_normSq_eq_one (Vec3.normSq_sdiv_sqrt hq)) hdot hfar]
      simp [Dbl.gt, Dbl.lt]
    | 2, hj =>
      simp only [scenario_b, List.getElem?_cons_succ, List.getElem?_cons_zero,
        Option.some.injEq] at hj
      subst hj
      rw [hit_distance_point_light]
      simp [Dbl.gt, Dbl.lt]
    | 3, _ => exact absurd rfl hk
    | (n + 4), hj => simp [scenario_b] at hj
  rw [hgt]
  simp

/-- In scenario B the light iteration at a point `t*u` of the plane sets the working
colour to `(NaN, NaN, NaN)`: the shading terms are zero and the radial attenuation is
plus infinity. -/
theorem scenario_b_colour (u : Vec3 ℝ) (hu : u.normSq = 1) (hz : 0 < u.c2) (t : ℝ)
    (ht5 : t * u.c2 = 5) (ht10 : t < 10 * u.c2) (c : Vec3 (Dbl ℝ)) :
    (light_iteration ⟨Real.sqrt, Real.cos, Real.rpow, Real.pi⟩ (vfin u)
      (vfin ⟨t * u.c0, t * u.c1, t * u.c2⟩) 3 point_light (scenario_b, c)).2
      = ⟨nan, nan, nan⟩ := by
  have hnsq : u.c0 ^ 2 + u.c1 ^ 2 + u.c2 ^ 2 = 1 := hu
  have ht : 0 < t := by
    by_contra hcon
    have : t * u.c2 ≤ 0 := mul_nonpos_of_nonpos_of_nonneg (not_lt.mp hcon) hz.le
    linarith
  have hqn : ((⟨0, 0, 0⟩ : Vec3 ℝ).sub ⟨t * u.c0, t * u.c1, t * u.c2⟩).normSq = t ^ 2 := by
    simp only [Vec3.normSq, Vec3.sub]
    linear_combination t ^ 2 * hnsq
  have hq : ((⟨0, 0, 0⟩ : Vec3 ℝ).sub ⟨t * u.c0, t * u.c1, t * u.c2⟩).Nonzero :=
    Vec3.nonzero_of_normSq_pos (by rw [hqn]; positivity)
  have h := light_iteration_unoccluded ⟨Real.sqrt, Real.cos, Real.rpow, Real.pi⟩ rfl
    scenario_b (vfin u) ⟨t * u.c0, t * u.c1, t * u.c2⟩ ⟨0, 0, 0⟩ 3 occluder_plane point_light c
    rfl (Or.inr rfl) rfl (scenario_b_unoccluded u hu hz t ht5 ht10)
  simp only at h
  rw [Nat.cast_ofNat] at h
  rw [h]
  have hty : (occluder_plane (K := ℝ)).type = some "plane" := rfl
  have hns : ¬ ((some "plane" : Option String) = some "sphere") := by decide
  have hpos : (point_light (K := ℝ)).position = vfin ⟨0, 0, 0⟩ := rfl
  have hno : (occluder_plane (K := ℝ)).plane.normal = vfin ⟨0, 0, -1⟩ := rfl
  have hdc : (occluder_plane (K := ℝ)).plane.diffuse_color = vfin ⟨0, 0, 0⟩ := rfl
  have hsc : (occluder_plane (K := ℝ)).plane.specular_color = vfin ⟨0, 0, 0⟩ := rfl
  have hlc : (point_light (K := ℝ)).color = vfin ⟨1, 1, 1⟩ := rfl
  have hth : (point_light (K := ℝ)).theta = fin 0 := rfl
  have hdir : (point_light (K := ℝ)).direction = ⟨fin 0, fin 0, fin 0⟩ := rfl
  have ha0 : (point_light (K := ℝ)).radial_a0 = fin 0 := rfl
  have ha1 : (point_light (K := ℝ)).radial_a1 = fin 0 := rfl
  have ha2 : (point_light (K := ℝ)).radial_a2 = fin 0 := rfl
  simp only [hty, hns, if_false, hpos, hno, hdc, hsc, hlc, hth, hdir, ha0, ha1, ha2,
    vector_subtract_fin, normalize_fin _ hq, occluder_normal_unit, vector_reflection_fin,
    diffuse_reflection_zero, specular_highlight_zero, fang_theta_zero, frad_zero]
  simp only [vfin, attenuated_colour]
  simp [infOfSign]

/-- In scenario B the light loop at a point of the plane ends with the colour
`(NaN, NaN, NaN)`. -/
theorem scenario_b_light_loop (u : Vec3 ℝ) (hu : u.normSq = 1) (hz : 0 < u.c2) (t : ℝ)
    (ht5 : t * u.c2 = 5) (ht10 : t < 10 * u.c2) :
    light_loop ⟨Real.sqrt, Real.cos, Real.rpow, Real.pi⟩ (vfin u)
      (vfin ⟨t * u.c0, t * u.c1, t * u.c2⟩) 3 scenario_b ⟨fin 0, fin 0, fin 0⟩
      = (scenario_b, ⟨nan, nan, nan⟩) := by
  have h1 : (unit_camera (K := ℝ)).type = some "camera" := rfl
  have h2 : (red_sphere (K := ℝ)).type = some "sphere" := rfl
  have h3 : (point_light_object (K := ℝ)).type = some "light" := rfl
  have h3p : (occluder_plane (K := ℝ)).type = some "plane" := rfl
  have h4 : Dbl.eq (shadow_best Real.sqrt (vfin (⟨t * u.c0, t * u.c1, t * u.c2⟩ : Vec3 ℝ)) 3
      scenario_b (point_light_object (K := ℝ)).light) pinf = true :=
    scenario_b_unoccluded u hu hz t ht5 ht10
  have h5 : (light_iteration ⟨Real.sqrt, Real.cos, Real.rpow, Real.pi⟩ (vfin u)
      (vfin ⟨t * u.c0, t * u.c1, t * u.c2⟩) 3 (point_light_object (K := ℝ)).light
      (scenario_b, ⟨fin 0, fin 0, fin 0⟩)).2 = ⟨nan, nan, nan⟩ :=
    scenario_b_colour u hu hz t ht5 ht10 _
  have hrange : List.range (scenario_b (K := ℝ)).length = [0, 1, 2, 3] := rfl
  have e0 : (scenario_b (K := ℝ))[0]? = some unit_camera := rfl
  have e1 : (scenario_b (K := ℝ))[1]? = some red_sphere := rfl
  have e2 : (scenario_b (K := ℝ))[2]? = some point_light_object := rfl
  have e3 : (scenario_b (K := ℝ))[3]? = some occluder_plane := rfl
  unfold light_loop
  rw [light_step_foldl_settled ⟨Real.sqrt, Real.cos, Real.rpow, Real.pi⟩ _ _ _ _
    scenario_b_settled, hrange]
  simp only [List.foldl_cons, List.foldl_nil, e0, e1, e2, e3, Option.map_some',
    Option.getD_some, h1, h2, h3, h3p, h4, h5]
  simp

/-- In scenario B the pass for a pixel whose unit ray `u` would meet the sphere stores
the colour `(NaN, NaN, NaN)` of the plane. -/
theorem scenario_b_hit (w h pw ph : Dbl ℝ) (row column : Nat) (image : Image) (cl : Int)
    (u : Vec3 ℝ) (hray : normalize Real.sqrt (view_vector w h pw ph row column) = vfin u)
    (hu : u.normSq = 1) (hz : 0 < u.c2) (hhit : 99 < 100 * u.c2 ^ 2) :
    (render_pixel ⟨Real.sqrt, Real.cos, Real.rpow, Real.pi⟩ w h pw ph row column
      (scenario_b, image, cl)).2.1
      = store_pixel image row column (⟨nan, nan, nan⟩ : Vec3 (Dbl ℝ)) := by
  have hscan := scenario_b_primary_scan u hu hz hhit cl
  have ht5 : 5 / u.c2 * u.c2 = 5 := div_mul_cancel₀ 5 (ne_of_gt hz)
  have ht10 : 5 / u.c2 < 10 * u.c2 := by
    rw [div_lt_iff₀ hz]
    nlinarith
  have hs : 0 < 5 / u.c2 := by positivity
  have hnew : vector_add (⟨fin 0, fin 0, fin 0⟩ : Vec3 (Dbl ℝ))
      (vector_scale (vfin u) (fin (5 / u.c2)))
      = vfin ⟨5 / u.c2 * u.c0, 5 / u.c2 * u.c1, 5 / u.c2 * u.c2⟩ := by
    simp [vector_add, vector_scale, vfin]
  have e3 : (scenario_b (K := ℝ))[(3 : Int).toNat]? = some occluder_plane := rfl
  have hty : (occluder_plane (K := ℝ)).type = some "plane" := rfl
  have hns : ¬ ((some "plane" : Option String) = some "sphere") := by decide
  have hcond : (Dbl.gt (fin (5 / u.c2)) (fin 0) && Dbl.ne (fin (5 / u.c2)) pinf) = true := by
    simp [Dbl.gt, Dbl.lt, Dbl.ne, Dbl.eq, hs]
  unfold render_pixel
  simp only [hray, hscan]
  rw [if_pos hcond]
  simp only [hnew, scenario_b_light_loop u hu hz (5 / u.c2) ht5 ht10, e3, hty, hns, if_false,
    if_true]

/-- Scenario B rendered by `raycaster` into the `10 x 10` image: the entry of a pixel is
the one that the pass for that pixel writes into the initial image. -/
theorem scenario_b_entry (cl : Int) (row column : Nat) (hr : row < 10) (hc : column < 10) :
    ∃ (objects1 : List (Object ℝ)) (image1 : Image),
      raycaster ⟨Real.sqrt, Real.cos, Real.rpow, Real.pi⟩ scenario_b blank_image cl
        = some (objects1, image1)
      ∧ image1.image_data[10 * row + column]?
        = (render_pixel ⟨Real.sqrt, Real.cos, Real.rpow, Real.pi⟩ (fin 1) (fin 1)
            (fin 1 / fin ((blank_image.width : Int) : ℝ))
            (fin 1 / fin ((blank_image.height : Int) : ℝ)) row column
            (scenario_b, blank_image, 0)).2.1.image_data[10 * row + column]? := by
  have hW : blank_image.width = 10 := rfl
  have hH : blank_image.height = 10 := rfl
  refine ⟨_, _, raycaster_of_camera ⟨Real.sqrt, Real.cos, Real.rpow, Real.pi⟩ scenario_b
    blank_image cl 0 unit_camera (get_camera_unit_camera _) rfl, ?_⟩
  have h := pixel_loops_entry ⟨Real.sqrt, Real.cos, Real.rpow, Real.pi⟩ rfl scenario_b
    scenario_b_finite (unit_camera (K := ℝ)).camera.width
    (unit_camera (K := ℝ)).camera.height blank_image cl row column
    (by rw [hH]; omega) (by rw [hW]; omega)
  rw [blank_image_index] at h
  exact h

/-! ## The pixel index -/

/-- An `int` expression whose exact result is representable has that result. -/
theorem int_wrap_of_fits (x : Int) (h0 : -2147483648 ≤ x) (h1 : x ≤ 2147483647) :
    int_wrap x = x := by
  unfold int_wrap
  omega

/-- The exact index of a pixel of the image lies in the buffer. -/
theorem index_in_bounds (width height row column : Int) (hh : row < height)
    (hr0 : 0 ≤ row) (hc0 : 0 ≤ column) (hc : column < width) :
    0 ≤ width * row ∧ width * row ≤ width * row + column
    ∧ width * row + column < width * height := by
  have hw : 0 < width := lt_of_le_of_lt hc0 hc
  refine ⟨mul_nonneg hw.le hr0, by linarith, ?_⟩
  have h1 : width * (row + 1) ≤ width * height :=
    mul_le_mul_of_nonneg_left (by linarith) hw.le
  linarith [mul_add width row 1, mul_one width]

/-- Two pixels with the same exact index are the same pixel. -/
theorem index_inj (width row column row1 column1 : Int) (hc0 : 0 ≤ column)
    (hc : column < width) (hd0 : 0 ≤ column1) (hd : column1 < width)
    (h : width * row + column = width * row1 + column1) :
    row = row1 ∧ column = column1 := by
  have hw : 0 < width := lt_of_le_of_lt hc0 hc
  have hrow : row = row1 := by
    rcases lt_trichotomy row row1 with hlt | heq | hgt
    · exfalso
      have h1 : width * (row + 1) ≤ width * row1 :=
        mul_le_mul_of_nonneg_left (by linarith) hw.le
      linarith [mul_add width row 1, mul_one width]
    · exact heq
    · exfalso
      have h1 : width * (row1 + 1) ≤ width * row :=
        mul_le_mul_of_nonneg_left (by linarith) hw.le
      linarith [mul_add width row1 1, mul_one width]
  refine ⟨hrow, ?_⟩
  rw [hrow] at h
  linarith

/-- The index that the machine computes is the exact one when the number of pixels is
representable in `int`. -/
theorem pixel_index_exact (width height row column : Int) (hh : row < height)
    (hr0 : 0 ≤ row) (hc0 : 0 ≤ column) (hc : column < width)
    (hfit : width * height ≤ 2147483647) :
    pixel_index width row column = width * row + column := by
  obtain ⟨h1, h2, h3⟩ := index_in_bounds width height row column hh hr0 hc0 hc
  unfold pixel_index
  rw [int_wrap_of_fits (width * row) (by linarith) (by linarith),
    int_wrap_of_fits (width * row + column) (by linarith) (by linarith)]

/-- Claim C39, amended (pixel indexing).  For every `width > 0`, `height > 0` and every
`(row, column)` with `0 <= row < height` and `0 <= column < width`: the exact value of
`width*row + column` lies in `[0, width*height)` and two pixels of the image with the same
value are the same pixel; and when `width*height <= 2147483647` the index that
`raycaster` computes in `int` is that exact value, so that it lies in
`[0, width*height)` and two pixels of the image with the same computed index are the same
pixel. -/
theorem pixel_index_in_bounds (width height row column : Int) (_hw : 0 < width)
    (_hh0 : 0 < height) (hr0 : 0 ≤ row) (hr : row < height) (hc0 : 0 ≤ column)
    (hc : column < width) :
    (0 ≤ width * row + column ∧ width * row + column < width * height)
    ∧ (∀ row1 column1 : Int, 0 ≤ row1 → row1 < height → 0 ≤ column1 → column1 < width →
        width * row + column = width * row1 + column1 → row = row1 ∧ column = column1)
    ∧ (width * height ≤ 2147483647 →
        pixel_index width row column = width * row + column
        ∧ 0 ≤ pixel_index width row column
        ∧ pixel_index width row column < width * height
        ∧ ∀ row1 column1 : Int, 0 ≤ row1 → row1 < height → 0 ≤ column1 →
            column1 < width →
            pixel_index width row column = pixel_index width row1 column1 →
            row = row1 ∧ column = column1) := by
  obtain ⟨h1, h2, h3⟩ := index_in_bounds width height row column hr hr0 hc0 hc
  refine ⟨⟨by linarith, h3⟩, ?_, ?_⟩
  · intro row1 column1 _ _ hd0 hd heq
    exact index_inj width row column row1 column1 hc0 hc hd0 hd heq
  · intro hfit
    have he := pixel_index_exact width height row column hr hr0 hc0 hc hfit
    refine ⟨he, by rw [he]; linarith, by rw [he]; exact h3, ?_⟩
    intro row1 column1 hs0 hs hd0 hd heq
    rw [he, pixel_index_exact width height row1 column1 hs hs0 hd0 hd hfit] at heq
    exact index_inj width row column row1 column1 hc0 hc hd0 hd heq

/-- Witness for C39: the pixel `(3, 4)` of an image of `10 x 10` pixels. -/
theorem pixel_index_in_bounds_witness :
    (0 ≤ (10 : Int) * 3 + 4 ∧ (10 : Int) * 3 + 4 < 10 * 10)
    ∧ (∀ row1 column1 : Int, 0 ≤ row1 → row1 < 10 → 0 ≤ column1 → column1 < 10 →
        (10 : Int) * 3 + 4 = 10 * row1 + column1 → 3 = row1 ∧ 4 = column1)
    ∧ ((10 : Int) * 10 ≤ 2147483647 →
        pixel_index 10 3 4 = 10 * 3 + 4
        ∧ 0 ≤ pixel_index 10 3 4
        ∧ pixel_index 10 3 4 < 10 * 10
        ∧ ∀ row1 column1 : Int, 0 ≤ row1 → row1 < 10 → 0 ≤ column1 →
            column1 < 10 →
            pixel_index 10 3 4 = pixel_index 10 row1 column1 →
            3 = row1 ∧ 4 = column1) :=
  pixel_index_in_bounds 10 10 3 4 (by decide) (by decide) (by decide) (by decide)
    (by decide) (by decide)

/-- Counterexample to C39 as stated: the image of `65536 x 65536` pixels and its pixel
`(32768, 0)`.  The width and the height are positive and the pixel lies in the image, but
the product `width * row = 2^31` is not representable in `int`: the index that the
machine computes is `-2147483648`, which is below `0`. -/
theorem pixel_index_overflow :
    (0 : Int) < 65536 ∧ (0 : Int) ≤ 32768 ∧ (32768 : Int) < 65536 ∧ (0 : Int) ≤ 0
    ∧ (0 : Int) < 65536
    ∧ pixel_index 65536 32768 0 = -2147483648
    ∧ ¬ (0 ≤ pixel_index 65536 32768 0) := by
  refine ⟨by decide, by decide, by decide, by decide, by decide, ?_, ?_⟩ <;>
    simp only [pixel_index, int_wrap] <;> decide

/-! ## Colour validation in the scene reader -/

/-- Some component of a field vector is `< 0` or `> 1` exactly when not every component
lies in `[0, 1]`. -/
theorem Vec3.not_inUnitRange_iff (c : Vec3 ℝ) :
    ¬ c.InUnitRange ↔
      (c.c0 < 0 ∨ 1 < c.c0) ∨ (c.c1 < 0 ∨ 1 < c.c1) ∨ (c.c2 < 0 ∨ 1 < c.c2) := by
  unfold Vec3.InUnitRange
  simp only [not_and_or, not_le]

/-- The result of `color_tolerance` is `0` or `1`. -/
theorem color_tolerance_range (v : Vec3 (Dbl ℝ)) :
    color_tolerance v = 0 ∨ color_tolerance v = 1 := by
  unfold color_tolerance
  split_ifs <;> simp

/-- On a finite vector `color_tolerance` returns `1` exactly when every component lies
in `[0, 1]`. -/
theorem color_tolerance_eq_one_iff (c : Vec3 ℝ) :
    color_tolerance (vfin c) = 1 ↔ c.InUnitRange := by
  unfold color_tolerance Vec3.InUnitRange
  simp only [vfin, lt_fin_fin, gt_fin_fin, Bool.or_eq_true, decide_eq_true_eq]
  split_ifs with h0 h1 h2
  · simp only [zero_ne_one, false_iff]
    rcases h0 with h | h
    · exact fun hh => absurd hh.1.1 (not_le.mpr h)
    · exact fun hh => absurd hh.1.2 (not_le.mpr h)
  · simp only [zero_ne_one, false_iff]
    rcases h1 with h | h
    · exact fun hh => absurd hh.2.1.1 (not_le.mpr h)
    · exact fun hh => absurd hh.2.1.2 (not_le.mpr h)
  · simp only [zero_ne_one, false_iff]
    rcases h2 with h | h
    · exact fun hh => absurd hh.2.2.1 (not_le.mpr h)
    · exact fun hh => absurd hh.2.2.2 (not_le.mpr h)
  · simp only [not_or, not_lt] at h0 h1 h2
    simp only [true_iff]
    exact ⟨h0, h1, h2⟩

/-- The branch of `diffuse_color` stops the reader exactly when the object has a type
and `color_tolerance` does not return `1`. -/
theorem json_read_scene_diffuse_color_eq_none (o : Object ℝ) (v : Vec3 (Dbl ℝ)) :
    json_read_scene_diffuse_color o v = none ↔ o.type ≠ none ∧ color_tolerance v ≠ 1 := by
  unfold json_read_scene_diffuse_color
  split_ifs <;> simp_all

/-- The branch of `specular_color` stops the reader exactly when the object has a type
and `color_tolerance` does not return `1`. -/
theorem json_read_scene_specular_color_eq_none (o : Object ℝ) (v : Vec3 (Dbl ℝ)) :
    json_read_scene_specular_color o v = none ↔ o.type ≠ none ∧ color_tolerance v ≠ 1 := by
  unfold json_read_scene_specular_color
  split_ifs <;> simp_all

/-- The branch of `color` stops the reader exactly when the object has a type other than
light and `color_tolerance` does not return `1`. -/
theorem json_read_scene_color_eq_none (o : Object ℝ) (v : Vec3 (Dbl ℝ)) :
    json_read_scene_color o v = none ↔
      o.type ≠ none ∧ o.type ≠ some "light" ∧ color_tolerance v ≠ 1 := by
  unfold json_read_scene_color
  split_ifs <;> simp_all

/-- Claim C32, amended (colour validation at ingestion).  For every object and every
finite parsed colour vector `c`: `color_tolerance` returns `1` exactly when the three
components lie in `[0, 1]` and `0` otherwise; for the keys `diffuse_color` and
`specular_color` and an object whose type is set, the reader stops with the fatal error
exactly when some component of `c` is `< 0` or `> 1`; for the key `color` and an object
whose type is set and is not light, likewise; for the key `color` and a light the reader
never stops and stores `c` as the colour of the light, whatever its components; and for
an object whose type is not set yet the reader stops for none of the three keys and
leaves the object as it was. -/
theorem json_color_validation (o : Object ℝ) (c : Vec3 ℝ) :
    (color_tolerance (vfin c) = 1 ↔ c.InUnitRange)
    ∧ (color_tolerance (vfin c) = 0 ↔ ¬ c.InUnitRange)
    ∧ (o.type ≠ none →
        (json_read_scene_diffuse_color o (vfin c) = none ↔
          (c.c0 < 0 ∨ 1 < c.c0) ∨ (c.c1 < 0 ∨ 1 < c.c1) ∨ (c.c2 < 0 ∨ 1 < c.c2))
        ∧ (json_read_scene_specular_color o (vfin c) = none ↔
          (c.c0 < 0 ∨ 1 < c.c0) ∨ (c.c1 < 0 ∨ 1 < c.c1) ∨ (c.c2 < 0 ∨ 1 < c.c2)))
    ∧ (o.type ≠ none → o.type ≠ some "light" →
        (json_read_scene_color o (vfin c) = none ↔
          (c.c0 < 0 ∨ 1 < c.c0) ∨ (c.c1 < 0 ∨ 1 < c.c1) ∨ (c.c2 < 0 ∨ 1 < c.c2)))
    ∧ (o.type = some "light" →
        json_read_scene_color o (vfin c)
          = some { o with light := { o.light with color := vfin c } })
    ∧ (o.type = none →
        json_read_scene_diffuse_color o (vfin c) = some o
        ∧ json_read_scene_specular_color o (vfin c) = some o
        ∧ json_read_scene_color o (vfin c) = some o) := by
  have hone := color_tolerance_eq_one_iff c
  have hzero : color_tolerance (vfin c) = 0 ↔ ¬ c.InUnitRange := by
    rw [← hone]
    rcases color_tolerance_range (vfin c) with h | h <;> simp [h]
  have hne : color_tolerance (vfin c) ≠ 1 ↔
      (c.c0 < 0 ∨ 1 < c.c0) ∨ (c.c1 < 0 ∨ 1 < c.c1) ∨ (c.c2 < 0 ∨ 1 < c.c2) := by
    rw [← Vec3.not_inUnitRange_iff, ← hone]
  refine ⟨hone, hzero, ?_, ?_, ?_, ?_⟩
  · intro hty
    rw [json_read_scene_diffuse_color_eq_none, json_read_scene_specular_color_eq_none,
      ← hne]
    simp [hty]
  · intro hty hlight
    rw [json_read_scene_color_eq_none, ← hne]
    simp [hty, hlight]
  · intro hlight
    unfold json_read_scene_color
    simp [hlight]
  · intro hty
    unfold json_read_scene_diffuse_color json_read_scene_specular_color
      json_read_scene_color
    simp [hty]

/-- Counterexample to C32 as stated: the light of the spotlight example and the parsed
colour `(2, 2, 2)` for its key `color`.  Every component is `> 1` and `color_tolerance`
returns `0` on the vector, but the reader does not stop: it stores the vector as the
colour of the light. -/
theorem json_read_scene_color_light_unchecked :
    (spot_light_object (K := ℝ)).type = some "light"
    ∧ (1 : ℝ) < (⟨2, 2, 2⟩ : Vec3 ℝ).c0
    ∧ color_tolerance (vfin (⟨2, 2, 2⟩ : Vec3 ℝ)) = 0
    ∧ json_read_scene_color (spot_light_object (K := ℝ)) (vfin ⟨2, 2, 2⟩) ≠ none
    ∧ (json_read_scene_color (spot_light_object (K := ℝ)) (vfin ⟨2, 2, 2⟩)).map
        (fun o => o.light.color) = some (vfin ⟨2, 2, 2⟩) := by
  have hty : (spot_light_object (K := ℝ)).type = some "light" := rfl
  have hcol : color_tolerance (vfin (⟨2, 2, 2⟩ : Vec3 ℝ)) = 0 := by
    rcases color_tolerance_range (vfin (⟨2, 2, 2⟩ : Vec3 ℝ)) with h | h
    · exact h
    · rw [color_tolerance_eq_one_iff] at h
      have := h.1.2
      norm_num at this
  have hread : json_read_scene_color (spot_light_object (K := ℝ)) (vfin ⟨2, 2, 2⟩)
      = some { (spot_light_object (K := ℝ)) with
          light := { (spot_light_object (K := ℝ)).light with color := vfin ⟨2, 2, 2⟩ } } := by
    unfold json_read_scene_color
    simp [hty]
  refine ⟨hty, by norm_num, hcol, ?_, ?_⟩
  · rw [hread]; exact fun h => Option.noConfusion h
  · rw [hread]; rfl

/-! ## A plane with a zero normal -/

/-- The scene with the zero normal has finite plane normals. -/
theorem zero_normal_scene_finite : FiniteNormals (zero_normal_scene (K := ℝ)) := by
  intro o ho _
  simp only [zero_normal_scene, List.mem_cons, List.mem_singleton, List.not_mem_nil,
    or_false] at ho
  rcases ho with rfl | rfl
  · exact ⟨⟨0, 0, 0⟩, rfl⟩
  · exact ⟨⟨0, 0, 0⟩, rfl⟩

/-- The normals of the scene with the zero normal after the normalisation of its
planes: the normal of the plane is three NaN. -/
theorem zero_normal_scene_settle :
    ((zero_normal_scene (K := ℝ)).map (Object.settle Real.sqrt)).map
      (fun o => o.plane.normal) = [vfin ⟨0, 0, 0⟩, ⟨nan, nan, nan⟩] := by
  have h1 : (unit_camera (K := ℝ)).settle Real.sqrt = unit_camera := by
    unfold Object.settle
    rw [if_neg (by decide)]
  have h2 : ((zero_normal_plane (K := ℝ)).settle Real.sqrt).plane.normal
      = ⟨nan, nan, nan⟩ := by
    have hty : (zero_normal_plane (K := ℝ)).type = some "plane" := rfl
    unfold Object.settle
    rw [if_pos hty]
    exact normalize_zero
  simp only [zero_normal_scene, List.map_cons, List.map_nil, h1, h2]
  rfl

/-- Claim C31 (no zero vector reaches `normalize`), evaluated on a failing input.  The
scene with a camera and a plane at `(0,0,5)` whose normal is the zero vector, rendered
into an image of one pixel: the scene has a camera and the image has positive width and
height, the scan of the objects passes the normal of the plane to `normalize` (the
normal that the scan leaves in the object is `normalize` of the one it found), that
vector has length `0`, `normalize` turns it into three NaN, and `raycaster` returns with
the three NaN stored as the normal of the plane. -/
theorem raycaster_normalises_zero_normal :
    (∃ o ∈ zero_normal_scene (K := ℝ), o.type = some "camera")
    ∧ (0 < one_pixel_image.width ∧ 0 < one_pixel_image.height)
    ∧ (∀ ro rd : Vec3 (Dbl ℝ),
        (object_intersection Real.sqrt ro rd (zero_normal_plane (K := ℝ))).2.plane.normal
          = normalize Real.sqrt (zero_normal_plane (K := ℝ)).plane.normal)
    ∧ vector_length Real.sqrt (zero_normal_plane (K := ℝ)).plane.normal = fin 0
    ∧ normalize Real.sqrt (zero_normal_plane (K := ℝ)).plane.normal = ⟨nan, nan, nan⟩
    ∧ ∀ closest_object : Int, ∃ (objects1 : List (Object ℝ)) (image1 : Image),
        raycaster ⟨Real.sqrt, Real.cos, Real.rpow, Real.pi⟩ (zero_normal_scene (K := ℝ))
          one_pixel_image closest_object = some (objects1, image1)
        ∧ objects1.map (fun o => o.plane.normal) = [vfin ⟨0, 0, 0⟩, ⟨nan, nan, nan⟩] := by
  have hcam : ∃ o ∈ (zero_normal_scene (K := ℝ)), o.type = some "camera" :=
    ⟨unit_camera, List.mem_cons_self _ _, rfl⟩
  have hpix : (0 : Int) < one_pixel_image.width ∧ (0 : Int) < one_pixel_image.height := by
    decide
  have hlen : vector_length Real.sqrt (zero_normal_plane (K := ℝ)).plane.normal = fin 0 := by
    show vector_length Real.sqrt (vfin (⟨0, 0, 0⟩ : Vec3 ℝ)) = fin 0
    rw [vector_length_fin]
    norm_num [Vec3.normSq]
  refine ⟨hcam, hpix, ?_, hlen, normalize_zero, ?_⟩
  · intro ro rd
    have hty : (zero_normal_plane (K := ℝ)).type = some "plane" := rfl
    rw [object_intersection_snd]
    unfold Object.settle
    rw [if_pos hty]
  · intro closest_object
    obtain ⟨cam, -, -, hres⟩ := raycaster_scene ⟨Real.sqrt, Real.cos, Real.rpow, Real.pi⟩
      rfl zero_normal_scene zero_normal_scene_finite one_pixel_image closest_object hcam
    rw [if_pos hpix] at hres
    exact ⟨_, _, hres, zero_normal_scene_settle⟩

/-! ## The solvers in the arithmetic of the program -/

/-- Claim C1 (`sphere_intersection`, root selection).  For every ray origin `ro`,
direction `rd`, centre and radius (special values included), with `a`, `b`, `c`, the
discriminant `b^2 - 4ac` and the two roots `t0`, `t1` computed as the program computes
them: the result is `-1` if the discriminant is `< 0`; otherwise it is `t0` if `t0 >= 0`,
else `t1` if `t1 >= 0`, else `-1`.  For the unit sphere centred at `(0,0,10)` and the ray
from the origin along `(0,0,1)` the result is `t0 = 9`; from the centre of the sphere it
is `t1 = 1`; along `(0,0,-1)` it is `-1`. -/
theorem sphere_intersection_root_rule :
    (∀ (sqrt : ℝ → ℝ) (ro rd center : Vec3 (Dbl ℝ)) (radius : Dbl ℝ),
      let a := pow rd.c0 2 + pow rd.c1 2 + pow rd.c2 2
      let b := fin 2 * (rd.c0 * (ro.c0 - center.c0) + rd.c1 * (ro.c1 - center.c1)
        + rd.c2 * (ro.c2 - center.c2))
      let c := pow (ro.c0 - center.c0) 2 + pow (ro.c1 - center.c1) 2
        + pow (ro.c2 - center.c2) 2 - pow radius 2
      let t0 := (fin (-1) * b - Dbl.sqrt sqrt (pow b 2 - fin 4 * a * c)) / (fin 2 * a)
      let t1 := (fin (-1) * b + Dbl.sqrt sqrt (pow b 2 - fin 4 * a * c)) / (fin 2 * a)
      sphere_intersection sqrt ro rd center radius =
        if Dbl.lt (pow b 2 - fin 4 * a * c) (fin 0) then fin (-1)
        else if Dbl.ge t0 (fin 0) then t0
        else if Dbl.ge t1 (fin 0) then t1
        else fin (-1))
    ∧ sphere_intersection Real.sqrt (vfin ⟨0, 0, 0⟩) (vfin ⟨0, 0, 1⟩) (vfin ⟨0, 0, 10⟩)
        (fin 1) = fin 9
    ∧ sphere_intersection Real.sqrt (vfin ⟨0, 0, 10⟩) (vfin ⟨0, 0, 1⟩) (vfin ⟨0, 0, 10⟩)
        (fin 1) = fin 1
    ∧ sphere_intersection Real.sqrt (vfin ⟨0, 0, 0⟩) (vfin ⟨0, 0, -1⟩) (vfin ⟨0, 0, 10⟩)
        (fin 1) = fin (-1) := by
  have h4 : Real.sqrt 4 = 2 := sqrt_four
  refine ⟨fun sqrt ro rd center radius => rfl, ?_, ?_, ?_⟩
  · simp only [sphere_intersection, vfin, pow_fin, fin_add_fin, fin_sub_fin, fin_mul_fin,
      lt_fin_fin, ge_fin_fin]
    norm_num [Dbl.sqrt, h4, fin_div_fin]
  · simp only [sphere_intersection, vfin, pow_fin, fin_add_fin, fin_sub_fin, fin_mul_fin,
      lt_fin_fin, ge_fin_fin]
    norm_num [Dbl.sqrt, h4, fin_div_fin]
  · simp only [sphere_intersection, vfin, pow_fin, fin_add_fin, fin_sub_fin, fin_mul_fin,
      lt_fin_fin, ge_fin_fin]
    norm_num [Dbl.sqrt, h4, fin_div_fin]

/-- Claim C5 (`plane_intersection`, formula).  For every ray `(ro, rd)`, plane position
`pos` and normal (special values included), with `n = normalize(normal)` and the quotient
`t = n.(pos-ro) / n.rd` computed as the program computes them: the function returns `t`
when `t >= 0` and `-1` otherwise, and leaves `n` in the caller's array.  For the plane
through `(0,0,5)` with normal `(0,0,-2)` and the ray from the origin along `(0,0,1)` the
result is `5`; for the plane through `(0,0,-5)` it is `-1`. -/
theorem plane_intersection_rule :
    (∀ (sqrt : ℝ → ℝ) (ro rd pos normal : Vec3 (Dbl ℝ)),
      let n := normalize sqrt normal
      let t := vector_dot_product n (vector_subtract pos ro) / vector_dot_product n rd
      plane_intersection sqrt ro rd pos normal = (if Dbl.ge t (fin 0) then t else fin (-1), n))
    ∧ plane_intersection Real.sqrt (vfin ⟨0, 0, 0⟩) (vfin ⟨0, 0, 1⟩) (vfin ⟨0, 0, 5⟩)
        (vfin ⟨0, 0, -2⟩) = (fin 5, vfin ⟨0, 0, -1⟩)
    ∧ plane_intersection Real.sqrt (vfin ⟨0, 0, 0⟩) (vfin ⟨0, 0, 1⟩) (vfin ⟨0, 0, -5⟩)
        (vfin ⟨0, 0, -2⟩) = (fin (-1), vfin ⟨0, 0, -1⟩) := by
  refine ⟨?_, ?_, ?_⟩
  · intro sqrt ro rd pos normal
    simp only [plane_intersection, vector_dot_product, vector_subtract]
    split_ifs <;> rfl
  · unfold plane_intersection
    rw [normalize_long_normal]
    simp only [vfin, fin_add_fin, fin_sub_fin, fin_mul_fin]
    norm_num [fin_div_fin]
  · unfold plane_intersection
    rw [normalize_long_normal]
    simp only [vfin, fin_add_fin, fin_sub_fin, fin_mul_fin]
    norm_num [fin_div_fin]

/-! ## Radial attenuation in the arithmetic of the program -/

/-- Claim C14 (`frad`).  For every `a0`, `a1`, `a2` and every distance `d` that passes
the test `d < INFINITY` (every finite distance does), `frad` returns the quotient
`1 / (a0 + a1*d + a2*d^2)` computed as the program computes it; for the distance plus
infinity it returns `1`.  For example `frad(1, 0, 0, 9) = 1` and
`frad(0, 0, 1, 2) = 1/4`. -/
theorem frad_rule :
    (∀ a0 a1 a2 d : Dbl ℝ, Dbl.lt d pinf = true →
      frad a0 a1 a2 d = fin 1 / (a0 + (a1 * d) + (a2 * Dbl.pow d 2)))
    ∧ (∀ x : ℝ, Dbl.lt (fin x) pinf = true)
    ∧ (∀ a0 a1 a2 : Dbl ℝ, frad a0 a1 a2 pinf = fin 1)
    ∧ frad (fin 1) (fin 0) (fin 0) (fin (9 : ℝ)) = fin 1
    ∧ frad (fin 0) (fin 0) (fin 1) (fin (2 : ℝ)) = fin (1 / 4) := by
  refine ⟨?_, fun x => rfl, ?_, ?_, ?_⟩
  · intro a0 a1 a2 d hd
    unfold frad
    rw [if_pos hd]
  · intro a0 a1 a2
    unfold frad
    rw [if_neg (by simp [Dbl.lt])]
  · unfold frad
    rw [if_pos (show Dbl.lt (fin _ : Dbl ℝ) pinf = true from rfl)]
    simp only [pow_fin, fin_add_fin, fin_mul_fin]
    norm_num [fin_div_fin]
  · unfold frad
    rw [if_pos (show Dbl.lt (fin _ : Dbl ℝ) pinf = true from rfl)]
    simp only [pow_fin, fin_add_fin, fin_mul_fin]
    norm_num [fin_div_fin]

/-- Claim C15, amended (`frad(1, 0, 0, d)`).  For every finite distance `d` with
`|d| <= 10^150` (so that the square of `d` is finite in double precision),
`frad(1, 0, 0, d) = 1.0`; the result is `1.0` as well for the distance plus infinity and
for a NaN, which both fail the test `d < INFINITY`. -/
theorem frad_one_zero_zero_bounded (d : ℝ) (_hd : |d| ≤ 10 ^ 150) :
    frad (fin 1) (fin 0) (fin 0) (fin d) = fin 1
    ∧ frad (fin 1) (fin 0) (fin 0) (pinf : Dbl ℝ) = fin 1
    ∧ frad (fin 1) (fin 0) (fin 0) (nan : Dbl ℝ) = fin 1 := by
  refine ⟨?_, ?_, ?_⟩
  · unfold frad
    rw [if_pos (show Dbl.lt (fin _ : Dbl ℝ) pinf = true from rfl)]
    simp only [pow_fin, fin_add_fin, fin_mul_fin]
    norm_num [fin_div_fin]
  · unfold frad
    rw [if_neg (by simp [Dbl.lt])]
  · unfold frad
    rw [if_neg (by simp [Dbl.lt])]

/-- Witness for C15: the distance `3`. -/
theorem frad_one_zero_zero_bounded_witness :
    frad (fin 1) (fin 0) (fin 0) (fin (3 : ℝ)) = fin 1
    ∧ frad (fin 1) (fin 0) (fin 0) (pinf : Dbl ℝ) = fin 1
    ∧ frad (fin 1) (fin 0) (fin 0) (nan : Dbl ℝ) = fin 1 :=
  frad_one_zero_zero_bounded 3 (by
    rw [abs_of_nonneg (by norm_num)]
    norm_num)

/-- Counterexample to C15 as stated: the distance minus infinity.  It passes the test
`d < INFINITY`, the product `0 * d` is NaN, and `frad(1, 0, 0, d)` is NaN, not `1.0`. -/
theorem frad_one_zero_zero_ninf :
    Dbl.lt (ninf : Dbl ℝ) pinf = true
    ∧ (fin 0 : Dbl ℝ) * ninf = nan
    ∧ frad (fin 1) (fin 0) (fin 0) (ninf : Dbl ℝ) = nan
    ∧ frad (fin 1) (fin 0) (fin 0) (ninf : Dbl ℝ) ≠ fin 1 := by
  have h0 : (fin 0 : Dbl ℝ) * ninf = nan := by
    show Dbl.mul (fin 0) ninf = nan
    simp [Dbl.mul, infOfSign]
  have h1 : frad (fin 1) (fin 0) (fin 0) (ninf : Dbl ℝ) = nan := by
    unfold frad
    have e1 : (fin 1 : Dbl ℝ) + nan = nan := rfl
    have e2 : ∀ x : Dbl ℝ, nan + x = nan := fun x => by cases x <;> rfl
    have e3 : (fin 1 : Dbl ℝ) / nan = nan := rfl
    rw [if_pos (show Dbl.lt (ninf : Dbl ℝ) pinf = true from rfl), h0, e1, e2, e3]
  refine ⟨rfl, h0, h1, ?_⟩
  rw [h1]
  exact fun h => Dbl.noConfusion h

/-! ## `normalize` in the arithmetic of the program -/

/-- Claim C29, amended (`normalize`).  For every vector `v` (special values included),
`normalize` replaces each component of `v` by its quotient by `length(v)`, the value that
`vector_length` computes for `v`.  For example `(0,0,-2)`, of length `2`, becomes
`(0,0,-1)`. -/
theorem normalize_rule :
    (∀ (sqrt : ℝ → ℝ) (v : Vec3 (Dbl ℝ)),
      normalize sqrt v
        = ⟨v.c0 / vector_length sqrt v, v.c1 / vector_length sqrt v,
            v.c2 / vector_length sqrt v⟩)
    ∧ vector_length Real.sqrt (vfin (⟨0, 0, -2⟩ : Vec3 ℝ)) = fin 2
    ∧ normalize Real.sqrt (vfin (⟨0, 0, -2⟩ : Vec3 ℝ)) = vfin ⟨0, 0, -1⟩ := by
  refine ⟨fun sqrt v => rfl, ?_, normalize_long_normal⟩
  rw [vector_length_fin]
  have h : (⟨0, 0, -2⟩ : Vec3 ℝ).normSq = 4 := by norm_num [Vec3.normSq]
  rw [h, sqrt_four]

/-- Counterexample to C29 as stated: the vector `(+inf, 0, 0)`.  Its length is plus
infinity, which is `> 0`; `normalize` turns it into `(NaN, 0, 0)`, whose length is NaN
and not `1`, and a second `normalize` changes the vector again, into three NaN. -/
theorem normalize_infinite_vector :
    vector_length Real.sqrt (⟨pinf, fin 0, fin 0⟩ : Vec3 (Dbl ℝ)) = pinf
    ∧ Dbl.gt (vector_length Real.sqrt (⟨pinf, fin 0, fin 0⟩ : Vec3 (Dbl ℝ))) (fin 0) = true
    ∧ normalize Real.sqrt (⟨pinf, fin 0, fin 0⟩ : Vec3 (Dbl ℝ)) = ⟨nan, fin 0, fin 0⟩
    ∧ vector_length Real.sqrt (normalize Real.sqrt (⟨pinf, fin 0, fin 0⟩ : Vec3 (Dbl ℝ)))
        = nan
    ∧ vector_length Real.sqrt (normalize Real.sqrt (⟨pinf, fin 0, fin 0⟩ : Vec3 (Dbl ℝ)))
        ≠ fin 1
    ∧ normalize Real.sqrt (normalize Real.sqrt (⟨pinf, fin 0, fin 0⟩ : Vec3 (Dbl ℝ)))
        = ⟨nan, nan, nan⟩
    ∧ normalize Real.sqrt (normalize Real.sqrt (⟨pinf, fin 0, fin 0⟩ : Vec3 (Dbl ℝ)))
        ≠ normalize Real.sqrt (⟨pinf, fin 0, fin 0⟩ : Vec3 (Dbl ℝ)) := by
  have hsum : (Dbl.pow (pinf : Dbl ℝ) 2 + Dbl.pow (fin 0) 2 + Dbl.pow (fin 0) 2) = pinf := by
    show Dbl.add (Dbl.add (Dbl.pow pinf 2) (Dbl.pow (fin 0) 2)) (Dbl.pow (fin 0) 2) = pinf
    simp [Dbl.pow, Dbl.add]
  have hlen : vector_length Real.sqrt (⟨pinf, fin 0, fin 0⟩ : Vec3 (Dbl ℝ)) = pinf := by
    unfold vector_length
    simp only [hsum]
    rfl
  have hn : normalize Real.sqrt (⟨pinf, fin 0, fin 0⟩ : Vec3 (Dbl ℝ)) = ⟨nan, fin 0, fin 0⟩ := by
    unfold normalize
    simp only [hsum]
    show (⟨Dbl.div pinf (Dbl.sqrt Real.sqrt pinf), Dbl.div (fin 0) (Dbl.sqrt Real.sqrt pinf),
      Dbl.div (fin 0) (Dbl.sqrt Real.sqrt pinf)⟩ : Vec3 (Dbl ℝ)) = _
    simp [Dbl.sqrt, Dbl.div]
  have hsum2 : (Dbl.pow (nan : Dbl ℝ) 2 + Dbl.pow (fin 0) 2 + Dbl.pow (fin 0) 2) = nan := by
    show Dbl.add (Dbl.add (Dbl.pow nan 2) (Dbl.pow (fin 0) 2)) (Dbl.pow (fin 0) 2) = nan
    simp [Dbl.pow, Dbl.add]
  have hlen2 : vector_length Real.sqrt (⟨nan, fin 0, fin 0⟩ : Vec3 (Dbl ℝ)) = nan := by
    unfold vector_length
    simp only [hsum2]
    rfl
  have hn2 : normalize Real.sqrt (⟨nan, fin 0, fin 0⟩ : Vec3 (Dbl ℝ)) = ⟨nan, nan, nan⟩ := by
    unfold normalize
    simp only [hsum2]
    show (⟨Dbl.div nan (Dbl.sqrt Real.sqrt nan), Dbl.div (fin 0) (Dbl.sqrt Real.sqrt nan),
      Dbl.div (fin 0) (Dbl.sqrt Real.sqrt nan)⟩ : Vec3 (Dbl ℝ)) = _
    simp [Dbl.sqrt, Dbl.div]
  refine ⟨hlen, ?_, hn, ?_, ?_, ?_, ?_⟩
  · rw [hlen]; rfl
  · rw [hn, hlen2]
  · rw [hn, hlen2]; exact fun h => Dbl.noConfusion h
  · rw [hn, hn2]
  · rw [hn, hn2]
    intro h
    have := congrArg Vec3.c1 h
    exact Dbl.noConfusion this

/-! ## The plane solver on a parallel ray, with the normal turned round -/

/-- Claim C35 (`plane_intersection`, scale of the normal), evaluated on a failing input.
The plane through `(0,1,0)` and the ray from the origin along `(1,0,0)`, which is
parallel to it.  With the normal `(0,1,0)` the quotient is `1/0`, plus infinity, and plus
infinity is returned; with the normal `(0,-1,0)`, the same normal scaled by `-1`, the
quotient is `-1/0`, minus infinity, and `-1` is returned: the two calls differ. -/
theorem plane_intersection_opposite_normals :
    (plane_intersection Real.sqrt (vfin ⟨0, 0, 0⟩) (vfin ⟨1, 0, 0⟩) (vfin ⟨0, 1, 0⟩)
        (vfin (⟨0, 1, 0⟩ : Vec3 ℝ))).1 = pinf
    ∧ (plane_intersection Real.sqrt (vfin ⟨0, 0, 0⟩) (vfin ⟨1, 0, 0⟩) (vfin ⟨0, 1, 0⟩)
        (vfin (⟨0, -1, 0⟩ : Vec3 ℝ))).1 = fin (-1)
    ∧ (plane_intersection Real.sqrt (vfin ⟨0, 0, 0⟩) (vfin ⟨1, 0, 0⟩) (vfin ⟨0, 1, 0⟩)
        (vfin (⟨0, -1, 0⟩ : Vec3 ℝ))).1
      ≠ (plane_intersection Real.sqrt (vfin ⟨0, 0, 0⟩) (vfin ⟨1, 0, 0⟩) (vfin ⟨0, 1, 0⟩)
        (vfin (⟨0, 1, 0⟩ : Vec3 ℝ))).1 := by
  have hn : (⟨0, 1, 0⟩ : Vec3 ℝ).Nonzero := Or.inr (Or.inl one_ne_zero)
  have hn2 : (⟨0, -1, 0⟩ : Vec3 ℝ).Nonzero := Or.inr (Or.inl (by norm_num))
  have hs : Real.sqrt (⟨0, 1, 0⟩ : Vec3 ℝ).normSq = 1 := by
    have h1 : (⟨0, 1, 0⟩ : Vec3 ℝ).normSq = 1 := by norm_num [Vec3.normSq]
    rw [h1, Real.sqrt_one]
  have hs2 : Real.sqrt (⟨0, -1, 0⟩ : Vec3 ℝ).normSq = 1 := by
    have h1 : (⟨0, -1, 0⟩ : Vec3 ℝ).normSq = 1 := by norm_num [Vec3.normSq]
    rw [h1, Real.sqrt_one]
  have hval : (plane_intersection Real.sqrt (vfin ⟨0, 0, 0⟩) (vfin ⟨1, 0, 0⟩)
      (vfin ⟨0, 1, 0⟩) (vfin (⟨0, 1, 0⟩ : Vec3 ℝ))).1 = pinf := by
    rw [plane_intersection_fin _ _ _ _ hn, hs]
    norm_num [Vec3.sdiv, Vec3.dot, Vec3.sub, fin_div_fin, infOfSign, Dbl.ge, Dbl.le]
  have hval2 : (plane_intersection Real.sqrt (vfin ⟨0, 0, 0⟩) (vfin ⟨1, 0, 0⟩)
      (vfin ⟨0, 1, 0⟩) (vfin (⟨0, -1, 0⟩ : Vec3 ℝ))).1 = fin (-1) := by
    rw [plane_intersection_fin _ _ _ _ hn2, hs2]
    norm_num [Vec3.sdiv, Vec3.dot, Vec3.sub, fin_div_fin, infOfSign, Dbl.ge, Dbl.le]
  refine ⟨hval, hval2, ?_⟩
  rw [hval, hval2]
  exact fun h => Dbl.noConfusion h

/-! ## The primary ray in the arithmetic of the program -/

/-- Claim C38, amended (primary ray).  For every finite camera width `w` and height `h`,
every image size `W x H` with `W > 0` and `H > 0` and every pixel `(row, column)`: the
third component of the vector `(px, py, 1)` that `raycaster` builds is exactly `1`, the
length of that vector passes the test `length >= 1`, the third component of the
normalised direction is the quotient `1 / length`, and it passes the test `> 0` when the
length is below plus infinity. -/
theorem primary_ray_length (w h : ℝ) (W H : Int) (hW : 0 < W) (hH : 0 < H)
    (row column : Nat) :
    (view_vector (fin w) (fin h) (fin w / fin (W : ℝ)) (fin h / fin (H : ℝ)) row column).c2
      = fin 1
    ∧ Dbl.ge (vector_length Real.sqrt (view_vector (fin w) (fin h) (fin w / fin (W : ℝ))
        (fin h / fin (H : ℝ)) row column)) (fin 1) = true
    ∧ (normalize Real.sqrt (view_vector (fin w) (fin h) (fin w / fin (W : ℝ))
        (fin h / fin (H : ℝ)) row column)).c2
      = fin 1 / vector_length Real.sqrt (view_vector (fin w) (fin h) (fin w / fin (W : ℝ))
        (fin h / fin (H : ℝ)) row column)
    ∧ (Dbl.lt (vector_length Real.sqrt (view_vector (fin w) (fin h) (fin w / fin (W : ℝ))
        (fin h / fin (H : ℝ)) row column)) pinf = true →
      Dbl.gt (normalize Real.sqrt (view_vector (fin w) (fin h) (fin w / fin (W : ℝ))
        (fin h / fin (H : ℝ)) row column)).c2 (fin 0) = true) := by
  have hv := view_vector_fin w h W H hW hH row column
  obtain ⟨h1, -, h3, -⟩ := unit_ray_of_view
    ⟨-w / 2 + (w / (W : ℝ)) * ((column : ℝ) + 1 / 2),
      -(-h / 2 + (h / (H : ℝ)) * ((row : ℝ) + 1 / 2)), 1⟩ rfl
  rw [hv]
  refine ⟨rfl, ?_, rfl, ?_⟩
  · rw [vector_length_fin]
    simp only [ge_fin_fin, decide_eq_true_eq]
    rw [Real.one_le_sqrt]
    simp only [Vec3.normSq]
    nlinarith [sq_nonneg (-w / 2 + (w / (W : ℝ)) * ((column : ℝ) + 1 / 2)),
      sq_nonneg (-(-h / 2 + (h / (H : ℝ)) * ((row : ℝ) + 1 / 2)))]
  · intro _
    rw [h1]
    simp only [vfin, gt_fin_fin, decide_eq_true_eq]
    exact h3

/-- Witness for C38: the camera of width and height `1` and the pixel `(3, 4)` of an
image of `10 x 10` pixels. -/
theorem primary_ray_length_witness :
    (view_vector (fin (1 : ℝ)) (fin 1) (fin 1 / fin ((10 : Int) : ℝ))
      (fin 1 / fin ((10 : Int) : ℝ)) 3 4).c2 = fin 1
    ∧ Dbl.ge (vector_length Real.sqrt (view_vector (fin (1 : ℝ)) (fin 1)
        (fin 1 / fin ((10 : Int) : ℝ)) (fin 1 / fin ((10 : Int) : ℝ)) 3 4)) (fin 1) = true
    ∧ (normalize Real.sqrt (view_vector (fin (1 : ℝ)) (fin 1)
        (fin 1 / fin ((10 : Int) : ℝ)) (fin 1 / fin ((10 : Int) : ℝ)) 3 4)).c2
      = fin 1 / vector_length Real.sqrt (view_vector (fin (1 : ℝ)) (fin 1)
        (fin 1 / fin ((10 : Int) : ℝ)) (fin 1 / fin ((10 : Int) : ℝ)) 3 4)
    ∧ (Dbl.lt (vector_length Real.sqrt (view_vector (fin (1 : ℝ)) (fin 1)
        (fin 1 / fin ((10 : Int) : ℝ)) (fin 1 / fin ((10 : Int) : ℝ)) 3 4)) pinf = true →
      Dbl.gt (normalize Real.sqrt (view_vector (fin (1 : ℝ)) (fin 1)
        (fin 1 / fin ((10 : Int) : ℝ)) (fin 1 / fin ((10 : Int) : ℝ)) 3 4)).c2 (fin 0)
        = true) :=
  primary_ray_length 1 1 10 10 (by decide) (by decide) 3 4

/-- Counterexample to C38 as stated: a camera of width plus infinity and height `1`, and
the pixel of an image of one pixel.  The pixel width is plus infinity, the first
component of the vector of the pixel is `-inf + inf`, a NaN; the length of the vector is
NaN, which fails the test `length >= 1`, and the third component of the normalised
direction is NaN, which fails the test `> 0`. -/
theorem primary_ray_infinite_camera :
    view_vector (pinf : Dbl ℝ) (fin 1) (pinf / fin ((1 : Int) : ℝ))
      (fin 1 / fin ((1 : Int) : ℝ)) 0 0 = ⟨nan, fin 0, fin 1⟩
    ∧ vector_length Real.sqrt (view_vector (pinf : Dbl ℝ) (fin 1) (pinf / fin ((1 : Int) : ℝ))
      (fin 1 / fin ((1 : Int) : ℝ)) 0 0) = nan
    ∧ Dbl.ge (vector_length Real.sqrt (view_vector (pinf : Dbl ℝ) (fin 1)
      (pinf / fin ((1 : Int) : ℝ)) (fin 1 / fin ((1 : Int) : ℝ)) 0 0)) (fin 1) = false
    ∧ (normalize Real.sqrt (view_vector (pinf : Dbl ℝ) (fin 1) (pinf / fin ((1 : Int) : ℝ))
      (fin 1 / fin ((1 : Int) : ℝ)) 0 0)).c2 = nan
    ∧ Dbl.gt (normalize Real.sqrt (view_vector (pinf : Dbl ℝ) (fin 1)
      (pinf / fin ((1 : Int) : ℝ)) (fin 1 / fin ((1 : Int) : ℝ)) 0 0)).c2 (fin 0) = false := by
  have hx : (fin 0 - (pinf / fin 2) + (pinf / fin ((1 : Int) : ℝ)) * fin (((0 : Nat) : ℝ) + 1 / 2)
      : Dbl ℝ) = nan := by
    show Dbl.add (Dbl.sub (fin 0) (Dbl.div pinf (fin 2)))
      (Dbl.mul (Dbl.div pinf (fin ((1 : Int) : ℝ))) (fin (((0 : Nat) : ℝ) + 1 / 2))) = nan
    norm_num [Dbl.add, Dbl.sub, Dbl.div, Dbl.mul, Dbl.neg, infOfSign]
  have hy : (fin (-1) * (fin 0 - (fin 1 / fin 2)
      + (fin 1 / fin ((1 : Int) : ℝ)) * fin (((0 : Nat) : ℝ) + 1 / 2)) : Dbl ℝ) = fin 0 := by
    rw [fin_div_fin_of_ne _ (by norm_num), fin_div_fin_of_ne _ (by norm_num)]
    simp only [fin_sub_fin, fin_mul_fin, fin_add_fin]
    norm_num
  have hv : view_vector (pinf : Dbl ℝ) (fin 1) (pinf / fin ((1 : Int) : ℝ))
      (fin 1 / fin ((1 : Int) : ℝ)) 0 0 = ⟨nan, fin 0, fin 1⟩ := by
    unfold view_vector
    rw [hx, hy]
  have hsum : (Dbl.pow (nan : Dbl ℝ) 2 + Dbl.pow (fin 0) 2 + Dbl.pow (fin 1) 2) = nan := by
    show Dbl.add (Dbl.add (Dbl.pow nan 2) (Dbl.pow (fin 0) 2)) (Dbl.pow (fin 1) 2) = nan
    simp [Dbl.pow, Dbl.add]
  have hlen : vector_length Real.sqrt (⟨nan, fin 0, fin 1⟩ : Vec3 (Dbl ℝ)) = nan := by
    unfold vector_length
    simp only [hsum]
    rfl
  have hz : (normalize Real.sqrt (⟨nan, fin 0, fin 1⟩ : Vec3 (Dbl ℝ))).c2 = nan := by
    unfold normalize
    simp only [hsum]
    rfl
  rw [hv]
  refine ⟨rfl, hlen, ?_, hz, ?_⟩
  · rw [hlen]; rfl
  · rw [hz]; rfl

/-! ## Quantisation in the arithmetic of the program -/

/-- The light iteration for a light that the shadow test finds unoccluded, seen from a
point on a sphere or a plane: no assumption on the values. -/
theorem light_iteration_lit (m : Libm ℝ) (objects : List (Object ℝ))
    (rd new_ro : Vec3 (Dbl ℝ)) (k : Nat) (ok : Object ℝ) (light : Light ℝ)
    (pixel_coloring : Vec3 (Dbl ℝ)) (hk : objects[k]? = some ok)
    (htype : ok.type = some "sphere" ∨ ok.type = some "plane")
    (hun : Dbl.eq (shadow_best m.sqrt new_ro (k : Int) objects light) pinf = true) :
    let L := normalize m.sqrt (normalize m.sqrt (vector_subtract light.position new_ro))
    let N := normalize m.sqrt
      (if ok.type = some "sphere" then vector_subtract new_ro ok.sphere.position
        else ok.plane.normal)
    let R := vector_reflection L N
    let diffuse_color :=
      if ok.type = some "sphere" then ok.sphere.diffuse_color else ok.plane.diffuse_color
    let specular_color :=
      if ok.type = some "sphere" then ok.sphere.specular_color else ok.plane.specular_color
    let diffuse := diffuse_reflection N L light.color diffuse_color
    let specular := specular_highlight N L R rd specular_color light.color
    let fang_out := fang m light.radial_a0 light.theta light.direction L
    let frad_out := frad light.radial_a0 light.radial_a1 light.radial_a2
      (vector_length m.sqrt (vector_subtract light.position new_ro))
    (light_iteration m rd new_ro (k : Int) light (objects, pixel_coloring)).2 =
      ⟨fang_out * frad_out * (diffuse.c0 + specular.c0),
       fang_out * frad_out * (diffuse.c1 + specular.c1),
       fang_out * frad_out * (diffuse.c2 + specular.c2)⟩ := by
  intro L N R diffuse_color specular_color diffuse specular fang_out frad_out
  have hobj : (shadow_scan m.sqrt new_ro
      (normalize m.sqrt (vector_subtract light.position new_ro))
      (vector_length m.sqrt (vector_subtract light.position new_ro)) (k : Int) 0
      objects pinf).1[((k : Int)).toNat]? = some ok := by
    rw [Int.toNat_natCast, shadow_scan_fst_closest _ _ _ _ _ _ 0 pinf k (by simp), hk]
  unfold shadow_best at hun
  unfold light_iteration
  simp only []
  rw [if_pos hun]
  simp only [surface_at, hobj]
  rcases htype with hs | hp
  · simp only [hs, ne_eq, reduceCtorEq, not_false_eq_true, if_true]
    have e1 : N = normalize m.sqrt (vector_subtract new_ro ok.sphere.position) := by
      show normalize m.sqrt (if ok.type = some "sphere" then _ else _) = _
      rw [if_pos hs]
    have e2 : diffuse_color = ok.sphere.diffuse_color := if_pos hs
    have e3 : specular_color = ok.sphere.specular_color := if_pos hs
    simp only [fang_out, frad_out, diffuse, specular, R, L, e1, e2, e3]
  · have hns : ¬ (ok.type = some "sphere") := by rw [hp]; decide
    simp only [hp, ne_eq, reduceCtorEq, not_false_eq_true, if_true]
    simp only [show ¬ ((some "plane" : Option String) = some "sphere") by decide, if_false]
    have e1 : N = normalize m.sqrt ok.plane.normal := by
      show normalize m.sqrt (if ok.type = some "sphere" then _ else _) = _
      rw [if_neg hns]
    have e2 : diffuse_color = ok.plane.diffuse_color := if_neg hns
    have e3 : specular_color = ok.plane.specular_color := if_neg hns
    simp only [fang_out, frad_out, diffuse, specular, R, L, e1, e2, e3]

/-- Claim C18 (single-light contribution).  For a hit point `P` on the primitive `k` (a
sphere or a plane) and a light that the shadow test finds unoccluded, the light iteration
sets the working colour of the pixel, per channel, to `fang * frad * (diffuse + specular)`,
every operation being the one that the program performs: the light vector `L` is
`normalize(light.position - P)`, which the program passes through `normalize` a second
time before the shading; `V = rd` is the view vector;
`N = normalize(P - sphere.position)` for a sphere and the normalised plane normal for a
plane; `R = reflect(L, N)`; the surface colours are the `diffuse_color` and
`specular_color` of `k`; `frad` is evaluated at the distance `|light.position - P|` that
`vector_length` computes; `fang` receives the light's `radial_a0`, `theta` and
`direction`. -/
theorem light_contribution_rule (m : Libm ℝ) (objects : List (Object ℝ))
    (rd P : Vec3 (Dbl ℝ)) (k : Nat) (ok : Object ℝ) (light : Light ℝ)
    (pixel_coloring : Vec3 (Dbl ℝ)) (hk : objects[k]? = some ok)
    (htype : ok.type = some "sphere" ∨ ok.type = some "plane")
    (hun : Dbl.eq (shadow_best m.sqrt P (k : Int) objects light) pinf = true) :
    let L := normalize m.sqrt (normalize m.sqrt (vector_subtract light.position P))
    let N := normalize m.sqrt
      (if ok.type = some "sphere" then vector_subtract P ok.sphere.position
        else ok.plane.normal)
    let R := vector_reflection L N
    let diffuse_color :=
      if ok.type = some "sphere" then ok.sphere.diffuse_color else ok.plane.diffuse_color
    let specular_color :=
      if ok.type = some "sphere" then ok.sphere.specular_color else ok.plane.specular_color
    let diffuse := diffuse_reflection N L light.color diffuse_color
    let specular := specular_highlight N L R rd specular_color light.color
    let fang_out := fang m light.radial_a0 light.theta light.direction L
    let frad_out := frad light.radial_a0 light.radial_a1 light.radial_a2
      (vector_length m.sqrt (vector_subtract light.position P))
    (light_iteration m rd P (k : Int) light (objects, pixel_coloring)).2 =
      ⟨fang_out * frad_out * (diffuse.c0 + specular.c0),
       fang_out * frad_out * (diffuse.c1 + specular.c1),
       fang_out * frad_out * (diffuse.c2 + specular.c2)⟩ :=
  light_iteration_lit m objects rd P k ok light pixel_coloring hk htype hun

/-- Witness of C18: the spotlight example, hit point `(0,0,9)` on the sphere (index 1),
view vector `(0,0,1)`; the working colour is `(1/4, 0, 0)`. -/
theorem light_contribution_rule_witness :
    (spot_scene (K := ℝ))[1]? = some spot_sphere
    ∧ ((spot_sphere (K := ℝ)).type = some "sphere"
      ∨ (spot_sphere (K := ℝ)).type = some "plane")
    ∧ Dbl.eq (shadow_best Real.sqrt (vfin (⟨0, 0, 9⟩ : Vec3 ℝ)) 1 spot_scene spot_light) pinf
      = true
    ∧ (light_iteration ⟨Real.sqrt, Real.cos, Real.rpow, Real.pi⟩ (vfin ⟨0, 0, 1⟩)
      (vfin ⟨0, 0, 9⟩) 1 spot_light (spot_scene, ⟨fin 7, fin 7, fin 7⟩)).2
        = vfin (⟨1 / 4, 0, 0⟩ : Vec3 ℝ) := by
  refine ⟨rfl, Or.inl rfl, spot_unoccluded, ?_⟩
  have h := light_contribution_rule ⟨Real.sqrt, Real.cos, Real.rpow, Real.pi⟩
    spot_scene (vfin ⟨0, 0, 1⟩) (vfin ⟨0, 0, 9⟩) 1 spot_sphere spot_light
    ⟨fin 7, fin 7, fin 7⟩ rfl (Or.inl rfl) spot_unoccluded
  have h0 := light_iteration_lit ⟨Real.sqrt, Real.cos, Real.rpow, Real.pi⟩
    spot_scene (vfin ⟨0, 0, 1⟩) (vfin ⟨0, 0, 9⟩) 1 spot_sphere spot_light
    ⟨fin 0, fin 0, fin 0⟩ rfl (Or.inl rfl) spot_unoccluded
  exact h.trans (h0.symm.trans (spot_colour _))

/-! ## Primary visibility, with the distances of the solvers -/

section Visibility

variable {K : Type} [LinearOrderedField K]

/-- The distance that the scans compare for a sphere is the result of
`sphere_intersection`. -/
theorem hit_distance_sphere (sqrt : K → K) (ro rd : Vec3 (Dbl K)) (o : Object K)
    (h : o.type = some "sphere") :
    hit_distance sqrt ro rd o
      = sphere_intersection sqrt ro rd o.sphere.position o.sphere.radius := by
  simp [hit_distance, object_intersection, h]

/-- The distance that the scans compare for a plane is the result of
`plane_intersection`. -/
theorem hit_distance_plane (sqrt : K → K) (ro rd : Vec3 (Dbl K)) (o : Object K)
    (h : o.type = some "plane") :
    hit_distance sqrt ro rd o
      = (plane_intersection sqrt ro rd o.plane.position o.plane.normal).1 := by
  have hns : ¬ ((some "plane" : Option String) = some "sphere") := by decide
  simp [hit_distance, object_intersection, h, hns]

/-- The distance that the scans compare for an object that is neither a sphere nor a
plane is the initial `0`. -/
theorem hit_distance_other (sqrt : K → K) (ro rd : Vec3 (Dbl K)) (o : Object K)
    (hs : o.type ≠ some "sphere") (hp : o.type ≠ some "plane") :
    hit_distance sqrt ro rd o = fin 0 := by
  simp [hit_distance, object_intersection, hs, hp]

/-- Claim C16, amended (primary visibility).  For every scene and every ray, the distance
`d` of an object in the object intersection loop is the result of `sphere_intersection`
for a sphere, of `plane_intersection` for a plane, and the initial `0` for every other
object.  After the loop (started with `best_distance = INFINITY`): either no object has a
distance with `0 < d < INFINITY`, `best_distance` is still plus infinity and
`closest_object` keeps the value it had; or `closest_object` is an index `k` of a sphere or
a plane, `best_distance` is the distance of that object, it satisfies
`0 < d < INFINITY`, it is at most every strictly positive distance of the scene, and no
object before `k` has the same distance.  A camera or a light is never selected. -/
theorem primary_scan_visibility (sqrt : K → K) (ro rd : Vec3 (Dbl K))
    (objects : List (Object K)) (closest_object : Int) :
    (∀ o : Object K, o.type = some "sphere" →
      hit_distance sqrt ro rd o
        = sphere_intersection sqrt ro rd o.sphere.position o.sphere.radius)
    ∧ (∀ o : Object K, o.type = some "plane" →
      hit_distance sqrt ro rd o
        = (plane_intersection sqrt ro rd o.plane.position o.plane.normal).1)
    ∧ (∀ o : Object K, o.type ≠ some "sphere" → o.type ≠ some "plane" →
      hit_distance sqrt ro rd o = fin 0)
    ∧ (((primary_scan sqrt ro rd 0 objects pinf closest_object).2 = (pinf, closest_object) ∧
      ∀ (j : Nat) (o : Object K), objects[j]? = some o →
        ¬ (Dbl.gt (hit_distance sqrt ro rd o) (fin 0) = true
          ∧ Dbl.lt (hit_distance sqrt ro rd o) pinf = true))
    ∨ ∃ (k : Nat) (ok : Object K), objects[k]? = some ok ∧
        (primary_scan sqrt ro rd 0 objects pinf closest_object).2
          = (hit_distance sqrt ro rd ok, (k : Int)) ∧
        (ok.type = some "sphere" ∨ ok.type = some "plane") ∧
        Dbl.gt (hit_distance sqrt ro rd ok) (fin 0) = true ∧
        Dbl.lt (hit_distance sqrt ro rd ok) pinf = true ∧
        (∀ (j : Nat) (o : Object K), objects[j]? = some o →
          Dbl.gt (hit_distance sqrt ro rd o) (fin 0) = true →
          Dbl.le (hit_distance sqrt ro rd ok) (hit_distance sqrt ro rd o) = true) ∧
        (∀ (j : Nat) (o : Object K), j < k → objects[j]? = some o →
          hit_distance sqrt ro rd o ≠ hit_distance sqrt ro rd ok)) := by
  refine ⟨hit_distance_sphere sqrt ro rd, hit_distance_plane sqrt ro rd,
    hit_distance_other sqrt ro rd, ?_⟩
  rcases primary_scan_spec sqrt ro rd objects 0 pinf closest_object with
    h | ⟨k, ok, hk, heq, hgtk, hltk, hmin, hfirst⟩
  · exact Or.inl h
  · right
    refine ⟨k, ok, hk, ?_, hit_distance_pos_type sqrt ro rd ok hgtk, hgtk, hltk, ?_, ?_⟩
    · rw [heq, Nat.zero_add]
    · intro j o hj hg
      by_cases hl : Dbl.lt (hit_distance sqrt ro rd o) pinf = true
      · exact hmin j o hj hg hl
      · have hle : Dbl.le pinf (hit_distance sqrt ro rd o) = true :=
          Dbl.cle_of_not_clt (Dbl.ne_nan_of_gt hg) (fun h => Dbl.noConfusion h)
            (by simpa using hl)
        exact Dbl.cle_trans (Dbl.cle_of_clt hltk) hle
    · intro j o hjk hj heqd
      have hlt := hfirst j o hjk hj (heqd ▸ hgtk) (heqd ▸ hltk)
      rw [heqd, Dbl.clt_irrefl] at hlt
      exact Bool.false_ne_true hlt

end Visibility

/-- Witness for C16: in the spotlight example, from the stale value `7` of
`closest_object`, the loop selects the sphere, index `1`, at the distance `9` that
`sphere_intersection` returns. -/
theorem primary_scan_visibility_witness :
    sphere_intersection Real.sqrt (vfin (⟨0, 0, 0⟩ : Vec3 ℝ)) (vfin ⟨0, 0, 1⟩)
      (spot_sphere (K := ℝ)).sphere.position (spot_sphere (K := ℝ)).sphere.radius = fin 9
    ∧ (primary_scan Real.sqrt (vfin (⟨0, 0, 0⟩ : Vec3 ℝ)) (vfin ⟨0, 0, 1⟩) 0
      spot_scene pinf 7).2 = (fin 9, 1) := by
  have hd : sphere_intersection Real.sqrt (vfin (⟨0, 0, 0⟩ : Vec3 ℝ)) (vfin ⟨0, 0, 1⟩)
      (spot_sphere (K := ℝ)).sphere.position (spot_sphere (K := ℝ)).sphere.radius = fin 9 :=
    spot_sphere_distance
  refine ⟨hd, ?_⟩
  obtain ⟨hs, -, -, hcase⟩ := primary_scan_visibility Real.sqrt
    (vfin (⟨0, 0, 0⟩ : Vec3 ℝ)) (vfin ⟨0, 0, 1⟩) (spot_scene (K := ℝ)) 7
  have hsph : hit_distance Real.sqrt (vfin (⟨0, 0, 0⟩ : Vec3 ℝ)) (vfin ⟨0, 0, 1⟩)
      (spot_sphere (K := ℝ)) = fin 9 := (hs spot_sphere rfl).trans hd
  rcases hcase with ⟨-, hnone⟩ | ⟨k, ok, hk, heq, htype, -⟩
  · exfalso
    apply hnone 1 spot_sphere rfl
    rw [hsph]
    exact ⟨by simp, rfl⟩
  · match k, hk with
    | 0, hk =>
      simp only [spot_scene, List.getElem?_cons_zero, Option.some.injEq] at hk
      subst hk
      rcases htype with h | h <;> simp [unit_camera, Object.zero] at h
    | 1, hk =>
      simp only [spot_scene, List.getElem?_cons_succ, List.getElem?_cons_zero,
        Option.some.injEq] at hk
      subst hk
      rw [heq, hsph]
      rfl
    | 2, hk =>
      simp only [spot_scene, List.getElem?_cons_succ, List.getElem?_cons_zero,
        Option.some.injEq] at hk
      subst hk
      rcases htype with h | h <;> simp [spot_light_object, Object.zero] at h
    | (n + 3), hk => simp [spot_scene] at hk

/-- Counterexample to C16 as stated: the scene with a camera and the plane through
`(0,1,0)` of normal `(0,1,0)`, and the ray from the origin along `(0,0,1)`, which is
parallel to the plane.  The distance of the plane is plus infinity, which is strictly
positive and is the minimum of the strictly positive distances of the scene; but the loop
does not select the plane: `closest_object` keeps its stale value `7`, which is not the
index `1` of the plane and is the index of no object. -/
theorem primary_scan_parallel_plane :
    (parallel_scene (K := ℝ))[1]? = some parallel_plane
    ∧ (parallel_plane (K := ℝ)).type = some "plane"
    ∧ (plane_intersection Real.sqrt (vfin (⟨0, 0, 0⟩ : Vec3 ℝ)) (vfin ⟨0, 0, 1⟩)
        (parallel_plane (K := ℝ)).plane.position (parallel_plane (K := ℝ)).plane.normal).1
      = pinf
    ∧ Dbl.gt (pinf : Dbl ℝ) (fin 0) = true
    ∧ (primary_scan Real.sqrt (vfin (⟨0, 0, 0⟩ : Vec3 ℝ)) (vfin ⟨0, 0, 1⟩) 0
        parallel_scene pinf 7).2 = (pinf, 7)
    ∧ (parallel_scene (K := ℝ))[7]? = none := by
  have hn : (⟨0, 1, 0⟩ : Vec3 ℝ).Nonzero := Or.inr (Or.inl one_ne_zero)
  have hs : Real.sqrt (⟨0, 1, 0⟩ : Vec3 ℝ).normSq = 1 := by
    have h1 : (⟨0, 1, 0⟩ : Vec3 ℝ).normSq = 1 := by norm_num [Vec3.normSq]
    rw [h1, Real.sqrt_one]
  have hval : (plane_intersection Real.sqrt (vfin (⟨0, 0, 0⟩ : Vec3 ℝ)) (vfin ⟨0, 0, 1⟩)
      (vfin ⟨0, 1, 0⟩) (vfin (⟨0, 1, 0⟩ : Vec3 ℝ))).1 = pinf := by
    rw [plane_intersection_fin _ _ _ _ hn, hs]
    norm_num [Vec3.sdiv, Vec3.dot, Vec3.sub, fin_div_fin, infOfSign, Dbl.ge, Dbl.le]
  have hd1 : hit_distance Real.sqrt (vfin (⟨0, 0, 0⟩ : Vec3 ℝ)) (vfin ⟨0, 0, 1⟩)
      (parallel_plane (K := ℝ)) = pinf :=
    (hit_distance_plane Real.sqrt _ _ parallel_plane rfl).trans hval
  refine ⟨rfl, rfl, hval, rfl, ?_, rfl⟩
  rcases primary_scan_spec Real.sqrt (vfin (⟨0, 0, 0⟩ : Vec3 ℝ)) (vfin ⟨0, 0, 1⟩)
      (parallel_scene (K := ℝ)) 0 pinf 7 with ⟨heq, -⟩ | ⟨k, ok, hk, -, hgt, hlt, -⟩
  · exact heq
  · exfalso
    match k, hk with
    | 0, hk =>
      simp only [parallel_scene, List.getElem?_cons_zero, Option.some.injEq] at hk
      subst hk
      rw [hit_distance_unit_camera] at hgt
      simp at hgt
    | 1, hk =>
      simp only [parallel_scene, List.getElem?_cons_succ, List.getElem?_cons_zero,
        Option.some.injEq] at hk
      subst hk
      rw [hd1] at hlt
      simp [Dbl.lt] at hlt
    | (n + 2), hk => simp [parallel_scene] at hk

/-! ## The camera of a scene in which every object has a type -/

/-- Claim C24 (`get_camera`), on the lists in which every object has a type.  For every
such list of objects (its length is `num_objects`): the result is `-1` exactly when no
object has type camera; otherwise it is the index of an object of type camera before
which no object has type camera, and it is the only such index; and, for an image whose
buffer has `width * height` entries, a number representable in `int`, `raycaster` renders
with the width and the height of that first camera. -/
theorem get_camera_first_typed (m : Libm ℝ) (objects : List (Object ℝ))
    (_htyped : Typed objects) :
    (get_camera objects = -1 ↔ ∀ o ∈ objects, o.type ≠ some "camera")
    ∧ (get_camera objects = -1
      ∨ ∃ (i : Nat) (cam : Object ℝ), get_camera objects = (i : Int)
          ∧ i < objects.length ∧ objects[i]? = some cam ∧ cam.type = some "camera"
          ∧ ∀ (j : Nat) (o : Object ℝ), j < i → objects[j]? = some o →
              o.type ≠ some "camera")
    ∧ ∀ (i : Nat) (cam : Object ℝ), objects[i]? = some cam → cam.type = some "camera" →
        (∀ (j : Nat) (o : Object ℝ), j < i → objects[j]? = some o →
          o.type ≠ some "camera") →
        get_camera objects = (i : Int)
        ∧ ∀ (image : Image) (closest_object : Int), image.Sized →
          raycaster m objects image closest_object =
            some ((pixel_loops m cam.camera.width cam.camera.height objects image
                closest_object).1,
              (pixel_loops m cam.camera.width cam.camera.height objects image
                closest_object).2.1) := by
  refine ⟨get_camera_eq_neg_one_iff objects, ?_, ?_⟩
  · rcases get_camera_spec objects with ⟨h1, -⟩ | ⟨i, cam, h1, h2, h3, h4⟩
    · exact Or.inl h1
    · right
      refine ⟨i, cam, h1, ?_, h2, h3, h4⟩
      by_contra hge
      rw [List.getElem?_eq_none (not_lt.mp hge)] at h2
      exact absurd h2 (by simp)
  · intro i cam hi hcam hfirst
    have hidx := get_camera_of_first objects i cam hi hcam hfirst
    exact ⟨hidx, fun image closest_object _ =>
      raycaster_of_camera m objects image closest_object i cam hidx hi⟩

/-- Every object of the scene of the spotlight example has a type. -/
theorem spot_scene_typed : Typed (spot_scene (K := ℝ)) := by
  intro o ho
  simp only [spot_scene, List.mem_cons, List.mem_singleton, List.not_mem_nil, or_false]
    at ho
  rcases ho with rfl | rfl | rfl <;> simp [unit_camera, spot_sphere, spot_light_object]

/-- The image of one pixel has a buffer of one entry. -/
theorem one_pixel_image_sized : one_pixel_image.Sized := by
  constructor <;> decide

/-- Witness of C24: in the scene of the spotlight example, in which every object has a
type, the camera is the object `0`. -/
theorem get_camera_first_typed_witness :
    Typed (spot_scene (K := ℝ))
    ∧ (spot_scene (K := ℝ))[0]? = some unit_camera
    ∧ (unit_camera (K := ℝ)).type = some "camera"
    ∧ get_camera (spot_scene (K := ℝ)) = ((0 : Nat) : Int) := by
  refine ⟨spot_scene_typed, rfl, rfl, ?_⟩
  exact ((get_camera_first_typed ⟨Real.sqrt, Real.cos, Real.rpow, Real.pi⟩
    (spot_scene (K := ℝ)) spot_scene_typed).2.2 0 unit_camera rfl rfl
    (fun j o hj => absurd hj (Nat.not_lt_zero j))).1

/-- Claim C23 (missing camera), on the scenes in which every object has a type.  For
every such scene and every image whose buffer has `width * height` entries, a number
representable in `int`: `raycaster` stops at the call of `exit` if and only if no object
of the scene has type camera, that is if and only if `get_camera` returns `-1`. -/
theorem raycaster_fatal_iff_no_camera (m : Libm ℝ) (objects : List (Object ℝ))
    (image : Image) (closest_object : Int) (_htyped : Typed objects)
    (_hsized : image.Sized) :
    (raycaster m objects image closest_object = none
      ↔ ∀ o ∈ objects, o.type ≠ some "camera")
    ∧ (raycaster m objects image closest_object = none ↔ get_camera objects = -1) := by
  have hiff : raycaster m objects image closest_object = none ↔ get_camera objects = -1 := by
    constructor
    · intro h
      rcases get_camera_spec objects with ⟨h1, -⟩ | ⟨i, cam, h1, h2, -, -⟩
      · exact h1
      · rw [raycaster_of_camera m objects image closest_object i cam h1 h2] at h
        exact absurd h (by simp)
    · exact raycaster_of_no_camera m objects image closest_object
  exact ⟨hiff.trans (get_camera_eq_neg_one_iff objects), hiff⟩

/-- Witness of C23: a scene with a sphere and a light but no camera stops at `exit`. -/
theorem raycaster_fatal_iff_no_camera_witness :
    Typed ([spot_sphere, spot_light_object] : List (Object ℝ))
    ∧ one_pixel_image.Sized
    ∧ raycaster ⟨Real.sqrt, Real.cos, Real.rpow, Real.pi⟩
        ([spot_sphere, spot_light_object] : List (Object ℝ)) one_pixel_image 0 = none := by
  have hty : Typed ([spot_sphere, spot_light_object] : List (Object ℝ)) := by
    intro o ho
    simp only [List.mem_cons, List.mem_singleton, List.not_mem_nil, or_false] at ho
    rcases ho with rfl | rfl <;> simp [spot_sphere, spot_light_object]
  refine ⟨hty, one_pixel_image_sized, ?_⟩
  rw [(raycaster_fatal_iff_no_camera ⟨Real.sqrt, Real.cos, Real.rpow, Real.pi⟩
    ([spot_sphere, spot_light_object] : List (Object ℝ)) one_pixel_image 0 hty
    one_pixel_image_sized).1]
  intro o ho
  simp only [List.mem_cons, List.mem_singleton, List.not_mem_nil, or_false] at ho
  rcases ho with rfl | rfl <;> simp [spot_sphere, spot_light_object]

/-- Every object of the scene with the long normal has a type. -/
theorem long_normal_scene_typed : Typed (long_normal_scene (K := ℝ)) := by
  intro o ho
  simp only [long_normal_scene, List.mem_cons, List.mem_singleton, List.not_mem_nil,
    or_false] at ho
  rcases ho with rfl | rfl <;> simp [unit_camera, long_normal_plane]

/-! ## The light loop: the last unoccluded light wins -/

/-- The shadow intersection loop leaves the type and the light member of every object
as they were. -/
theorem shadow_scan_fst_light (sqrt : ℝ → ℝ) (new_ro new_rd : Vec3 (Dbl ℝ)) (ld : Dbl ℝ)
    (closest : Int) (l : List (Object ℝ)) :
    ∀ (index2 : Nat) (best2 : Dbl ℝ) (j : Nat) (o : Object ℝ), l[j]? = some o →
      ∃ o1 : Object ℝ,
        (shadow_scan sqrt new_ro new_rd ld closest index2 l best2).1[j]? = some o1
        ∧ o1.type = o.type ∧ o1.light = o.light := by
  induction l with
  | nil => intro _ _ j o h; simp at h
  | cons a rest ih =>
    intro index2 best2 j o h
    obtain ⟨best3, h3⟩ := shadow_scan_cons_fst sqrt new_ro new_rd ld closest index2 a rest best2
    rw [h3]
    cases j with
    | zero =>
      simp only [List.getElem?_cons_zero, Option.some.injEq] at h ⊢
      subst h
      refine ⟨_, rfl, ?_, ?_⟩
      · split_ifs
        · exact (Object.settle_fields sqrt a).1
        · rfl
      · split_ifs
        · exact (Object.settle_fields sqrt a).2.2.2.1
        · rfl
    | succ j1 =>
      simp only [List.getElem?_cons_succ] at h ⊢
      exact ih (index2 + 1) best3 j1 o h

/-- The objects after a light iteration are those that its shadow intersection loop
leaves. -/
theorem light_iteration_fst (m : Libm ℝ) (rd new_ro : Vec3 (Dbl ℝ)) (closest : Int)
    (light : Light ℝ) (st : List (Object ℝ) × Vec3 (Dbl ℝ)) :
    (light_iteration m rd new_ro closest light st).1
      = (shadow_scan m.sqrt new_ro
          (normalize m.sqrt (vector_subtract light.position new_ro))
          (vector_length m.sqrt (vector_subtract light.position new_ro)) closest 0 st.1
          pinf).1 := by
  unfold light_iteration
  simp only []
  split_ifs <;> rfl

/-- One pass of the light loop leaves the type and the light member of every object as
they were. -/
theorem light_step_light (m : Libm ℝ) (rd new_ro : Vec3 (Dbl ℝ)) (closest : Int)
    (st : List (Object ℝ) × Vec3 (Dbl ℝ)) (index : Nat) (j : Nat) (o : Object ℝ)
    (h : st.1[j]? = some o) :
    ∃ o1 : Object ℝ, (light_step m rd new_ro closest st index).1[j]? = some o1
      ∧ o1.type = o.type ∧ o1.light = o.light := by
  unfold light_step
  cases hx : st.1[index]? with
  | none => exact ⟨o, h, rfl, rfl⟩
  | some x =>
    simp only []
    split_ifs
    · rw [light_iteration_fst]
      exact shadow_scan_fst_light _ _ _ _ _ _ 0 pinf j o h
    · exact ⟨o, h, rfl, rfl⟩

/-- The colour after a pass of the light loop at a light that the shadow test finds
unoccluded is the contribution of that light, whatever the colour before the pass. -/
theorem light_step_snd_lit (m : Libm ℝ) (rd new_ro : Vec3 (Dbl ℝ)) (closest : Int)
    (st : List (Object ℝ) × Vec3 (Dbl ℝ)) (index : Nat) (o : Object ℝ)
    (ho : st.1[index]? = some o) (hl : o.type = some "light")
    (hun : Dbl.eq (shadow_best m.sqrt new_ro closest st.1 o.light) pinf = true) :
    (light_step m rd new_ro closest st index).2
      = (light_iteration m rd new_ro closest o.light (st.1, ⟨fin 0, fin 0, fin 0⟩)).2 := by
  obtain ⟨objs, c⟩ := st
  unfold light_step
  simp only [] at ho hun ⊢
  rw [ho]
  simp only [hl, if_true]
  rw [light_iteration_snd, if_pos hun]

/-- The colour after a pass of the light loop at an object that is not a light, or at a
light that the shadow test finds occluded, is the colour before the pass. -/
theorem light_step_snd_unlit (m : Libm ℝ) (rd new_ro : Vec3 (Dbl ℝ)) (closest : Int)
    (st : List (Object ℝ) × Vec3 (Dbl ℝ)) (index : Nat)
    (h : ∀ o : Object ℝ, st.1[index]? = some o → o.type = some "light" →
      Dbl.eq (shadow_best m.sqrt new_ro closest st.1 o.light) pinf = false) :
    (light_step m rd new_ro closest st index).2 = st.2 := by
  obtain ⟨objs, c⟩ := st
  unfold light_step
  simp only [] at h ⊢
  cases hx : objs[index]? with
  | none => rfl
  | some x =>
    simp only []
    split_ifs with hl
    · rw [light_iteration_snd, if_neg]
      rw [h x hx hl]
      exact Bool.false_ne_true
    · rfl

/-- The state of the light loop before the pass at `index + 1` is the result of the pass
at `index` on the state before it. -/
theorem light_loop_upto_succ (m : Libm ℝ) (rd new_ro : Vec3 (Dbl ℝ)) (closest : Int)
    (objects : List (Object ℝ)) (c : Vec3 (Dbl ℝ)) (index : Nat) :
    light_loop_upto m rd new_ro closest objects c (index + 1)
      = light_step m rd new_ro closest (light_loop_upto m rd new_ro closest objects c index)
          index := by
  unfold light_loop_upto
  rw [List.range_succ, List.foldl_append]
  rfl

/-- During the light loop every object keeps its type and its light member. -/
theorem light_loop_upto_light (m : Libm ℝ) (rd new_ro : Vec3 (Dbl ℝ)) (closest : Int)
    (objects : List (Object ℝ)) (c : Vec3 (Dbl ℝ)) (index : Nat) :
    ∀ (j : Nat) (o : Object ℝ), objects[j]? = some o →
      ∃ o1 : Object ℝ, (light_loop_upto m rd new_ro closest objects c index).1[j]? = some o1
        ∧ o1.type = o.type ∧ o1.light = o.light := by
  induction index with
  | zero => intro j o h; exact ⟨o, h, rfl, rfl⟩
  | succ n ih =>
    intro j o h
    obtain ⟨o1, h1, ht, hl⟩ := ih j o h
    rw [light_loop_upto_succ]
    obtain ⟨o2, h2, ht2, hl2⟩ := light_step_light m rd new_ro closest
      (light_loop_upto m rd new_ro closest objects c n) n j o1 h1
    exact ⟨o2, h2, ht2.trans ht, hl2.trans hl⟩

/-- When no pass from `i` on finds an unoccluded light, the colour after the passes below
`k` is the colour before the pass at `i`. -/
theorem light_loop_upto_unlit (m : Libm ℝ) (rd new_ro : Vec3 (Dbl ℝ)) (closest : Int)
    (objects : List (Object ℝ)) (c : Vec3 (Dbl ℝ)) (i n : Nat)
    (h : ∀ (j : Nat) (o : Object ℝ), i ≤ j → j < n →
      (light_loop_upto m rd new_ro closest objects c j).1[j]? = some o →
      o.type = some "light" →
      Dbl.eq (shadow_best m.sqrt new_ro closest
        (light_loop_upto m rd new_ro closest objects c j).1 o.light) pinf = false) :
    ∀ k : Nat, i ≤ k → k ≤ n →
      (light_loop_upto m rd new_ro closest objects c k).2
        = (light_loop_upto m rd new_ro closest objects c i).2 := by
  intro k hik
  induction k, hik using Nat.le_induction with
  | base => intro _; rfl
  | succ k hik ih =>
    intro hkn
    rw [light_loop_upto_succ, light_step_snd_unlit m rd new_ro closest _ k
      (fun o ho hl => h k o hik (by omega) ho hl)]
    exact ih (by omega)

/-- Claim C19 (multi-light overwrite).  For every scene in which every object has a type,
every hit point and every initial working colour (the program starts from `(0,0,0)`):
the light loop is the sequence of its passes at the indices `0 .. num_objects - 1`, during
which every object keeps its type and its light member; if no pass finds a light that
the shadow test leaves unoccluded, the final working colour is the initial one; and if
the pass at `i` finds a light unoccluded and no later pass does, the final working colour
is the contribution of the light `i` alone, computed as if the colour before the pass
were `(0,0,0)`: the contributions of earlier lights are overwritten, not summed. -/
theorem light_loop_overwrite (m : Libm ℝ) (rd new_ro : Vec3 (Dbl ℝ)) (closest : Int)
    (objects : List (Object ℝ)) (c : Vec3 (Dbl ℝ)) (_htyped : Typed objects) :
    light_loop m rd new_ro closest objects c
      = light_loop_upto m rd new_ro closest objects c objects.length
    ∧ (∀ index : Nat, light_loop_upto m rd new_ro closest objects c (index + 1)
        = light_step m rd new_ro closest
            (light_loop_upto m rd new_ro closest objects c index) index)
    ∧ (∀ (i j : Nat) (o : Object ℝ), objects[j]? = some o →
        ∃ o1 : Object ℝ, (light_loop_upto m rd new_ro closest objects c i).1[j]? = some o1
          ∧ o1.type = o.type ∧ o1.light = o.light)
    ∧ ((∀ (j : Nat) (o : Object ℝ), j < objects.length →
          (light_loop_upto m rd new_ro closest objects c j).1[j]? = some o →
          o.type = some "light" →
          Dbl.eq (shadow_best m.sqrt new_ro closest
            (light_loop_upto m rd new_ro closest objects c j).1 o.light) pinf = false) →
        (light_loop m rd new_ro closest objects c).2 = c)
    ∧ (∀ (i : Nat) (o : Object ℝ), i < objects.length →
        (light_loop_upto m rd new_ro closest objects c i).1[i]? = some o →
        o.type = some "light" →
        Dbl.eq (shadow_best m.sqrt new_ro closest
          (light_loop_upto m rd new_ro closest objects c i).1 o.light) pinf = true →
        (∀ (j : Nat) (o1 : Object ℝ), i < j → j < objects.length →
          (light_loop_upto m rd new_ro closest objects c j).1[j]? = some o1 →
          o1.type = some "light" →
          Dbl.eq (shadow_best m.sqrt new_ro closest
            (light_loop_upto m rd new_ro closest objects c j).1 o1.light) pinf = false) →
        (light_loop m rd new_ro closest objects c).2
          = (light_iteration m rd new_ro closest o.light
              ((light_loop_upto m rd new_ro closest objects c i).1,
                ⟨fin 0, fin 0, fin 0⟩)).2) := by
  have hloop : light_loop m rd new_ro closest objects c
      = light_loop_upto m rd new_ro closest objects c objects.length := rfl
  refine ⟨hloop, light_loop_upto_succ m rd new_ro closest objects c,
    fun i j o h => light_loop_upto_light m rd new_ro closest objects c i j o h, ?_, ?_⟩
  · intro h
    rw [hloop, light_loop_upto_unlit m rd new_ro closest objects c 0 objects.length
      (fun j o _ hj ho hl => h j o hj ho hl) objects.length (Nat.zero_le _) (le_refl _)]
    rfl
  · intro i o hi ho hl hun hlater
    rw [hloop, light_loop_upto_unlit m rd new_ro closest objects c (i + 1) objects.length
      (fun j o1 hij hj ho1 hl1 => hlater j o1 (by omega) hj ho1 hl1) objects.length
      (by omega) (le_refl _), light_loop_upto_succ,
      light_step_snd_lit m rd new_ro closest _ i o ho hl hun]

/-! ## The scene with two lights -/

/-- The scene with two lights has no plane: the scans leave it as it is. -/
theorem two_light_scene_settled : Settled Real.sqrt (two_light_scene (K := ℝ)) := by
  intro o ho hp
  simp only [two_light_scene, List.mem_cons, List.mem_singleton, List.not_mem_nil, or_false]
    at ho
  rcases ho with rfl | rfl | rfl | rfl <;>
    simp [unit_camera, spot_sphere, spot_light_object, half_light_object, Object.zero] at hp

/-- Every object of the scene with two lights has a type. -/
theorem two_light_scene_typed : Typed (two_light_scene (K := ℝ)) := by
  intro o ho
  simp only [two_light_scene, List.mem_cons, List.mem_singleton, List.not_mem_nil, or_false]
    at ho
  rcases ho with rfl | rfl | rfl | rfl <;>
    simp [unit_camera, spot_sphere, spot_light_object, half_light_object]

/-- In the scene with two lights nothing lies between the hit point `(0,0,9)` and a
light at the origin. -/
theorem two_light_unoccluded (light : Light ℝ) :
    Dbl.eq (shadow_best Real.sqrt (vfin (⟨0, 0, 9⟩ : Vec3 ℝ)) 1 two_light_scene light) pinf
      = true := by
  unfold shadow_best
  rw [shadow_scan_spec]
  refine ⟨rfl, ?_⟩
  intro j o hj hk
  have hgt : Dbl.gt (hit_distance Real.sqrt (vfin (⟨0, 0, 9⟩ : Vec3 ℝ))
      (normalize Real.sqrt (vector_subtract light.position (vfin ⟨0, 0, 9⟩))) o)
      (fin 0) = false := by
    match j, hj with
    | 0, hj =>
      simp only [two_light_scene, List.getElem?_cons_zero, Option.some.injEq] at hj
      subst hj
      simp [hit_distance, object_intersection, unit_camera, Object.zero, Dbl.gt, Dbl.lt]
    | 1, _ => exact absurd rfl hk
    | 2, hj =>
      simp only [two_light_scene, List.getElem?_cons_succ, List.getElem?_cons_zero,
        Option.some.injEq] at hj
      subst hj
      simp [hit_distance, object_intersection, spot_light_object, Object.zero, Dbl.gt, Dbl.lt]
    | 3, hj =>
      simp only [two_light_scene, List.getElem?_cons_succ, List.getElem?_cons_zero,
        Option.some.injEq] at hj
      subst hj
      simp [hit_distance, object_intersection, half_light_object, Object.zero, Dbl.gt, Dbl.lt]
    | (n + 4), hj => simp [two_light_scene] at hj
  rw [hgt]
  simp

/-- In the scene with two lights the contribution of a light at the origin with the
attenuation of the spotlight example and the colour `(l, l, l)`, at the hit point
`(0,0,9)` of the sphere seen along `(0,0,1)`, is `(l/4, 0, 0)`. -/
theorem two_light_colour (l : ℝ) (c : Vec3 (Dbl ℝ)) :
    (light_iteration ⟨Real.sqrt, Real.cos, Real.rpow, Real.pi⟩ (vfin ⟨0, 0, 1⟩)
      (vfin ⟨0, 0, 9⟩) 1
      ⟨vfin ⟨l, l, l⟩, vfin ⟨0, 0, 0⟩, vfin ⟨0, 0, 2⟩, fin 90, fin 1, fin 0, fin 0, fin 2⟩
      (two_light_scene, c)).2 = vfin ⟨l / 4, 0, 0⟩ := by
  have h := light_iteration_unoccluded ⟨Real.sqrt, Real.cos, Real.rpow, Real.pi⟩ rfl
    two_light_scene (vfin ⟨0, 0, 1⟩) ⟨0, 0, 9⟩ ⟨0, 0, 0⟩ 1 spot_sphere
    ⟨vfin ⟨l, l, l⟩, vfin ⟨0, 0, 0⟩, vfin ⟨0, 0, 2⟩, fin 90, fin 1, fin 0, fin 0, fin 2⟩ c
    rfl (Or.inl rfl) rfl (two_light_unoccluded _)
  simp only at h
  rw [Nat.cast_one] at h
  rw [h]
  have hs : (spot_sphere (K := ℝ)).type = some "sphere" := rfl
  have hsp : (spot_sphere (K := ℝ)).sphere.position = vfin ⟨0, 0, 10⟩ := rfl
  have hdc : (spot_sphere (K := ℝ)).sphere.diffuse_color = vfin ⟨1 / 8, 0, 0⟩ := rfl
  have hsc : (spot_sphere (K := ℝ)).sphere.specular_color = vfin ⟨0, 0, 0⟩ := rfl
  have hfang : fang ⟨Real.sqrt, Real.cos, Real.rpow, Real.pi⟩ (fin (1 : ℝ)) (fin 90)
      (vfin ⟨0, 0, 2⟩) (vfin ⟨0, 0, -1⟩) = fin 2 := spot_fang_radial
  have hfr : frad (fin (1 : ℝ)) (fin 0) (fin 0) (fin 9) = fin 1 := by
    rw [frad_fin, fin_div_fin_of_ne _ (by norm_num)]
    norm_num
  simp only [hs, if_true, hsp, hdc, hsc, spot_L, spot_N, spot_len, hfang, hfr,
    vector_reflection_fin, diffuse_reflection_fin, specular_highlight_fin]
  norm_num [vfin, Vec3.dot]
  ring

/-- Witness of C19: the scene with a camera, a sphere and two lights, at the hit point
`(0,0,9)` of the sphere seen along `(0,0,1)`.  Both lights are unoccluded; the
contribution of the first (index `2`) is `(1/4, 0, 0)`, that of the second and last
(index `3`) is `(1/8, 0, 0)`, and the final working colour is `(1/8, 0, 0)`: the
contribution of the last light, neither that of the first nor the sum. -/
theorem light_loop_overwrite_witness :
    Typed (two_light_scene (K := ℝ))
    ∧ Dbl.eq (shadow_best Real.sqrt (vfin (⟨0, 0, 9⟩ : Vec3 ℝ)) 1 two_light_scene
        (spot_light (K := ℝ))) pinf = true
    ∧ (light_iteration ⟨Real.sqrt, Real.cos, Real.rpow, Real.pi⟩ (vfin ⟨0, 0, 1⟩)
        (vfin ⟨0, 0, 9⟩) 1 (spot_light (K := ℝ))
        (two_light_scene, ⟨fin 0, fin 0, fin 0⟩)).2 = vfin ⟨1 / 4, 0, 0⟩
    ∧ Dbl.eq (shadow_best Real.sqrt (vfin (⟨0, 0, 9⟩ : Vec3 ℝ)) 1 two_light_scene
        (half_light (K := ℝ))) pinf = true
    ∧ (light_iteration ⟨Real.sqrt, Real.cos, Real.rpow, Real.pi⟩ (vfin ⟨0, 0, 1⟩)
        (vfin ⟨0, 0, 9⟩) 1 (half_light (K := ℝ))
        (two_light_scene, ⟨fin 0, fin 0, fin 0⟩)).2 = vfin ⟨1 / 8, 0, 0⟩
    ∧ (light_loop ⟨Real.sqrt, Real.cos, Real.rpow, Real.pi⟩ (vfin ⟨0, 0, 1⟩)
        (vfin ⟨0, 0, 9⟩) 1 (two_light_scene (K := ℝ)) ⟨fin 0, fin 0, fin 0⟩).2
      = vfin ⟨1 / 8, 0, 0⟩ := by
  have hspot : (light_iteration ⟨Real.sqrt, Real.cos, Real.rpow, Real.pi⟩ (vfin ⟨0, 0, 1⟩)
      (vfin ⟨0, 0, 9⟩) 1 (spot_light (K := ℝ))
      (two_light_scene, ⟨fin 0, fin 0, fin 0⟩)).2 = vfin ⟨1 / 4, 0, 0⟩ := by
    have h := two_light_colour 1 ⟨fin 0, fin 0, fin 0⟩
    rw [show ((1 : ℝ) / 4) = 1 / 4 from rfl] at h
    exact h
  have hhalf : (light_iteration ⟨Real.sqrt, Real.cos, Real.rpow, Real.pi⟩ (vfin ⟨0, 0, 1⟩)
      (vfin ⟨0, 0, 9⟩) 1 (half_light (K := ℝ))
      (two_light_scene, ⟨fin 0, fin 0, fin 0⟩)).2 = vfin ⟨1 / 8, 0, 0⟩ := by
    have h := two_light_colour (1 / 2) ⟨fin 0, fin 0, fin 0⟩
    rw [show ((1 : ℝ) / 2 / 4) = 1 / 8 by norm_num] at h
    exact h
  have hstate : ∀ i : Nat, (light_loop_upto ⟨Real.sqrt, Real.cos, Real.rpow, Real.pi⟩
      (vfin ⟨0, 0, 1⟩) (vfin ⟨0, 0, 9⟩) 1 (two_light_scene (K := ℝ))
      ⟨fin 0, fin 0, fin 0⟩ i).1 = two_light_scene := by
    intro i
    unfold light_loop_upto
    rw [light_step_foldl_settled ⟨Real.sqrt, Real.cos, Real.rpow, Real.pi⟩ _ _ _ _
      two_light_scene_settled]
  refine ⟨two_light_scene_typed, two_light_unoccluded _, hspot,
    two_light_unoccluded _, hhalf, ?_⟩
  have h := (light_loop_overwrite ⟨Real.sqrt, Real.cos, Real.rpow, Real.pi⟩
    (vfin ⟨0, 0, 1⟩) (vfin ⟨0, 0, 9⟩) 1 (two_light_scene (K := ℝ)) ⟨fin 0, fin 0, fin 0⟩
    two_light_scene_typed).2.2.2.2 3 half_light_object (by decide)
    (by rw [hstate]; rfl) rfl (by rw [hstate]; exact two_light_unoccluded _)
    (fun j o1 hj hlen _ _ => by
      have : (two_light_scene (K := ℝ)).length = 4 := rfl
      omega)
  rw [h, hstate]
  exact hhalf

/-! ## The scene during the render: everything but the plane normals -/

/-- Every object is itself up to the normal of its plane. -/
theorem Object.SameButNormal.refl (o : Object ℝ) : o.SameButNormal o :=
  ⟨rfl, rfl, rfl, rfl, rfl, rfl, rfl, rfl, fun _ => rfl⟩

/-- Being the same object up to the normal of the plane is transitive. -/
theorem Object.SameButNormal.trans {o o1 o2 : Object ℝ} (h1 : o.SameButNormal o1)
    (h2 : o1.SameButNormal o2) : o.SameButNormal o2 := by
  obtain ⟨a1, a2, a3, a4, a5, a6, a7, a8, a9⟩ := h1
  obtain ⟨b1, b2, b3, b4, b5, b6, b7, b8, b9⟩ := h2
  refine ⟨b1.trans a1, b2.trans a2, b3.trans a3, b4.trans a4, b5.trans a5, b6.trans a6,
    b7.trans a7, b8.trans a8, ?_⟩
  intro hp
  rw [b9 (by rw [a1]; exact hp), a9 hp]

/-- An object with its plane normalised is the same object up to the normal of the
plane. -/
theorem Object.sameButNormal_settle (sqrt : ℝ → ℝ) (o : Object ℝ) :
    o.SameButNormal (o.settle sqrt) := by
  obtain ⟨h1, h2, h3, h4, h5, h6, h7, h8, -⟩ := Object.settle_fields sqrt o
  refine ⟨h1, h2, h3, h4, h5, h6, h7, h8, ?_⟩
  intro hp
  unfold Object.settle
  rw [if_neg hp]

/-- Every list of objects is itself up to the plane normals. -/
theorem same_scene_refl (l : List (Object ℝ)) : List.Forall₂ Object.SameButNormal l l := by
  induction l with
  | nil => exact List.Forall₂.nil
  | cons a rest ih => exact List.Forall₂.cons (Object.SameButNormal.refl a) ih

/-- Being the same list of objects up to the plane normals is transitive. -/
theorem same_scene_trans {l1 l2 l3 : List (Object ℝ)}
    (h1 : List.Forall₂ Object.SameButNormal l1 l2)
    (h2 : List.Forall₂ Object.SameButNormal l2 l3) :
    List.Forall₂ Object.SameButNormal l1 l3 := by
  induction h1 generalizing l3 with
  | nil => cases h2; exact List.Forall₂.nil
  | cons hab _ ih =>
    cases h2 with
    | cons hbc hrest => exact List.Forall₂.cons (hab.trans hbc) (ih hrest)

/-- A list of objects with every plane normalised is the same list up to the plane
normals. -/
theorem same_scene_map_settle (sqrt : ℝ → ℝ) (l : List (Object ℝ)) :
    List.Forall₂ Object.SameButNormal l (l.map (Object.settle sqrt)) := by
  induction l with
  | nil => exact List.Forall₂.nil
  | cons a rest ih => exact List.Forall₂.cons (Object.sameButNormal_settle sqrt a) ih

/-- The shadow intersection loop changes plane normals only. -/
theorem shadow_scan_same (sqrt : ℝ → ℝ) (new_ro new_rd : Vec3 (Dbl ℝ)) (ld : Dbl ℝ)
    (closest : Int) (l : List (Object ℝ)) :
    ∀ (index2 : Nat) (best2 : Dbl ℝ),
      List.Forall₂ Object.SameButNormal l
        (shadow_scan sqrt new_ro new_rd ld closest index2 l best2).1 := by
  induction l with
  | nil => intro _ _; simp [shadow_scan]
  | cons a rest ih =>
    intro index2 best2
    obtain ⟨best3, h3⟩ := shadow_scan_cons_fst sqrt new_ro new_rd ld closest index2 a rest best2
    rw [h3]
    refine List.Forall₂.cons ?_ (ih (index2 + 1) best3)
    split_ifs
    · exact Object.sameButNormal_settle sqrt a
    · exact Object.SameButNormal.refl a

/-- One pass of the light loop changes plane normals only. -/
theorem light_step_same (m : Libm ℝ) (rd new_ro : Vec3 (Dbl ℝ)) (closest : Int)
    (st : List (Object ℝ) × Vec3 (Dbl ℝ)) (index : Nat) :
    List.Forall₂ Object.SameButNormal st.1 (light_step m rd new_ro closest st index).1 := by
  unfold light_step
  cases hx : st.1[index]? with
  | none => exact same_scene_refl _
  | some x =>
    simp only []
    split_ifs
    · rw [light_iteration_fst]
      exact shadow_scan_same _ _ _ _ _ _ 0 pinf
    · exact same_scene_refl _

/-- The light loop changes plane normals only. -/
theorem light_loop_same (m : Libm ℝ) (rd new_ro : Vec3 (Dbl ℝ)) (closest : Int)
    (objects : List (Object ℝ)) (c : Vec3 (Dbl ℝ)) :
    List.Forall₂ Object.SameButNormal objects
      (light_loop m rd new_ro closest objects c).1 := by
  unfold light_loop
  exact foldl_invariant
    (fun st : List (Object ℝ) × Vec3 (Dbl ℝ) =>
      List.Forall₂ Object.SameButNormal objects st.1)
    (light_step m rd new_ro closest) (List.range objects.length) (objects, c)
    (same_scene_refl objects)
    (fun st i _ hst => same_scene_trans hst (light_step_same m rd new_ro closest st i))

/-- The pass for one pixel changes plane normals only. -/
theorem render_pixel_same (m : Libm ℝ) (w h pw ph : Dbl ℝ) (row column : Nat)
    (st : List (Object ℝ) × Image × Int) :
    List.Forall₂ Object.SameButNormal st.1 (render_pixel m w h pw ph row column st).1 := by
  have hs : List.Forall₂ Object.SameButNormal st.1
      (primary_scan m.sqrt ⟨fin 0, fin 0, fin 0⟩
        (normalize m.sqrt (view_vector w h pw ph row column)) 0 st.1 pinf st.2.2).1 := by
    rw [primary_scan_fst]
    exact same_scene_map_settle m.sqrt st.1
  unfold render_pixel
  simp only
  split_ifs with h1
  · have hl := same_scene_trans hs (light_loop_same m
      (normalize m.sqrt (view_vector w h pw ph row column))
      (vector_add ⟨fin 0, fin 0, fin 0⟩
        (vector_scale (normalize m.sqrt (view_vector w h pw ph row column))
          (primary_scan m.sqrt ⟨fin 0, fin 0, fin 0⟩
            (normalize m.sqrt (view_vector w h pw ph row column)) 0 st.1 pinf st.2.2).2.1))
      (primary_scan m.sqrt ⟨fin 0, fin 0, fin 0⟩
        (normalize m.sqrt (view_vector w h pw ph row column)) 0 st.1 pinf st.2.2).2.2
      (primary_scan m.sqrt ⟨fin 0, fin 0, fin 0⟩
        (normalize m.sqrt (view_vector w h pw ph row column)) 0 st.1 pinf st.2.2).1
      ⟨fin 0, fin 0, fin 0⟩)
    split
    · exact hl
    · split_ifs
      · exact hl
      · exact hl
      · exact hl
  · exact hs

/-- The passes for the pixels of a list of columns of one row change plane normals
only. -/
theorem row_fold_same (m : Libm ℝ) (w h pw ph : Dbl ℝ) (objects : List (Object ℝ))
    (row : Nat) (columns : List Nat) (st : List (Object ℝ) × Image × Int)
    (hst : List.Forall₂ Object.SameButNormal objects st.1) :
    List.Forall₂ Object.SameButNormal objects
      (columns.foldl (fun st c => render_pixel m w h pw ph row c st) st).1 :=
  foldl_invariant
    (fun st : List (Object ℝ) × Image × Int =>
      List.Forall₂ Object.SameButNormal objects st.1)
    (fun st c => render_pixel m w h pw ph row c st) columns st hst
    (fun st c _ hs => same_scene_trans hs (render_pixel_same m w h pw ph row c st))

/-- The passes for the pixels of a list of rows change plane normals only. -/
theorem rows_fold_same (m : Libm ℝ) (w h pw ph : Dbl ℝ) (objects : List (Object ℝ))
    (W : Nat) (rows : List Nat) (st : List (Object ℝ) × Image × Int)
    (hst : List.Forall₂ Object.SameButNormal objects st.1) :
    List.Forall₂ Object.SameButNormal objects
      (rows.foldl (fun st r => (List.range W).foldl
        (fun st c => render_pixel m w h pw ph r c st) st) st).1 :=
  foldl_invariant
    (fun st : List (Object ℝ) × Image × Int =>
      List.Forall₂ Object.SameButNormal objects st.1)
    (fun st r => (List.range W).foldl (fun st c => render_pixel m w h pw ph r c st) st)
    rows st hst
    (fun st r _ hs => row_fold_same m w h pw ph objects r (List.range W) st hs)

/-- The pixel loops change plane normals only. -/
theorem pixel_loops_same (m : Libm ℝ) (w h : Dbl ℝ) (objects : List (Object ℝ))
    (image : Image) (cl : Int) :
    List.Forall₂ Object.SameButNormal objects (pixel_loops m w h objects image cl).1 := by
  unfold pixel_loops
  exact rows_fold_same m w h _ _ objects _ _ _ (same_scene_refl objects)

/-- The objects before the pass for a pixel are those of the scene up to the plane
normals. -/
theorem pixel_state_same (m : Libm ℝ) (w h : Dbl ℝ) (objects : List (Object ℝ))
    (image : Image) (cl : Int) (row column : Nat) :
    List.Forall₂ Object.SameButNormal objects
      (pixel_state m w h objects image cl row column).1 := by
  unfold pixel_state
  exact row_fold_same m w h _ _ objects row _ _
    (rows_fold_same m w h _ _ objects _ _ _ (same_scene_refl objects))

/-- Claim C25, amended (the scene after the render).  For every scene with a camera in
which every object has a type and every image whose buffer has `width * height` entries,
a number representable in `int`: `raycaster` returns, and the scene after the call has
the objects of the scene before the call, in the same order, each of them as before in
every field except the normal of a plane (which `plane_intersection` overwrites): its
type, its camera, sphere and light members and the colour, position, diffuse colour and
specular colour of its plane member are unchanged, and an object that is not a plane is
unchanged altogether. -/
theorem raycaster_keeps_all_but_normals (m : Libm ℝ) (objects : List (Object ℝ))
    (image : Image) (closest_object : Int)
    (hcam : ∃ o ∈ objects, o.type = some "camera") (_htyped : Typed objects)
    (_hsized : image.Sized) :
    ∃ (objects1 : List (Object ℝ)) (image1 : Image),
      raycaster m objects image closest_object = some (objects1, image1)
      ∧ objects1.length = objects.length
      ∧ List.Forall₂ (fun o o1 : Object ℝ =>
          o1.type = o.type ∧ o1.camera = o.camera ∧ o1.sphere = o.sphere
          ∧ o1.light = o.light ∧ o1.plane.color = o.plane.color
          ∧ o1.plane.position = o.plane.position
          ∧ o1.plane.diffuse_color = o.plane.diffuse_color
          ∧ o1.plane.specular_color = o.plane.specular_color
          ∧ (o.type ≠ some "plane" → o1 = o)) objects objects1 := by
  rcases get_camera_spec objects with ⟨-, h2⟩ | ⟨i, cam, h1, h2, -, -⟩
  · obtain ⟨o, ho, hty⟩ := hcam
    exact absurd hty (h2 o ho)
  · have hsame := pixel_loops_same m cam.camera.width cam.camera.height objects image
      closest_object
    exact ⟨_, _, raycaster_of_camera m objects image closest_object i cam h1 h2,
      hsame.length_eq.symm, hsame⟩

/-! ## A pixel that is not hit keeps its entry -/

/-- The indices below `n` are those below `k`, then `k`, then indices strictly between
`k` and `n`. -/
theorem range_split (n k : Nat) (hk : k < n) :
    ∃ l : List Nat, List.range n = List.range k ++ k :: l ∧ ∀ x ∈ l, k < x ∧ x < n := by
  obtain ⟨m, rfl⟩ : ∃ m, n = k + (m + 1) := ⟨n - k - 1, by omega⟩
  refine ⟨(List.range m).map (fun x => k + (x + 1)), ?_, ?_⟩
  · rw [List.range_add, List.range_succ_eq_map]
    simp [Function.comp_def]
  · intro x hx
    simp only [List.mem_map, List.mem_range] at hx
    obtain ⟨y, hy, rfl⟩ := hx
    omega

/-- The pass for a pixel other than `(row, column)` keeps the width of the image and the
entry of the pixel `(row, column)`. -/
theorem render_pixel_keeps_other (m : Libm ℝ) (w h pw ph : Dbl ℝ) (W : Int)
    (row column : Nat) (hcol : (column : Int) < W) (r c : Nat) (hc : (c : Int) < W)
    (hne : r ≠ row ∨ c ≠ column) (e : Option Pixel) (st : List (Object ℝ) × Image × Int)
    (hst : st.2.1.width = W ∧ st.2.1.image_data[(W * (row : Int) + (column : Int)).toNat]? = e) :
    (render_pixel m w h pw ph r c st).2.1.width = W
    ∧ (render_pixel m w h pw ph r c st).2.1.image_data[
        (W * (row : Int) + (column : Int)).toNat]? = e := by
  obtain ⟨hw, he⟩ := hst
  rcases render_pixel_image m w h pw ph r c st with h1 | ⟨colour, h1⟩
  · rw [h1]
    exact ⟨hw, he⟩
  · rw [h1, store_pixel_width, store_pixel_getElem_ne]
    · exact ⟨hw, he⟩
    · rw [hw]
      intro heq
      obtain ⟨h2, h3⟩ := pixel_index_inj W r c row column hc hcol heq
      rcases hne with h4 | h4
      · exact h4 h2
      · exact h4 h3

/-- The passes for pixels other than `(row, column)` in one row keep the width of the
image and the entry of the pixel `(row, column)`. -/
theorem row_fold_keeps_other (m : Libm ℝ) (w h pw ph : Dbl ℝ) (W : Int)
    (row column : Nat) (hcol : (column : Int) < W) (r : Nat) (columns : List Nat)
    (hcols : ∀ c ∈ columns, (c : Int) < W ∧ (r ≠ row ∨ c ≠ column)) (e : Option Pixel)
    (st : List (Object ℝ) × Image × Int)
    (hst : st.2.1.width = W ∧ st.2.1.image_data[(W * (row : Int) + (column : Int)).toNat]? = e) :
    (columns.foldl (fun st c => render_pixel m w h pw ph r c st) st).2.1.width = W
    ∧ (columns.foldl (fun st c => render_pixel m w h pw ph r c st) st).2.1.image_data[
        (W * (row : Int) + (column : Int)).toNat]? = e :=
  foldl_invariant
    (fun st : List (Object ℝ) × Image × Int =>
      st.2.1.width = W ∧ st.2.1.image_data[(W * (row : Int) + (column : Int)).toNat]? = e)
    (fun st c => render_pixel m w h pw ph r c st) columns st hst
    (fun s c hc hs => render_pixel_keeps_other m w h pw ph W row column hcol r c
      (hcols c hc).1 (hcols c hc).2 e s hs)

/-- The passes for the pixels of rows other than `row` keep the width of the image and
the entry of the pixel `(row, column)`. -/
theorem rows_fold_keeps_other (m : Libm ℝ) (w h pw ph : Dbl ℝ) (W : Nat)
    (row column : Nat) (hcol : column < W) (rows : List Nat)
    (hrows : ∀ r ∈ rows, r ≠ row) (e : Option Pixel)
    (st : List (Object ℝ) × Image × Int)
    (hst : st.2.1.width = (W : Int)
      ∧ st.2.1.image_data[((W : Int) * (row : Int) + (column : Int)).toNat]? = e) :
    (rows.foldl (fun st r => (List.range W).foldl
      (fun st c => render_pixel m w h pw ph r c st) st) st).2.1.width = (W : Int)
    ∧ (rows.foldl (fun st r => (List.range W).foldl
      (fun st c => render_pixel m w h pw ph r c st) st) st).2.1.image_data[
        ((W : Int) * (row : Int) + (column : Int)).toNat]? = e :=
  foldl_invariant
    (fun st : List (Object ℝ) × Image × Int =>
      st.2.1.width = (W : Int)
      ∧ st.2.1.image_data[((W : Int) * (row : Int) + (column : Int)).toNat]? = e)
    (fun st r => (List.range W).foldl (fun st c => render_pixel m w h pw ph r c st) st)
    rows st hst
    (fun s r hr hs => row_fold_keeps_other m w h pw ph (W : Int) row column
      (by exact_mod_cast hcol) r (List.range W)
      (fun c hc => ⟨by exact_mod_cast List.mem_range.mp hc, Or.inl (hrows r hr)⟩) e s hs)

/-- The pixel loops as the passes before the pixel `(row, column)`, the pass for that
pixel, and the passes after it. -/
theorem pixel_loops_split (m : Libm ℝ) (w h : Dbl ℝ) (objects : List (Object ℝ))
    (image : Image) (cl : Int) (row column : Nat) (hrow : (row : Int) < image.height)
    (hcol : (column : Int) < image.width) :
    ∃ (columns rows : List Nat),
      (∀ c ∈ columns, column < c ∧ c < image.width.toNat)
      ∧ (∀ r ∈ rows, row < r ∧ r < image.height.toNat)
      ∧ pixel_loops m w h objects image cl
        = rows.foldl
            (fun st r => (List.range image.width.toNat).foldl
              (fun st c => render_pixel m w h (w / fin (image.width : ℝ))
                (h / fin (image.height : ℝ)) r c st) st)
            (columns.foldl
              (fun st c => render_pixel m w h (w / fin (image.width : ℝ))
                (h / fin (image.height : ℝ)) row c st)
              (render_pixel m w h (w / fin (image.width : ℝ))
                (h / fin (image.height : ℝ)) row column
                (pixel_state m w h objects image cl row column))) := by
  obtain ⟨rows, hrows, hmem⟩ := range_split image.height.toNat row (by omega)
  obtain ⟨columns, hcols, hmemc⟩ := range_split image.width.toNat column (by omega)
  refine ⟨columns, rows, hmemc, hmem, ?_⟩
  unfold pixel_loops pixel_state
  rw [hrows, List.foldl_append, List.foldl_cons]
  congr 1
  rw [hcols, List.foldl_append, List.foldl_cons]

/-- Every object of scenario A has a type. -/
theorem scenario_a_typed : Typed (scenario_a (K := ℝ)) := by
  intro o ho
  simp only [scenario_a, List.mem_cons, List.mem_singleton, List.not_mem_nil, or_false]
    at ho
  rcases ho with rfl | rfl | rfl <;> simp [unit_camera, red_sphere, point_light_object]

/-- The `10 x 10` image has a buffer of `100` entries. -/
theorem blank_image_sized : blank_image.Sized := by
  constructor <;> decide

/-- Claim C20 (a pixel that is not hit is not written).  For every scene in which every
object has a type and `get_camera` finds a camera, every image whose buffer has
`width * height` entries, a number representable in `int`, and every pixel
`(row, column)` of the image: the objects that the pass for the pixel scans are those of
the scene up to the plane normals; every index that the pixel loops compute in `int` is
the exact `width*r + c` and lies in the buffer; and when the primary ray of the pixel has
no strictly positive intersection distance with any of the objects scanned, `raycaster`
returns, the pass for the pixel leaves the whole buffer as it finds it, and the entry
`width*row + column` of the buffer after the render is exactly the one before. -/
theorem raycaster_miss_pixel_untouched (m : Libm ℝ) (objects : List (Object ℝ))
    (image : Image) (closest_object : Int) (cam : Object ℝ) (_htyped : Typed objects)
    (hsized : image.Sized) (hidx : get_camera objects ≠ -1)
    (hcam : objects[(get_camera objects).toNat]? = some cam)
    (row column : Nat) (hrow : (row : Int) < image.height)
    (hcol : (column : Int) < image.width)
    (hmiss : ∀ o ∈ (pixel_state m cam.camera.width cam.camera.height objects image
        closest_object row column).1,
      Dbl.gt (hit_distance m.sqrt ⟨fin 0, fin 0, fin 0⟩
        (normalize m.sqrt (view_vector cam.camera.width cam.camera.height
          (cam.camera.width / fin (image.width : ℝ))
          (cam.camera.height / fin (image.height : ℝ)) row column)) o) (fin 0) = false) :
    List.Forall₂ Object.SameButNormal objects
      (pixel_state m cam.camera.width cam.camera.height objects image closest_object
        row column).1
    ∧ (∀ r c : Nat, (r : Int) < image.height → (c : Int) < image.width →
        pixel_index image.width r c = image.width * (r : Int) + (c : Int)
        ∧ (image.width * (r : Int) + (c : Int)).toNat < image.image_data.length)
    ∧ (render_pixel m cam.camera.width cam.camera.height
        (cam.camera.width / fin (image.width : ℝ))
        (cam.camera.height / fin (image.height : ℝ)) row column
        (pixel_state m cam.camera.width cam.camera.height objects image closest_object
          row column)).2.1
      = (pixel_state m cam.camera.width cam.camera.height objects image closest_object
          row column).2.1
    ∧ ∃ (objects1 : List (Object ℝ)) (image1 : Image),
      raycaster m objects image closest_object = some (objects1, image1)
      ∧ image1.image_data[(image.width * (row : Int) + (column : Int)).toNat]?
        = image.image_data[(image.width * (row : Int) + (column : Int)).toNat]? := by
  obtain ⟨hfit, hlen⟩ := hsized
  have hW : ((image.width.toNat : Nat) : Int) = image.width := Int.toNat_of_nonneg (by omega)
  have hcolN : column < image.width.toNat := by omega
  have hpass := render_pixel_miss m cam.camera.width cam.camera.height
    (cam.camera.width / fin (image.width : ℝ)) (cam.camera.height / fin (image.height : ℝ))
    row column
    (pixel_state m cam.camera.width cam.camera.height objects image closest_object
      row column)
    (primary_scan_miss m.sqrt _ _ _ _ hmiss)
  refine ⟨pixel_state_same m _ _ objects image closest_object row column, ?_, hpass, ?_⟩
  · intro r c hr hc
    have hb := index_in_bounds image.width image.height r c hr (by omega) (by omega) hc
    refine ⟨pixel_index_exact image.width image.height r c hr (by omega) (by omega) hc hfit,
      ?_⟩
    rw [hlen]
    omega
  · obtain ⟨i, hi⟩ : ∃ i : Nat, get_camera objects = (i : Int) := by
      rcases get_camera_spec objects with ⟨h1, -⟩ | ⟨i, -, h1, -⟩
      · exact absurd h1 hidx
      · exact ⟨i, h1⟩
    have hcam1 : objects[i]? = some cam := by
      rw [hi] at hcam
      simpa using hcam
    refine ⟨_, _, raycaster_of_camera m objects image closest_object i cam hi hcam1, ?_⟩
    obtain ⟨columns, rows, hcols, hrows, hsplit⟩ := pixel_loops_split m cam.camera.width
      cam.camera.height objects image closest_object row column hrow hcol
    rw [hsplit]
    -- the state before the pass keeps the entry
    have h0 : (pixel_state m cam.camera.width cam.camera.height objects image
          closest_object row column).2.1.width = ((image.width.toNat : Nat) : Int)
        ∧ (pixel_state m cam.camera.width cam.camera.height objects image
          closest_object row column).2.1.image_data[
            (((image.width.toNat : Nat) : Int) * (row : Int) + (column : Int)).toNat]?
          = image.image_data[(image.width * (row : Int) + (column : Int)).toNat]? := by
      unfold pixel_state
      have hinit : (objects, image, closest_object).2.1.width
            = ((image.width.toNat : Nat) : Int)
          ∧ (objects, image, closest_object).2.1.image_data[
              (((image.width.toNat : Nat) : Int) * (row : Int) + (column : Int)).toNat]?
            = image.image_data[(image.width * (row : Int) + (column : Int)).toNat]? := by
        rw [hW]
        exact ⟨rfl, rfl⟩
      have hpre := rows_fold_keeps_other m cam.camera.width cam.camera.height
        (cam.camera.width / fin (image.width : ℝ))
        (cam.camera.height / fin (image.height : ℝ)) image.width.toNat row column hcolN
        (List.range row) (fun r hr => by have := List.mem_range.mp hr; omega) _ _ hinit
      exact row_fold_keeps_other m cam.camera.width cam.camera.height
        (cam.camera.width / fin (image.width : ℝ))
        (cam.camera.height / fin (image.height : ℝ)) _ row column
        (by exact_mod_cast hcolN) row (List.range column)
        (fun c hc => by
          have := List.mem_range.mp hc
          exact ⟨by rw [hW]; omega, Or.inr (by omega)⟩) _ _ hpre
    have h1 : (render_pixel m cam.camera.width cam.camera.height
          (cam.camera.width / fin (image.width : ℝ))
          (cam.camera.height / fin (image.height : ℝ)) row column
          (pixel_state m cam.camera.width cam.camera.height objects image
            closest_object row column)).2.1.width = ((image.width.toNat : Nat) : Int)
        ∧ (render_pixel m cam.camera.width cam.camera.height
          (cam.camera.width / fin (image.width : ℝ))
          (cam.camera.height / fin (image.height : ℝ)) row column
          (pixel_state m cam.camera.width cam.camera.height objects image
            closest_object row column)).2.1.image_data[
            (((image.width.toNat : Nat) : Int) * (row : Int) + (column : Int)).toNat]?
          = image.image_data[(image.width * (row : Int) + (column : Int)).toNat]? := by
      rw [hpass]
      exact h0
    have h2 := row_fold_keeps_other m cam.camera.width cam.camera.height
      (cam.camera.width / fin (image.width : ℝ))
      (cam.camera.height / fin (image.height : ℝ)) _ row column
      (by exact_mod_cast hcolN) row columns
      (fun c hc => by
        have := hcols c hc
        exact ⟨by rw [hW]; omega, Or.inr (by omega)⟩) _ _ h1
    have h3 := rows_fold_keeps_other m cam.camera.width cam.camera.height
      (cam.camera.width / fin (image.width : ℝ))
      (cam.camera.height / fin (image.height : ℝ)) image.width.toNat row column hcolN
      rows (fun r hr => by have := hrows r hr; omega) _ _ h2
    rw [hW] at h3
    exact h3.2

/-- Witness of C20: scenario A rendered into the `10 x 10` image, in which the centre
pixels are written; the primary ray of the corner pixel `(0, 0)` passes outside the
sphere, and the entry `0` of the buffer is the one before the render. -/
theorem raycaster_miss_pixel_untouched_witness :
    Typed (scenario_a (K := ℝ)) ∧ blank_image.Sized
    ∧ get_camera (scenario_a (K := ℝ)) ≠ -1
    ∧ ∃ (objects1 : List (Object ℝ)) (image1 : Image),
      raycaster ⟨Real.sqrt, Real.cos, Real.rpow, Real.pi⟩ scenario_a blank_image 0
        = some (objects1, image1)
      ∧ image1.image_data[(blank_image.width * ((0 : Nat) : Int) + ((0 : Nat) : Int)).toNat]?
        = blank_image.image_data[
            (blank_image.width * ((0 : Nat) : Int) + ((0 : Nat) : Int)).toNat]? := by
  have hidx : get_camera (scenario_a (K := ℝ)) ≠ -1 := by
    rw [show (scenario_a (K := ℝ)) = unit_camera :: [red_sphere, point_light_object] from rfl,
      get_camera_unit_camera]
    decide
  have hcam : (scenario_a (K := ℝ))[(get_camera (scenario_a (K := ℝ))).toNat]?
      = some unit_camera := by
    rw [show (scenario_a (K := ℝ)) = unit_camera :: [red_sphere, point_light_object] from rfl,
      get_camera_unit_camera]
    rfl
  refine ⟨scenario_a_typed, blank_image_sized, hidx, ?_⟩
  obtain ⟨u, hray, hu, hmiss⟩ := corner_ray 0 0 (Or.inl rfl) (Or.inl rfl)
  exact (raycaster_miss_pixel_untouched ⟨Real.sqrt, Real.cos, Real.rpow, Real.pi⟩
    scenario_a blank_image 0 unit_camera scenario_a_typed blank_image_sized hidx hcam 0 0
    (by decide) (by decide)
    (by
      intro o ho
      have ho1 : o ∈ (scenario_a (K := ℝ)) := ho
      have hray1 : normalize Real.sqrt (view_vector (unit_camera (K := ℝ)).camera.width
          (unit_camera (K := ℝ)).camera.height
          ((unit_camera (K := ℝ)).camera.width / fin ((blank_image.width : Int) : ℝ))
          ((unit_camera (K := ℝ)).camera.height / fin ((blank_image.height : Int) : ℝ))
          0 0) = vfin u := hray
      show Dbl.gt (hit_distance Real.sqrt _ _ o) (fin 0) = false
      rw [hray1]
      simp only [scenario_a, List.mem_cons, List.mem_singleton, List.not_mem_nil, or_false]
        at ho1
      have hro : (⟨fin 0, fin 0, fin 0⟩ : Vec3 (Dbl ℝ)) = vfin ⟨0, 0, 0⟩ := rfl
      rcases ho1 with rfl | rfl | rfl
      · rw [hit_distance_unit_camera]
        simp [Dbl.gt, Dbl.lt]
      · rw [hit_distance_red_sphere, hro, red_sphere_miss u hu hmiss]
        simp [Dbl.gt, Dbl.lt]
      · rw [hit_distance_point_light]
        simp [Dbl.gt, Dbl.lt])).2.2.2

/-- Witness of the amended C25: the scene with the plane of normal `(0,0,-2)`, in which
every object has a type, rendered into the image of one pixel. -/
theorem raycaster_keeps_all_but_normals_witness :
    (∃ o ∈ (long_normal_scene (K := ℝ)), o.type = some "camera")
    ∧ Typed (long_normal_scene (K := ℝ)) ∧ one_pixel_image.Sized
    ∧ ∃ (objects1 : List (Object ℝ)) (image1 : Image),
      raycaster ⟨Real.sqrt, Real.cos, Real.rpow, Real.pi⟩ long_normal_scene
        one_pixel_image 0 = some (objects1, image1)
      ∧ objects1.length = (long_normal_scene (K := ℝ)).length
      ∧ List.Forall₂ (fun o o1 : Object ℝ =>
          o1.type = o.type ∧ o1.camera = o.camera ∧ o1.sphere = o.sphere
          ∧ o1.light = o.light ∧ o1.plane.color = o.plane.color
          ∧ o1.plane.position = o.plane.position
          ∧ o1.plane.diffuse_color = o.plane.diffuse_color
          ∧ o1.plane.specular_color = o.plane.specular_color
          ∧ (o.type ≠ some "plane" → o1 = o)) long_normal_scene objects1 :=
  ⟨⟨unit_camera, by simp [long_normal_scene], rfl⟩, long_normal_scene_typed,
    one_pixel_image_sized,
    raycaster_keeps_all_but_normals ⟨Real.sqrt, Real.cos, Real.rpow, Real.pi⟩
      long_normal_scene one_pixel_image 0 ⟨unit_camera, by simp [long_normal_scene], rfl⟩
      long_normal_scene_typed one_pixel_image_sized⟩

/-! ## Scenario B with a plane of diffuse colour `(1,1,1)` -/

/-- The white plane has a normal that `normalize` leaves as it is. -/
theorem scenario_b_white_settled : Settled Real.sqrt (scenario_b_white (K := ℝ)) := by
  intro o ho hp
  simp only [scenario_b_white, List.mem_cons, List.mem_singleton, List.not_mem_nil,
    or_false] at ho
  rcases ho with rfl | rfl | rfl | rfl
  · simp [unit_camera, Object.zero] at hp
  · simp [red_sphere, Object.zero] at hp
  · simp [point_light_object, Object.zero] at hp
  · exact occluder_normal_unit

/-- The plane normals of the scene with the white plane are finite. -/
theorem scenario_b_white_finite : FiniteNormals (scenario_b_white (K := ℝ)) := by
  intro o ho _
  simp only [scenario_b_white, List.mem_cons, List.mem_singleton, List.not_mem_nil,
    or_false] at ho
  rcases ho with rfl | rfl | rfl | rfl
  · exact ⟨⟨0, 0, 0⟩, rfl⟩
  · exact ⟨⟨0, 0, 0⟩, rfl⟩
  · exact ⟨⟨0, 0, 0⟩, rfl⟩
  · exact ⟨⟨0, 0, -1⟩, rfl⟩

/-- The distance of the white plane along a ray from the origin with a positive third
component. -/
theorem hit_distance_white_plane (u : Vec3 ℝ) (hz : 0 < u.c2) :
    hit_distance Real.sqrt (vfin ⟨0, 0, 0⟩) (vfin u) white_plane = fin (5 / u.c2) := by
  have hty : (white_plane (K := ℝ)).type = some "plane" := rfl
  have hns : ¬ ((some "plane" : Option String) = some "sphere") := by decide
  have hps : (white_plane (K := ℝ)).plane.position = vfin ⟨0, 0, 5⟩ := rfl
  have hno : (white_plane (K := ℝ)).plane.normal = vfin ⟨0, 0, -1⟩ := rfl
  have hd1 : (⟨0, 0, -1⟩ : Vec3 ℝ).dot ((⟨0, 0, 5⟩ : Vec3 ℝ).sub ⟨0, 0, 0⟩) = -5 := by
    norm_num [Vec3.dot, Vec3.sub]
  have hd2 : (⟨0, 0, -1⟩ : Vec3 ℝ).dot u = -u.c2 := by
    simp [Vec3.dot]
  have hne : -u.c2 ≠ 0 := by linarith
  have hq : (-5 : ℝ) / -u.c2 = 5 / u.c2 := by rw [neg_div_neg_eq]
  have hpos : 0 ≤ 5 / u.c2 := by positivity
  simp only [hit_distance, object_intersection, hty, hns, if_false, hps, hno]
  rw [plane_intersection_fin _ _ _ _ (Or.inr (Or.inr (by norm_num))), occluder_normal_sdiv,
    hd1, hd2, fin_div_fin_of_ne _ hne, hq]
  simp [hpos]

/-- In the scene with the white plane the object intersection loop selects the plane,
index `3`: it is nearer than the sphere. -/
theorem scenario_b_white_primary_scan (u : Vec3 ℝ) (hu : u.normSq = 1) (hz : 0 < u.c2)
    (hhit : 99 < 100 * u.c2 ^ 2) (cl : Int) :
    primary_scan Real.sqrt (⟨fin 0, fin 0, fin 0⟩ : Vec3 (Dbl ℝ)) (vfin u) 0
      scenario_b_white pinf cl = (scenario_b_white, fin (5 / u.c2), 3) := by
  obtain ⟨t, ht9, -, ht, hd⟩ := red_sphere_distance u hu hz hhit
  have hle := Vec3.c2_sq_le_one hu
  have hz1 : u.c2 ≤ 1 := by nlinarith
  have hs : 0 < 5 / u.c2 := by positivity
  have hlt : 5 / u.c2 < t := by
    rw [div_lt_iff₀ hz]
    nlinarith
  have hro : (⟨fin 0, fin 0, fin 0⟩ : Vec3 (Dbl ℝ)) = vfin ⟨0, 0, 0⟩ := rfl
  apply Prod.ext
  · rw [primary_scan_fst, map_settle_of_settled Real.sqrt _ scenario_b_white_settled]
  · rw [hro]
    show (primary_scan Real.sqrt _ _ 0
      [unit_camera, red_sphere, point_light_object, white_plane] pinf cl).2 = _
    rw [primary_scan_cons, primary_scan_cons, primary_scan_cons, primary_scan_cons,
      hit_distance_unit_camera, hit_distance_red_sphere, hit_distance_point_light,
      hit_distance_white_plane u hz, hd]
    simp [primary_scan, Dbl.gt, Dbl.lt, ht, hs, hlt]

/-- In the scene with the white plane the code finds nothing between a point `t*u` of
the plane and the light at the origin: the sphere lies behind the shadow ray. -/
theorem scenario_b_white_unoccluded (u : Vec3 ℝ) (hu : u.normSq = 1) (hz : 0 < u.c2)
    (t : ℝ) (ht5 : t * u.c2 = 5) (ht10 : t < 10 * u.c2) :
    Dbl.eq (shadow_best Real.sqrt (vfin (⟨t * u.c0, t * u.c1, t * u.c2⟩ : Vec3 ℝ)) 3
      scenario_b_white point_light) pinf = true := by
  have hnsq : u.c0 ^ 2 + u.c1 ^ 2 + u.c2 ^ 2 = 1 := hu
  have ht : 0 < t := by
    by_contra hcon
    have : t * u.c2 ≤ 0 := mul_nonpos_of_nonpos_of_nonneg (not_lt.mp hcon) hz.le
    linarith
  have hqn : ((⟨0, 0, 0⟩ : Vec3 ℝ).sub ⟨t * u.c0, t * u.c1, t * u.c2⟩).normSq = t ^ 2 := by
    simp only [Vec3.normSq, Vec3.sub]
    linear_combination t ^ 2 * hnsq
  have hq : ((⟨0, 0, 0⟩ : Vec3 ℝ).sub ⟨t * u.c0, t * u.c1, t * u.c2⟩).Nonzero :=
    Vec3.nonzero_of_normSq_pos (by rw [hqn]; positivity)
  have hsq := Real.sqrt_pos.mpr (Vec3.normSq_pos hq)
  have hdot : 0 ≤ (((⟨0, 0, 0⟩ : Vec3 ℝ).sub ⟨t * u.c0, t * u.c1, t * u.c2⟩).sdiv
      (Real.sqrt ((⟨0, 0, 0⟩ : Vec3 ℝ).sub ⟨t * u.c0, t * u.c1, t * u.c2⟩).normSq)).dot
      ((⟨t * u.c0, t * u.c1, t * u.c2⟩ : Vec3 ℝ).sub ⟨0, 0, 10⟩) := by
    have e : ∀ (a b : Vec3 ℝ) (x : ℝ), (a.sdiv x).dot b = a.dot b / x := by
      intro a b x
      simp only [Vec3.dot, Vec3.sdiv]
      ring
    have e2 : ((⟨0, 0, 0⟩ : Vec3 ℝ).sub ⟨t * u.c0, t * u.c1, t * u.c2⟩).dot
        ((⟨t * u.c0, t * u.c1, t * u.c2⟩ : Vec3 ℝ).sub ⟨0, 0, 10⟩)
        = t * (10 * u.c2 - t) := by
      simp only [Vec3.dot, Vec3.sub]
      linear_combination (-(t ^ 2)) * hnsq
    rw [e, e2]
    exact div_nonneg (mul_nonneg ht.le (by linarith)) hsq.le
  have hfar : (1 : ℝ) ^ 2
      < ((⟨t * u.c0, t * u.c1, t * u.c2⟩ : Vec3 ℝ).sub ⟨0, 0, 10⟩).normSq := by
    simp only [Vec3.normSq, Vec3.sub]
    rw [ht5]
    nlinarith [sq_nonneg (t * u.c0 - 0), sq_nonneg (t * u.c1 - 0)]
  have hpos : (point_light (K := ℝ)).position = vfin ⟨0, 0, 0⟩ := rfl
  unfold shadow_best
  rw [shadow_scan_spec]
  refine ⟨rfl, ?_⟩
  intro j o hj hk
  have hgt : Dbl.gt (hit_distance Real.sqrt (vfin (⟨t * u.c0, t * u.c1, t * u.c2⟩ : Vec3 ℝ))
      (normalize Real.sqrt (vector_subtract (point_light (K := ℝ)).position
        (vfin ⟨t * u.c0, t * u.c1, t * u.c2⟩))) o) (fin 0) = false := by
    match j, hj with
    | 0, hj =>
      simp only [scenario_b_white, List.getElem?_cons_zero, Option.some.injEq] at hj
      subst hj
      rw [hit_distance_unit_camera]
      simp [Dbl.gt, Dbl.lt]
    | 1, hj =>
      simp only [scenario_b_white, List.getElem?_cons_succ, List.getElem?_cons_zero,
        Option.some.injEq] at hj
      subst hj
      rw [hit_distance_red_sphere, hpos, vector_subtract_fin, normalize_fin _ hq,
        sphere_intersection_behind _ _ _ _
          (Vec3.nonzero_of_normSq_eq_one (Vec3.normSq_sdiv_sqrt hq)) hdot hfar]
      simp [Dbl.gt, Dbl.lt]
    | 2, hj =>
      simp only [scenario_b_white, List.getElem?_cons_succ, List.getElem?_cons_zero,
        Option.some.injEq] at hj
      subst hj
      rw [hit_distance_point_light]
      simp [Dbl.gt, Dbl.lt]
    | 3, _ => exact absurd rfl hk
    | (n + 4), hj => simp [scenario_b_white] at hj
  rw [hgt]
  simp

/-- In the scene with the white plane the light iteration at a point `t*u` of the plane
sets the working colour to `(+inf, +inf, +inf)`: the diffuse term is positive in the
three channels and the radial attenuation is plus infinity. -/
theorem scenario_b_white_colour (u : Vec3 ℝ) (hu : u.normSq = 1) (hz : 0 < u.c2) (t : ℝ)
    (ht5 : t * u.c2 = 5) (ht10 : t < 10 * u.c2) (c : Vec3 (Dbl ℝ)) :
    (light_iteration ⟨Real.sqrt, Real.cos, Real.rpow, Real.pi⟩ (vfin u)
      (vfin ⟨t * u.c0, t * u.c1, t * u.c2⟩) 3 point_light (scenario_b_white, c)).2
      = ⟨pinf, pinf, pinf⟩ := by
  have hnsq : u.c0 ^ 2 + u.c1 ^ 2 + u.c2 ^ 2 = 1 := hu
  have ht : 0 < t := by
    by_contra hcon
    have : t * u.c2 ≤ 0 := mul_nonpos_of_nonpos_of_nonneg (not_lt.mp hcon) hz.le
    linarith
  have hqn : ((⟨0, 0, 0⟩ : Vec3 ℝ).sub ⟨t * u.c0, t * u.c1, t * u.c2⟩).normSq = t ^ 2 := by
    simp only [Vec3.normSq, Vec3.sub]
    linear_combination t ^ 2 * hnsq
  have hq : ((⟨0, 0, 0⟩ : Vec3 ℝ).sub ⟨t * u.c0, t * u.c1, t * u.c2⟩).Nonzero :=
    Vec3.nonzero_of_normSq_pos (by rw [hqn]; positivity)
  have hsq := Real.sqrt_pos.mpr (Vec3.normSq_pos hq)
  have hNL : 0 < (⟨0, 0, -1⟩ : Vec3 ℝ).dot
      (((⟨0, 0, 0⟩ : Vec3 ℝ).sub ⟨t * u.c0, t * u.c1, t * u.c2⟩).sdiv
        (Real.sqrt ((⟨0, 0, 0⟩ : Vec3 ℝ).sub ⟨t * u.c0, t * u.c1, t * u.c2⟩).normSq)) := by
    have e : (⟨0, 0, -1⟩ : Vec3 ℝ).dot
        (((⟨0, 0, 0⟩ : Vec3 ℝ).sub ⟨t * u.c0, t * u.c1, t * u.c2⟩).sdiv
          (Real.sqrt ((⟨0, 0, 0⟩ : Vec3 ℝ).sub ⟨t * u.c0, t * u.c1, t * u.c2⟩).normSq))
        = (t * u.c2)
          / Real.sqrt ((⟨0, 0, 0⟩ : Vec3 ℝ).sub ⟨t * u.c0, t * u.c1, t * u.c2⟩).normSq := by
      simp only [Vec3.dot, Vec3.sdiv, Vec3.sub]
      ring
    rw [e]
    exact div_pos (mul_pos ht hz) hsq
  have h := light_iteration_unoccluded ⟨Real.sqrt, Real.cos, Real.rpow, Real.pi⟩ rfl
    scenario_b_white (vfin u) ⟨t * u.c0, t * u.c1, t * u.c2⟩ ⟨0, 0, 0⟩ 3 white_plane
    point_light c rfl (Or.inr rfl) rfl (scenario_b_white_unoccluded u hu hz t ht5 ht10)
  simp only at h
  rw [Nat.cast_ofNat] at h
  rw [h]
  have hty : (white_plane (K := ℝ)).type = some "plane" := rfl
  have hns : ¬ ((some "plane" : Option String) = some "sphere") := by decide
  have hpos : (point_light (K := ℝ)).position = vfin ⟨0, 0, 0⟩ := rfl
  have hno : (white_plane (K := ℝ)).plane.normal = vfin ⟨0, 0, -1⟩ := rfl
  have hdc : (white_plane (K := ℝ)).plane.diffuse_color = vfin ⟨1, 1, 1⟩ := rfl
  have hsc : (white_plane (K := ℝ)).plane.specular_color = vfin ⟨0, 0, 0⟩ := rfl
  have hlc : (point_light (K := ℝ)).color = vfin ⟨1, 1, 1⟩ := rfl
  have hth : (point_light (K := ℝ)).theta = fin 0 := rfl
  have hdir : (point_light (K := ℝ)).direction = ⟨fin 0, fin 0, fin 0⟩ := rfl
  have ha0 : (point_light (K := ℝ)).radial_a0 = fin 0 := rfl
  have ha1 : (point_light (K := ℝ)).radial_a1 = fin 0 := rfl
  have ha2 : (point_light (K := ℝ)).radial_a2 = fin 0 := rfl
  simp only [hty, hns, if_false, hpos, hno, hdc, hsc, hlc, hth, hdir, ha0, ha1, ha2,
    vector_subtract_fin, normalize_fin _ hq, occluder_normal_unit, vector_reflection_fin,
    diffuse_reflection_fin, specular_highlight_zero, fang_theta_zero, frad_zero]
  simp only [vfin, attenuated_colour, max_eq_right hNL.le]
  have e1 : ∀ x : ℝ, 0 < x → (infOfSign (x * 1 * 1 + 0) : Dbl ℝ) = pinf := by
    intro x hx
    simp [infOfSign, hx, ne_of_gt hx]
  rw [e1 _ hNL]

/-- In the scene with the white plane the light loop at a point of the plane ends with
the colour `(+inf, +inf, +inf)`. -/
theorem scenario_b_white_light_loop (u : Vec3 ℝ) (hu : u.normSq = 1) (hz : 0 < u.c2)
    (t : ℝ) (ht5 : t * u.c2 = 5) (ht10 : t < 10 * u.c2) :
    light_loop ⟨Real.sqrt, Real.cos, Real.rpow, Real.pi⟩ (vfin u)
      (vfin ⟨t * u.c0, t * u.c1, t * u.c2⟩) 3 scenario_b_white ⟨fin 0, fin 0, fin 0⟩
      = (scenario_b_white, ⟨pinf, pinf, pinf⟩) := by
  have h1 : (unit_camera (K := ℝ)).type = some "camera" := rfl
  have h2 : (red_sphere (K := ℝ)).type = some "sphere" := rfl
  have h3 : (point_light_object (K := ℝ)).type = some "light" := rfl
  have h3p : (white_plane (K := ℝ)).type = some "plane" := rfl
  have h4 : Dbl.eq (shadow_best Real.sqrt (vfin (⟨t * u.c0, t * u.c1, t * u.c2⟩ : Vec3 ℝ)) 3
      scenario_b_white (point_light_object (K := ℝ)).light) pinf = true :=
    scenario_b_white_unoccluded u hu hz t ht5 ht10
  have h5 : (light_iteration ⟨Real.sqrt, Real.cos, Real.rpow, Real.pi⟩ (vfin u)
      (vfin ⟨t * u.c0, t * u.c1, t * u.c2⟩) 3 (point_light_object (K := ℝ)).light
      (scenario_b_white, ⟨fin 0, fin 0, fin 0⟩)).2 = ⟨pinf, pinf, pinf⟩ :=
    scenario_b_white_colour u hu hz t ht5 ht10 _
  have hrange : List.range (scenario_b_white (K := ℝ)).length = [0, 1, 2, 3] := rfl
  have e0 : (scenario_b_white (K := ℝ))[0]? = some unit_camera := rfl
  have e1 : (scenario_b_white (K := ℝ))[1]? = some red_sphere := rfl
  have e2 : (scenario_b_white (K := ℝ))[2]? = some point_light_object := rfl
  have e3 : (scenario_b_white (K := ℝ))[3]? = some white_plane := rfl
  unfold light_loop
  rw [light_step_foldl_settled ⟨Real.sqrt, Real.cos, Real.rpow, Real.pi⟩ _ _ _ _
    scenario_b_white_settled, hrange]
  simp only [List.foldl_cons, List.foldl_nil, e0, e1, e2, e3, Option.map_some',
    Option.getD_some, h1, h2, h3, h3p, h4, h5]
  simp

/-- In the scene with the white plane the pass for a pixel whose unit ray `u` would meet
the sphere stores the colour `(+inf, +inf, +inf)` of the plane. -/
theorem scenario_b_white_hit (w h pw ph : Dbl ℝ) (row column : Nat) (image : Image)
    (cl : Int) (u : Vec3 ℝ)
    (hray : normalize Real.sqrt (view_vector w h pw ph row column) = vfin u)
    (hu : u.normSq = 1) (hz : 0 < u.c2) (hhit : 99 < 100 * u.c2 ^ 2) :
    (render_pixel ⟨Real.sqrt, Real.cos, Real.rpow, Real.pi⟩ w h pw ph row column
      (scenario_b_white, image, cl)).2.1
      = store_pixel image row column (⟨pinf, pinf, pinf⟩ : Vec3 (Dbl ℝ)) := by
  have hscan := scenario_b_white_primary_scan u hu hz hhit cl
  have ht5 : 5 / u.c2 * u.c2 = 5 := div_mul_cancel₀ 5 (ne_of_gt hz)
  have ht10 : 5 / u.c2 < 10 * u.c2 := by
    rw [div_lt_iff₀ hz]
    nlinarith
  have hs : 0 < 5 / u.c2 := by positivity
  have hnew : vector_add (⟨fin 0, fin 0, fin 0⟩ : Vec3 (Dbl ℝ))
      (vector_scale (vfin u) (fin (5 / u.c2)))
      = vfin ⟨5 / u.c2 * u.c0, 5 / u.c2 * u.c1, 5 / u.c2 * u.c2⟩ := by
    simp [vector_add, vector_scale, vfin]
  have e3 : (scenario_b_white (K := ℝ))[(3 : Int).toNat]? = some white_plane := rfl
  have hty : (white_plane (K := ℝ)).type = some "plane" := rfl
  have hns : ¬ ((some "plane" : Option String) = some "sphere") := by decide
  have hcond : (Dbl.gt (fin (5 / u.c2)) (fin 0) && Dbl.ne (fin (5 / u.c2)) pinf) = true := by
    simp [Dbl.gt, Dbl.lt, Dbl.ne, Dbl.eq, hs]
  unfold render_pixel
  simp only [hray, hscan]
  rw [if_pos hcond]
  simp only [hnew, scenario_b_white_light_loop u hu hz (5 / u.c2) ht5 ht10, e3, hty, hns,
    if_false, if_true]

/-- The scene with the white plane rendered by `raycaster` into the `10 x 10` image: the
entry of a pixel is the one that the pass for that pixel writes into the initial
image. -/
theorem scenario_b_white_entry (cl : Int) (row column : Nat) (hr : row < 10)
    (hc : column < 10) :
    ∃ (objects1 : List (Object ℝ)) (image1 : Image),
      raycaster ⟨Real.sqrt, Real.cos, Real.rpow, Real.pi⟩ scenario_b_white blank_image cl
        = some (objects1, image1)
      ∧ image1.image_data[10 * row + column]?
        = (render_pixel ⟨Real.sqrt, Real.cos, Real.rpow, Real.pi⟩ (fin 1) (fin 1)
            (fin 1 / fin ((blank_image.width : Int) : ℝ))
            (fin 1 / fin ((blank_image.height : Int) : ℝ)) row column
            (scenario_b_white, blank_image, 0)).2.1.image_data[10 * row + column]? := by
  have hW : blank_image.width = 10 := rfl
  have hH : blank_image.height = 10 := rfl
  refine ⟨_, _, raycaster_of_camera ⟨Real.sqrt, Real.cos, Real.rpow, Real.pi⟩
    scenario_b_white blank_image cl 0 unit_camera (get_camera_unit_camera _) rfl, ?_⟩
  have h := pixel_loops_entry ⟨Real.sqrt, Real.cos, Real.rpow, Real.pi⟩ rfl
    scenario_b_white scenario_b_white_finite (unit_camera (K := ℝ)).camera.width
    (unit_camera (K := ℝ)).camera.height blank_image cl row column
    (by rw [hH]; omega) (by rw [hW]; omega)
  rw [blank_image_index] at h
  exact h

/-- The bytes stored for the working colour `(+inf, +inf, +inf)` with `max_color = 255`:
`clamp` brings plus infinity to `1`, and `1 * 255` is stored as `255`. -/
theorem store_pixel_inf (image : Image) (hmax : image.max_color = 255)
    (row column : Nat) :
    (store_pixel image row column (⟨pinf, pinf, pinf⟩ : Vec3 (Dbl ℝ))).image_data[
        (image.width * (row : Int) + (column : Int)).toNat]?
      = (image.image_data[(image.width * (row : Int) + (column : Int)).toNat]?).map
        (fun _ => (⟨255, 255, 255⟩ : Pixel)) := by
  have h1 : clamp (pinf : Dbl ℝ) (fin 0) (fin 1) = fin 1 := by
    simp [clamp, Dbl.gt, Dbl.lt]
  have h4 : Dbl.toUChar (fin 1 * fin ((255 : Int) : ℝ) : Dbl ℝ) = 255 := by
    have hfloor : Int.floor ((1 : ℝ) * ((255 : Int) : ℝ)) = 255 := by
      rw [one_mul]
      exact Int.floor_intCast 255
    have hnn : (0 : ℝ) ≤ (1 : ℝ) * ((255 : Int) : ℝ) := by norm_num
    simp only [fin_mul_fin, Dbl.toUChar, hnn, if_true, hfloor]
    decide
  rw [store_pixel_getElem_self, hmax]
  simp only [h1, h4]

/-- Counterexample to C28: the plane at `(0,0,5)` with normal `(0,0,-1)` lies between
the light at the origin and the visible point of the sphere, and with the diffuse colour
`(1,1,1)` it does not turn the centre pixels black.  In scenario A the centre pixel
`(4,4)` is lit (its red byte is `255`); in the scene with the plane added the same pixel
ends as `(255,255,255)`, not `(0,0,0)`: the plane is the nearest primitive on the primary
ray and is itself lit. -/
theorem scenario_b_white_centre_lit :
    (white_plane (K := ℝ)).type = some "plane"
    ∧ (white_plane (K := ℝ)).plane.position = vfin ⟨0, 0, 5⟩
    ∧ (white_plane (K := ℝ)).plane.normal = vfin ⟨0, 0, -1⟩
    ∧ (scenario_b_white (K := ℝ)) = scenario_a ++ [white_plane]
    ∧ (∃ (objects1 : List (Object ℝ)) (image1 : Image) (p : Pixel),
        raycaster ⟨Real.sqrt, Real.cos, Real.rpow, Real.pi⟩ scenario_a blank_image 0
          = some (objects1, image1)
        ∧ image1.image_data[10 * 4 + 4]? = some p ∧ p.red = 255)
    ∧ ∃ (objects1 : List (Object ℝ)) (image1 : Image),
        raycaster ⟨Real.sqrt, Real.cos, Real.rpow, Real.pi⟩ scenario_b_white blank_image 0
          = some (objects1, image1)
        ∧ image1.image_data[10 * 4 + 4]? = some ⟨255, 255, 255⟩
        ∧ image1.image_data[10 * 4 + 4]? ≠ some ⟨0, 0, 0⟩ := by
  obtain ⟨u, hray, hu, hz, hhit⟩ := centre_ray 4 4 (Or.inl rfl) (Or.inl rfl)
  refine ⟨rfl, rfl, rfl, rfl, ?_, ?_⟩
  · obtain ⟨objects1, image1, hres, hentry⟩ := scenario_a_entry 0 4 4 (by omega) (by omega)
    have hpass := scenario_a_hit (fin 1) (fin 1)
      (fin 1 / fin ((blank_image.width : Int) : ℝ))
      (fin 1 / fin ((blank_image.height : Int) : ℝ)) 4 4 blank_image 0 u hray hu hz hhit
    have hstore := store_pixel_inf_nan_nan blank_image rfl 4 4
    rw [blank_image_index, blank_image_entry _ (by omega)] at hstore
    refine ⟨objects1, image1,
      ⟨255, Dbl.toUChar (nan : Dbl ℝ), Dbl.toUChar (nan : Dbl ℝ)⟩, hres, ?_, rfl⟩
    rw [hentry, hpass, hstore]
    rfl
  · obtain ⟨objects1, image1, hres, hentry⟩ := scenario_b_white_entry 0 4 4 (by omega)
      (by omega)
    have hpass := scenario_b_white_hit (fin 1) (fin 1)
      (fin 1 / fin ((blank_image.width : Int) : ℝ))
      (fin 1 / fin ((blank_image.height : Int) : ℝ)) 4 4 blank_image 0 u hray hu hz hhit
    have hstore := store_pixel_inf blank_image rfl 4 4
    rw [blank_image_index, blank_image_entry _ (by omega)] at hstore
    have hfinal : image1.image_data[10 * 4 + 4]? = some ⟨255, 255, 255⟩ := by
      rw [hentry, hpass, hstore]
      rfl
    refine ⟨objects1, image1, hres, hfinal, ?_⟩
    rw [hfinal]
    intro hcon
    have h255 := congrArg Pixel.red (Option.some.inj hcon)
    exact absurd h255 (by decide)

/-- Claim C28, amended (scenario B).  The scene of scenario A followed by a plane at
`(0,0,5)` with normal `(0,0,-1)`, rendered into the `10 x 10` zero buffer with
`max_color = 255`: `raycaster` returns, and at each centre pixel (rows 4-5, columns 4-5)
the plane, not the sphere, is the primitive shown, with the colour that the light gives
to the plane.  With zero diffuse and specular colour the entry of the pixel is the one
that `store_pixel` writes for the working colour `(NaN, NaN, NaN)` (zero shading terms
times the radial attenuation `1/0`).  With the diffuse colour `(1,1,1)` the working
colour is `(+inf, +inf, +inf)` and the pixel ends as `(255,255,255)`. -/
theorem scenario_b_centre_shows_plane (closest_object : Int) :
    (∃ (objects1 : List (Object ℝ)) (image1 : Image),
      raycaster ⟨Real.sqrt, Real.cos, Real.rpow, Real.pi⟩ scenario_b blank_image
        closest_object = some (objects1, image1)
      ∧ ∀ row column : Nat, (row = 4 ∨ row = 5) → (column = 4 ∨ column = 5) →
          image1.image_data[10 * row + column]?
            = (store_pixel blank_image row column
                (⟨nan, nan, nan⟩ : Vec3 (Dbl ℝ))).image_data[10 * row + column]?)
    ∧ ∃ (objects1 : List (Object ℝ)) (image1 : Image),
      raycaster ⟨Real.sqrt, Real.cos, Real.rpow, Real.pi⟩ scenario_b_white blank_image
        closest_object = some (objects1, image1)
      ∧ ∀ row column : Nat, (row = 4 ∨ row = 5) → (column = 4 ∨ column = 5) →
          image1.image_data[10 * row + column]?
            = (store_pixel blank_image row column
                (⟨pinf, pinf, pinf⟩ : Vec3 (Dbl ℝ))).image_data[10 * row + column]?
          ∧ image1.image_data[10 * row + column]? = some ⟨255, 255, 255⟩ := by
  constructor
  · obtain ⟨objects1, image1, hres, -⟩ := scenario_b_entry closest_object 0 0 (by omega)
      (by omega)
    refine ⟨objects1, image1, hres, ?_⟩
    intro row column hr hc
    obtain ⟨u, hray, hu, hz, hhit⟩ := centre_ray row column hr hc
    have hpass := scenario_b_hit (fin 1) (fin 1)
      (fin 1 / fin ((blank_image.width : Int) : ℝ))
      (fin 1 / fin ((blank_image.height : Int) : ℝ)) row column blank_image 0 u hray hu hz
      hhit
    obtain ⟨objects2, image2, hres2, hentry⟩ := scenario_b_entry closest_object row column
      (by omega) (by omega)
    rw [hres] at hres2
    have himg : image1 = image2 := (Prod.mk.inj (Option.some.inj hres2)).2
    rw [himg, hentry, hpass]
  · obtain ⟨objects1, image1, hres, -⟩ := scenario_b_white_entry closest_object 0 0
      (by omega) (by omega)
    refine ⟨objects1, image1, hres, ?_⟩
    intro row column hr hc
    obtain ⟨u, hray, hu, hz, hhit⟩ := centre_ray row column hr hc
    have hpass := scenario_b_white_hit (fin 1) (fin 1)
      (fin 1 / fin ((blank_image.width : Int) : ℝ))
      (fin 1 / fin ((blank_image.height : Int) : ℝ)) row column blank_image 0 u hray hu hz
      hhit
    obtain ⟨objects2, image2, hres2, hentry⟩ := scenario_b_white_entry closest_object row
      column (by omega) (by omega)
    rw [hres] at hres2
    have himg : image1 = image2 := (Prod.mk.inj (Option.some.inj hres2)).2
    have hstore := store_pixel_inf blank_image rfl row column
    rw [blank_image_index, blank_image_entry _ (by omega)] at hstore
    have h1 : image1.image_data[10 * row + column]?
        = (store_pixel blank_image row column
            (⟨pinf, pinf, pinf⟩ : Vec3 (Dbl ℝ))).image_data[10 * row + column]? := by
      rw [himg, hentry, hpass]
    refine ⟨h1, ?_⟩
    rw [h1, hstore]
    rfl

end Raytracer
